import Mathlib

/-!
# vidsim: score cache, comparison stage, bucketing and compaction

A shallow embedding of the Go packages `state` and `processor` of
`abelikoff/vidsim`, with the properties of its specification proved (or
refuted) about the embedded code.

Conventions of the embedding.

* A Go `map[K]V` is an association list; `mapGet` returns the first binding,
  `mapSet` overwrites the first binding in place or appends a new one,
  `mapDelete` removes every binding of the key.
* A Go `[]byte` (and a Go `string`, which is a byte sequence) is a `List Byte`.
* A Go `int` is an `Int`; the conversions `uint64(x)` and `int(u)` are the
  explicit wrap-arounds `toUint64` and `toInt`.  Counters that are only
  incremented (`nextBucket`, the statistics) are not wrapped.
* A `float32` score is its IEEE-754 bit pattern; negation and the comparisons
  are defined on the bit pattern.  The one `float32` division of the code (the
  compaction gate) is computed exactly, with rounding to nearest, ties to even.
* What the code asks of the operating system and of library functions
  (`os.Stat`, `filepath.Glob`, `filepath.Join`, `fmt.Sprintf`, and whether a
  `txn.Delete` of the compaction is refused) is a parameter, the structure
  `Env`; files removed from disk are part of the result.
* The badger store is an association list from key bytes to value bytes; a
  transaction that commits is a function on that list, and an iteration over
  a prefix yields the records in key order.  Two errors of a write are part of
  the embedding, because the code goes on after them: `txn.Set` of a frame key
  of more than `maxKeySize` bytes (`txnSetFails`), and `txn.Delete` in step 2
  of the compaction (`Env.txnDeleteFails`).  Other storage failures (a failing
  commit, an I/O error) are not modelled.
* A Go run-time panic (index out of range when decoding a value that is too
  short) is the result `none`.
* Mutexes, goroutines and logging are not modelled: every function below is
  the sequential effect of the corresponding Go function.
-/

namespace Vidsim

/-! ## Go maps -/

/-- Map lookup `m[k]`: the first binding of `k`, if any. -/
def mapGet {κ ν : Type} [DecidableEq κ] : List (κ × ν) → κ → Option ν
  | [], _ => none
  | (k', v) :: rest, k => if k' = k then some v else mapGet rest k

/-- Map assignment `m[k] = v`: overwrite the first binding or append one. -/
def mapSet {κ ν : Type} [DecidableEq κ] : List (κ × ν) → κ → ν → List (κ × ν)
  | [], k, v => [(k, v)]
  | (k', v') :: rest, k, v =>
    if k' = k then (k, v) :: rest else (k', v') :: mapSet rest k v

/-- Map deletion `delete(m, k)`: no binding of `k` remains. -/
def mapDelete {κ ν : Type} [DecidableEq κ] (m : List (κ × ν)) (k : κ) : List (κ × ν) :=
  m.filter (fun e => decide (e.1 ≠ k))

/-! ## Bytes, integers and `encoding/binary` -/

/-- A byte. -/
abbrev Byte := Fin 256

/-- The low eight bits of a number. -/
def byte (n : Nat) : Byte := ⟨n % 256, Nat.mod_lt n (by decide)⟩

/-- A value of Go type `uint32`. -/
abbrev uint32 := Fin 4294967296

/-- The conversion `uint64(x)` of a Go `int`: reduction modulo `2^64`. -/
def toUint64 (x : Int) : Nat := (x % 18446744073709551616).toNat

/-- The conversion `int(u)` of a Go `uint64`: two's complement reading. -/
def toInt (u : Nat) : Int :=
  if u % 18446744073709551616 < 9223372036854775808 then
    ((u % 18446744073709551616 : Nat) : Int)
  else ((u % 18446744073709551616 : Nat) : Int) - 18446744073709551616

/-- `binary.BigEndian.PutUint64` into a fresh 8-byte slice. -/
def PutUint64 (v : Nat) : List Byte :=
  [byte (v / 72057594037927936), byte (v / 281474976710656), byte (v / 1099511627776),
   byte (v / 4294967296), byte (v / 16777216), byte (v / 65536), byte (v / 256), byte v]

/-- `binary.BigEndian.Uint64`: reads the first eight bytes, panics on fewer. -/
def Uint64 : List Byte → Option Nat
  | b0 :: b1 :: b2 :: b3 :: b4 :: b5 :: b6 :: b7 :: _ =>
    some (b0.val * 72057594037927936 + b1.val * 281474976710656 + b2.val * 1099511627776
      + b3.val * 4294967296 + b4.val * 16777216 + b5.val * 65536 + b6.val * 256 + b7.val)
  | _ => none

/-- `binary.BigEndian.PutUint32` into the first four bytes. -/
def PutUint32 (v : uint32) : List Byte :=
  [byte (v.val / 16777216), byte (v.val / 65536), byte (v.val / 256), byte v.val]

/-- `binary.BigEndian.Uint32`: reads the first four bytes, panics on fewer. -/
def Uint32 : List Byte → Option uint32
  | b0 :: b1 :: b2 :: b3 :: _ =>
    some ⟨(b0.val * 16777216 + b1.val * 65536 + b2.val * 256 + b3.val) % 4294967296,
      Nat.mod_lt _ (by decide)⟩
  | _ => none

/-! ## `float32` as a bit pattern -/

/-- A Go `float32`, given by its IEEE-754 binary32 bit pattern. -/
structure float32 where
  bits : uint32
deriving DecidableEq

/-- `math.Float32bits`. -/
def Float32bits (f : float32) : uint32 := f.bits

/-- `math.Float32frombits`. -/
def Float32frombits (b : uint32) : float32 := ⟨b⟩

namespace float32

/-- The float with the given bit pattern (reduced modulo `2^32`). -/
def ofBits (n : Nat) : float32 := ⟨⟨n % 4294967296, Nat.mod_lt n (by decide)⟩⟩

/-- Positive zero. -/
def zero : float32 := ofBits 0

/-- The sign bit. -/
def sign (f : float32) : Bool := decide (2147483648 ≤ f.bits.val)

/-- The bit pattern without the sign bit: the magnitude. -/
def magnitude (f : float32) : Nat := f.bits.val % 2147483648

/-- Not-a-number: exponent all ones, mantissa non-zero. -/
def isNaN (f : float32) : Bool := decide (2139095040 < f.magnitude)

/-- Unary minus `-x`: the sign bit is flipped. -/
def neg (f : float32) : float32 := ofBits (f.bits.val + 2147483648)

/-- The position of a non-NaN float on the number line, up to the order:
magnitudes compare like their bit patterns and both zeros sit at `0`. -/
def key (f : float32) : Int :=
  if f.sign then -(f.magnitude : Int) else (f.magnitude : Int)

/-- The comparison `x < y` of Go (false when either side is NaN). -/
def lt (x y : float32) : Bool := !x.isNaN && !y.isNaN && decide (x.key < y.key)

/-- The comparison `x <= y` of Go (false when either side is NaN). -/
def le (x y : float32) : Bool := !x.isNaN && !y.isNaN && decide (x.key ≤ y.key)

end float32

/-! ## Package `state` -/

/-- A Go string: a sequence of bytes. -/
abbrev GoString := List Byte

structure matchScore where
  Score : float32
  FalsePositive : Bool
deriving DecidableEq

structure State where
  dataDirectory : GoString
  persistent : Bool
  image2frame : List (GoString × Int)
  frame2image : List (Int × GoString)
  nextframeID : Int
  matchScores : List ((Int × Int) × matchScore)
  db : List (List Byte × List Byte)
deriving DecidableEq

/-- The bytes of `"f:"`. -/
def framePrefix : List Byte := [102, 58]

/-- The bytes of `"s:"`. -/
def scorePrefix : List Byte := [115, 58]

def MakeState : State :=
  { dataDirectory := [], persistent := false, image2frame := [], frame2image := [],
    nextframeID := 1, matchScores := [], db := [] }

def encodeFrameKey (path : GoString) : List Byte := framePrefix ++ path

def decodeFrameKey (encoded : List Byte) : GoString := encoded.drop framePrefix.length

def encodeFrameValue (frameID : Int) : List Byte := PutUint64 (toUint64 frameID)

def decodeFrameValue (encoded : List Byte) : Option Int := (Uint64 encoded).map toInt

def encodeScoreKey (frameID1 frameID2 : Int) : List Byte :=
  if frameID1 > frameID2 then
    scorePrefix ++ PutUint64 (toUint64 frameID2) ++ PutUint64 (toUint64 frameID1)
  else
    scorePrefix ++ PutUint64 (toUint64 frameID1) ++ PutUint64 (toUint64 frameID2)

/-- Decoding of a score key; `encoded[prefixLen : prefixLen+8]` and the read of
eight more bytes panic on a key shorter than 18 bytes. -/
def decodeScoreKey (encoded : List Byte) : Option (Int × Int) :=
  if encoded.length < scorePrefix.length + 8 then none
  else do
    let frameID1 ← Uint64 ((encoded.drop scorePrefix.length).take 8)
    let frameID2 ← Uint64 (encoded.drop (scorePrefix.length + 8))
    pure (toInt frameID1, toInt frameID2)

def boolToByte (b : Bool) : Byte := if b then 1 else 0

def encodeScoreData (score : float32) (falsePositive : Bool) : Except String (List Byte) :=
  .ok (PutUint32 (Float32bits score) ++ [boolToByte falsePositive])

/-- Decoding of a score value; panics on fewer than five bytes. -/
def decodeScoreData (encoded : List Byte) : Option (float32 × Bool) := do
  let bits ← Uint32 (encoded.take 4)
  let flag ← encoded[4]?
  pure (Float32frombits bits, decide (flag ≠ 0))

/-- A missing key gives `(0, false)`; a stored value that is too short panics. -/
def getComparisonScorePersistent (state : State) (frameID1 frameID2 : Int) :
    Option (float32 × Bool) :=
  match mapGet state.db (encodeScoreKey frameID1 frameID2) with
  | none => some (float32.zero, false)
  | some val => do
    let (score, falsePositive) ← decodeScoreData val
    if falsePositive then pure (score.neg, true) else pure (score, true)

/-- An encoding error would leave the store as it is (the error is logged). -/
def setComparisonScorePersistent (state : State) (frameID1 frameID2 : Int)
    (score : float32) : State :=
  match encodeScoreData score false with
  | .error _ => state
  | .ok val => { state with db := mapSet state.db (encodeScoreKey frameID1 frameID2) val }

/-- A missing key leaves the store as it is (the error is logged); `val[4]`
panics on a stored value shorter than five bytes. -/
def unmatchFramesPersistent (state : State) (frameID1 frameID2 : Int)
    (falsePositive : Bool) : Option State :=
  let key := encodeScoreKey frameID1 frameID2
  match mapGet state.db key with
  | none => some state
  | some val =>
    if val.length ≤ 4 then none
    else some { state with db := mapSet state.db key (val.set 4 (boolToByte falsePositive)) }

def GetComparisonScore (state : State) (frameID1 frameID2 : Int) : Option (float32 × Bool) :=
  if state.persistent then getComparisonScorePersistent state frameID1 frameID2
  else
    let key : Int × Int :=
      if frameID1 > frameID2 then (frameID2, frameID1) else (frameID1, frameID2)
    match mapGet state.matchScores key with
    | none => some (float32.zero, false)
    | some info => if info.FalsePositive then some (info.Score.neg, true) else some (info.Score, true)

def SetComparisonScore (state : State) (frameID1 frameID2 : Int) (score : float32) : State :=
  if state.persistent then setComparisonScorePersistent state frameID1 frameID2 score
  else
    let key : Int × Int :=
      if frameID1 > frameID2 then (frameID2, frameID1) else (frameID1, frameID2)
    { state with
      matchScores := mapSet state.matchScores key { Score := score, FalsePositive := false } }

def UnmatchFrames (state : State) (frameID1 frameID2 : Int) (falsePositive : Bool) :
    Option State :=
  if !state.persistent then some state
  else unmatchFramesPersistent state frameID1 frameID2 falsePositive

/-! ## Compaction -/

/-- What `CompactDataStore` asks of the operating system and of the libraries:
`os.Stat` followed by `os.IsNotExist`, `filepath.Glob` (`none` is its error
result), `filepath.Join`, `fmt.Sprintf("frame%06d.jpg", frameID)`, and whether
`txn.Delete(key)` returns an error in a transaction that holds the deletions
of the keys `pending` (badger refuses a write when the transaction has grown
too big). -/
structure Env where
  statNotExist : GoString → Bool
  glob : GoString → Option (List GoString)
  join : GoString → GoString → GoString
  sprintfFrame : Int → GoString
  txnDeleteFails : (pending : List (List Byte)) → (key : List Byte) → Bool

def GetFrameFileName (env : Env) (state : State) (frameID : Int) : GoString :=
  env.join state.dataDirectory (env.sprintfFrame frameID)

/-- The order of keys in the store: `bytes.Compare(x, y) <= 0`. -/
def keyLE : List Byte → List Byte → Bool
  | [], _ => true
  | _ :: _, [] => false
  | x :: xs, y :: ys =>
    if x.val < y.val then true else if y.val < x.val then false else keyLE xs ys

/-- A record put into its place in a list of records in key order. -/
def insertRecord (e : List Byte × List Byte) :
    List (List Byte × List Byte) → List (List Byte × List Byte)
  | [] => [e]
  | x :: rest => if keyLE e.1 x.1 then e :: x :: rest else x :: insertRecord e rest

/-- The records in key order. -/
def sortRecords (l : List (List Byte × List Byte)) : List (List Byte × List Byte) :=
  l.foldr insertRecord []

/-- The records an iterator yields for `Seek(prefix)` / `ValidForPrefix(prefix)`:
those whose key starts with the prefix, in key order. -/
def recordsWithPrefix (db : List (List Byte × List Byte)) (pfx : List Byte) :
    List (List Byte × List Byte) :=
  sortRecords (db.filter (fun e => pfx.isPrefixOf e.1))

/-- The quotient `a / b` rounded to an integer, half to even. -/
def divRoundHalfEven (a b : Nat) : Nat :=
  if 2 * (a % b) < b then a / b
  else if b < 2 * (a % b) then a / b + 1
  else if (a / b) % 2 = 0 then a / b else a / b + 1

/-- The least `t` (up to the fuel) with `target ≤ a * 2^t`. -/
def scaleUp : Nat → Nat → Nat → Nat
  | 0, _, _ => 0
  | fuel + 1, a, target => if target ≤ a then 0 else scaleUp fuel (2 * a) target + 1

/-- The least `u` (up to the fuel) with `a < bound * 2^u`. -/
def scaleDown : Nat → Nat → Nat → Nat
  | 0, _, _ => 0
  | fuel + 1, a, bound => if a < bound then 0 else scaleDown fuel a (2 * bound) + 1

/-- The conversion `float32(k)` of a non-negative Go `int`: the nearest
binary32 value, which is an integer again.  It is exact below `2^24`; above,
the bits beyond the 24 leading ones are rounded away, half to even. -/
def float32OfNat (k : Nat) : Nat :=
  if k < 16777216 then k
  else
    let drop := scaleDown k k 16777216
    divRoundHalfEven k (2 ^ drop) * 2 ^ drop

/-- The binary32 quotient `a / b` of two positive integers, as the fraction
`(numerator, denominator)`: the quotient is scaled to a 24-bit significand,
rounded half to even, and scaled back.  Overflow and subnormal results do not
arise for operands below `2^64`.  For `a = 0` the quotient is zero; `b = 0`
does not occur (the caller has returned before dividing). -/
def float32Quot (a b : Nat) : Nat × Nat :=
  if a = 0 ∨ b = 0 then (0, 1)
  else
    let up := scaleUp (b * 8388608) a (b * 8388608)
    let down := scaleDown a (a * 2 ^ up) (b * 16777216)
    (divRoundHalfEven (a * 2 ^ up) (b * 2 ^ down) * 2 ^ down, 2 ^ up)

/-- The constant `minViableFraction = 0.4` as a `float32`: the binary32 value
nearest to `2/5`, which is `13421773 / 2^25`. -/
def minViableFraction : Nat × Nat := float32Quot 2 5

/-- The test `float32(numExistingFiles)/float32(numFrameEntries) < minViableFraction`. -/
def compactionAborts (numFrameEntries numExistingFiles : Nat) : Bool :=
  let ratio := float32Quot (float32OfNat numExistingFiles) (float32OfNat numFrameEntries)
  decide (ratio.1 * minViableFraction.2 < minViableFraction.1 * ratio.2)

/-- Step 1 of `CompactDataStore`: `(numFrameEntries, numExistingFiles)`. -/
def countFrameEntries (env : Env) (db : List (List Byte × List Byte)) : Nat × Nat :=
  (recordsWithPrefix db framePrefix).foldl
    (fun counts item =>
      let filename := decodeFrameKey item.1
      (counts.1 + 1, if !env.statNotExist filename then counts.2 + 1 else counts.2))
    (0, 0)

/-- The body of the loop of step 2 of `CompactDataStore`.  The accumulator is
the store, `validFrames`, `validImages`, and the keys deleted so far in the
transaction.  When `txn.Delete` returns an error the record stays (the error
is logged, the loop goes on).  Decoding a frame value of fewer than eight
bytes panics. -/
def compactFramesStep (env : Env) (state : State)
    (acc : List (List Byte × List Byte) × List (Int × Bool) × List (GoString × Bool) ×
      List (List Byte))
    (item : List Byte × List Byte) :
    Option (List (List Byte × List Byte) × List (Int × Bool) × List (GoString × Bool) ×
      List (List Byte)) := do
  let key := item.1
  let filename := decodeFrameKey key
  if env.statNotExist filename then
    if env.txnDeleteFails acc.2.2.2 key then pure acc
    else pure (mapDelete acc.1 key, acc.2.1, acc.2.2.1, acc.2.2.2 ++ [key])
  else
    let frameID ← decodeFrameValue item.2
    pure (acc.1, mapSet acc.2.1 frameID true,
      mapSet acc.2.2.1 (GetFrameFileName env state frameID) true, acc.2.2.2)

/-- Step 2 of `CompactDataStore`, one transaction over the frame records: the
store without the frame records of missing files whose deletion went through,
`validFrames` and `validImages`. -/
def compactFrames (env : Env) (state : State) :
    Option (List (List Byte × List Byte) × List (Int × Bool) × List (GoString × Bool)) := do
  let final ← (recordsWithPrefix state.db framePrefix).foldlM (compactFramesStep env state)
    (state.db, [], [], [])
  pure (final.1, final.2.1, final.2.2.1)

def maxBatchSize : Nat := 1000

/-- The body of the loop of step 3 of `CompactDataStore`.  The accumulator is
the store, the write batch `wb` (the keys whose deletion is pending) and
`batchSize`.  A key goes into the batch when one of its frames is not valid;
when the batch is full, `wb.Flush()` applies the pending deletions and an
empty batch is started.  Decoding a score key shorter than 18 bytes panics. -/
def compactScoresStep (validFrames : List (Int × Bool))
    (acc : List (List Byte × List Byte) × List (List Byte) × Nat)
    (item : List Byte × List Byte) :
    Option (List (List Byte × List Byte) × List (List Byte) × Nat) := do
  let key := item.1
  let (frameID1, frameID2) ← decodeScoreKey key
  if !(mapGet validFrames frameID1).getD false || !(mapGet validFrames frameID2).getD false
  then
    let wb := acc.2.1 ++ [key]
    let batchSize := acc.2.2 + 1
    if batchSize ≥ maxBatchSize then
      pure (wb.foldl mapDelete acc.1, [], 0)
    else
      pure (acc.1, wb, batchSize)
  else
    pure acc

/-- Step 3 of `CompactDataStore`: the loop over the score records, starting
with an empty write batch; after the loop `wb.Cancel()` discards the
deletions that are still pending, so the result is the store as the last
flush left it. -/
def compactScores (db : List (List Byte × List Byte)) (validFrames : List (Int × Bool)) :
    Option (List (List Byte × List Byte)) := do
  let final ← (recordsWithPrefix db scorePrefix).foldlM (compactScoresStep validFrames)
    (db, [], 0)
  pure final.1

/-- Whether step 3 puts a score key into the write batch: the key decodes and
one of its two frame IDs is not in `validFrames`. -/
def staleScoreKey (validFrames : List (Int × Bool)) (key : List Byte) : Bool :=
  match decodeScoreKey key with
  | some ids => !(mapGet validFrames ids.1).getD false || !(mapGet validFrames ids.2).getD false
  | none => false

/-- Step 4 of `CompactDataStore`: the thumbnail files handed to `os.Remove`. -/
def staleImageFiles (env : Env) (state : State) (validImages : List (GoString × Bool)) :
    List GoString :=
  match env.glob (env.join state.dataDirectory [42, 46, 106, 112, 103]) with
  | none => []
  | some files => files.filter (fun imageFile => !(mapGet validImages imageFile).getD false)

/-- The result is the state afterwards, the files removed from disk, and the
error returned; `none` is a panic.  The printed summary is left out. -/
def CompactDataStore (env : Env) (state : State) :
    Option (State × List GoString × Option String) :=
  if !state.persistent then
    some (state, [], some "only supported with persistence")
  else
    let counts := countFrameEntries env state.db
    let numFrameEntries := counts.1
    let numExistingFiles := counts.2
    if numFrameEntries = 0 then some (state, [], none)
    else if compactionAborts numFrameEntries numExistingFiles then some (state, [], none)
    else do
      let (db2, validFrames, validImages) ← compactFrames env state
      let db3 ← compactScores db2 validFrames
      pure ({ state with db := db3 }, staleImageFiles env state validImages, none)

/-! ## Package `processor` -/

/-- `ScoreSimilar`, the float32 nearest to `0.001` (bit pattern `0x3A83126F`). -/
def ScoreSimilar : float32 := float32.ofBits 981668463

/-- `ScoreDifferent`, `1.0` (bit pattern `0x3F800000`). -/
def ScoreDifferent : float32 := float32.ofBits 1065353216

/-- `SimilarityThreshold`, `0.5` (bit pattern `0x3F000000`). -/
def SimilarityThreshold : float32 := float32.ofBits 1056964608

structure fcmpRequest where
  frameID1 : Int
  frameID2 : Int
deriving DecidableEq

structure fcmpResponse where
  frameID1 : Int
  frameID2 : Int
  score : float32
  err : Option String
deriving DecidableEq

/-- The counters of `StatsCollector`; the progress bar and the clock are left out. -/
structure StatsCollector where
  NumFilesToProcess : Int
  NumFramesToGenerate : Int
  NumFramesGenerated : Int
  NumTotalComparisons : Int
  NumComparisonsMade : Int
  NumCacheHits : Int
  NumMatches : Int
  NumFalsePositives : Int
deriving DecidableEq

def StatsCollector.IncNumComparisonsMade (stats : StatsCollector) : StatsCollector :=
  { stats with NumComparisonsMade := stats.NumComparisonsMade + 1 }

/-- The fields of `Processor` that the comparison stage reads or writes.
`IgnoreFalsePositives` is read by `isFalsePositive`; its declaration is not
among the source files, so it is a field here. -/
structure Processor where
  frames : List Int
  groups : List (Int × List Int)
  state : State
  stats : StatsCollector
  frameBuckets : List (Int × Int)
  nextBucket : Int
  IgnoreFalsePositives : Bool
deriving DecidableEq

/-- The processor as `MakeProcessor` leaves it, for a state already initialised. -/
def MakeProcessor (state : State) : Processor :=
  { frames := [], groups := [], state := state,
    stats := ⟨0, 0, 0, 0, 0, 0, 0, 0⟩,
    frameBuckets := [], nextBucket := 1, IgnoreFalsePositives := false }

def newBucket (proc : Processor) : Int × Processor :=
  (proc.nextBucket, { proc with nextBucket := proc.nextBucket + 1 })

def isFalsePositive (proc : Processor) (score : float32) : Bool :=
  float32.lt score float32.zero && !proc.IgnoreFalsePositives

def bucketResults (proc : Processor) (frameID1 frameID2 : Int) (score : float32) : Processor :=
  if isFalsePositive proc score then
    { proc with
      stats := { proc.stats with NumFalsePositives := proc.stats.NumFalsePositives + 1 } }
  else if float32.le score SimilarityThreshold then
    let chosen : Int × Processor :=
      match mapGet proc.frameBuckets frameID1 with
      | some bucket => (bucket, proc)
      | none =>
        match mapGet proc.frameBuckets frameID2 with
        | some bucket => (bucket, proc)
        | none => newBucket proc
    let resultingBucket := chosen.1
    let proc := chosen.2
    { proc with
      frameBuckets :=
        mapSet (mapSet proc.frameBuckets frameID1 resultingBucket) frameID2 resultingBucket
      stats := { proc.stats with NumMatches := proc.stats.NumMatches + 1 } }
  else proc

/-- What `generateComparisonJobs` does with one considered pair: a cache hit is
consumed at once, a miss is sent on the request queue. -/
inductive cmpEvent where
  | cacheHit (frameID1 frameID2 : Int) (score : float32)
  | request (req : fcmpRequest)
deriving DecidableEq

/-- The body of the inner loop of `generateComparisonJobs` for one pair.  The
accumulator is the processor and the record, in order, of what was done with
each pair considered so far. -/
def compareStep (acc : Processor × List cmpEvent) (frameID1 frameID2 : Int) :
    Option (Processor × List cmpEvent) := do
  let proc := acc.1
  let (score, found) ← GetComparisonScore proc.state frameID1 frameID2
  if found then
    let proc := bucketResults proc frameID1 frameID2 score
    let proc := { proc with stats := { proc.stats with NumCacheHits := proc.stats.NumCacheHits + 1 } }
    let proc := { proc with stats := proc.stats.IncNumComparisonsMade }
    pure (proc, acc.2 ++ [cmpEvent.cacheHit frameID1 frameID2 score])
  else
    pure (proc, acc.2 ++ [cmpEvent.request { frameID1 := frameID1, frameID2 := frameID2 }])

/-- The two nested loops `for ii := range numFrames` and `for jj := range ii`
of `generateComparisonJobs`, run to the end.  The result is the processor
afterwards and the record of the pairs considered, in order; the requests of
the record are what was sent on the request queue. -/
def generateComparisonJobs (proc : Processor) : Option (Processor × List cmpEvent) :=
  let numFrames : Int := proc.frames.length
  let proc0 : Processor :=
    { proc with
      stats := { proc.stats with
        NumTotalComparisons := Int.tdiv (numFrames * (numFrames - 1)) 2 } }
  (List.range proc.frames.length).foldlM
    (fun acc ii => do
      let frameID1 ← proc.frames[ii]?
      (List.range ii).foldlM
        (fun acc jj => do
          let frameID2 ← proc.frames[jj]?
          compareStep acc frameID1 frameID2)
        acc)
    (proc0, [])

/-- The pairs a record is about, in order. -/
def cmpEvent.pair : cmpEvent → Int × Int
  | .cacheHit frameID1 frameID2 _ => (frameID1, frameID2)
  | .request req => (req.frameID1, req.frameID2)

/-- The requests of a record: what went onto the request queue, in order. -/
def requestsOf (trace : List cmpEvent) : List fcmpRequest :=
  trace.filterMap (fun ev => match ev with
    | .request req => some req
    | .cacheHit _ _ _ => none)

/-- The cache hits of a record. -/
def cacheHitsOf (trace : List cmpEvent) : List cmpEvent :=
  trace.filter (fun ev => match ev with
    | .request _ => false
    | .cacheHit _ _ _ => true)

/-- The loop of `processComparisonResults` over the responses received. -/
def processComparisonResults (proc : Processor) (responses : List fcmpResponse) : Processor :=
  responses.foldl
    (fun proc response =>
      let proc :=
        if response.err.isNone then
          bucketResults
            { proc with
              state := SetComparisonScore proc.state response.frameID1 response.frameID2
                response.score }
            response.frameID1 response.frameID2 response.score
        else proc
      { proc with stats := proc.stats.IncNumComparisonsMade })
    proc

/-- The pairs `(frames[i], frames[j])` for `i` from `0` to `N-1` and, for each
`i`, `j` from `0` to `i-1`: the nested ascending enumeration. -/
def enumeratedPairs (frames : List Int) : List (Int × Int) :=
  (List.range frames.length).flatMap
    (fun i => (List.range i).map (fun j => (frames.getD i 0, frames.getD j 0)))

/-- What the loop body of `generateComparisonJobs` records for a pair whose
lookup does not panic: a cache hit when the score is found, else a request. -/
def eventFor (st : State) (p : Int × Int) : cmpEvent :=
  match GetComparisonScore st p.1 p.2 with
  | some (score, true) => cmpEvent.cacheHit p.1 p.2 score
  | _ => cmpEvent.request { frameID1 := p.1, frameID2 := p.2 }

/-! ## The bucket invariant, and concrete states used as witnesses and counterexamples -/

/-- A persistent store holding the score `+0.0` for the pair `(1, 2)`. -/
def storeZeroScore : State :=
  { MakeState with persistent := true, db := [(encodeScoreKey 1 2, [0, 0, 0, 0, 0])] }

/-- A persistent store holding the score `ScoreSimilar` for the pair `(1, 2)`. -/
def storeSimilarScore : State :=
  { MakeState with persistent := true, db := [(encodeScoreKey 1 2, [58, 131, 18, 111, 0])] }

/-- Every bucket identifier in use is smaller than the next identifier to be
handed out by `newBucket`. -/
def bucketsBelowNext (proc : Processor) : Prop :=
  ∀ e ∈ proc.frameBuckets, e.2 < proc.nextBucket

/-- A bucket state with frame 1 in bucket 1 and frame 2 in bucket 2. -/
def procTwoBuckets : Processor :=
  { MakeProcessor MakeState with frameBuckets := [(1, 1), (2, 2)], nextBucket := 3 }

/-- A bucket state with frame 1 in bucket 1 and nothing else assigned. -/
def procOneBucket : Processor :=
  { MakeProcessor MakeState with frameBuckets := [(1, 1)], nextBucket := 2 }

/-- A processor about to compare the frames 1, 2 and 3 with an empty in-memory
score cache. -/
def procThreeFrames : Processor :=
  { MakeProcessor MakeState with frames := [1, 2, 3] }

/-- The responses of a first run over `procThreeFrames` in which every oracle
call succeeded, in an order other than the order of dispatch. -/
def responsesThreeFrames : List fcmpResponse :=
  [ { frameID1 := 3, frameID2 := 2, score := ScoreSimilar, err := none },
    { frameID1 := 2, frameID2 := 1, score := ScoreSimilar, err := none },
    { frameID1 := 3, frameID2 := 1, score := ScoreDifferent, err := none } ]

/-- The processor of a second run: the frames 1, 2, 3 enumerated in another
order, with the score cache the first run left behind. -/
def procThreeFramesAgain : Processor :=
  { MakeProcessor
      (processComparisonResults procThreeFrames responsesThreeFrames).state with
    frames := [3, 1, 2] }

/-- An environment in which, of the one-byte paths, exactly those with a byte
from 1 to `k` exist; the data directory holds no thumbnail files; no deletion
fails. -/
def envExisting (k : Nat) : Env :=
  { statNotExist := fun path =>
      match path with
      | [b] => decide (b.val = 0 ∨ k < b.val)
      | _ => true
    glob := fun _ => some []
    join := fun dir name => dir ++ [47] ++ name
    sprintfFrame := fun frameID => [102, 114, 97, 109, 101] ++ PutUint64 (toUint64 frameID)
    txnDeleteFails := fun _ _ => false }

/-- A persistent store with the ten frame records `[i] -> i` for `i` from 1 to
10 and score records for the pairs `(1, 2)` and `(1, 9)`. -/
def storeTenFrames : State :=
  { MakeState with
    persistent := true
    db := (List.range 10).map
        (fun i => (encodeFrameKey [byte (i + 1)], encodeFrameValue ((i : Int) + 1)))
      ++ [(encodeScoreKey 1 2, [58, 131, 18, 111, 0]),
          (encodeScoreKey 1 9, [63, 128, 0, 0, 0])] }

/-- An environment in which the eight-byte path that encodes `i` exists for
`i < k`; no deletion fails. -/
def envManyFiles (k : Nat) : Env :=
  { statNotExist := fun path =>
      match Uint64 path with
      | some i => decide (k ≤ i)
      | none => true
    glob := fun _ => some []
    join := fun dir name => dir ++ [47] ++ name
    sprintfFrame := fun frameID => [102, 114, 97, 109, 101] ++ PutUint64 (toUint64 frameID)
    txnDeleteFails := fun _ _ => false }

/-- A persistent store with `n` frame records: the eight-byte path that
encodes `i` has the frame ID `i + 1`, for `i < n`. -/
def storeManyFrames (n : Nat) : State :=
  { MakeState with
    persistent := true
    db := (List.range n).map
      (fun i => (encodeFrameKey (PutUint64 i), encodeFrameValue ((i : Int) + 1))) }

/-- The number a byte string denotes as a big-endian unsigned integer. -/
def bigEndianValue (bytes : List Byte) : Nat :=
  bytes.foldl (fun acc b => acc * 256 + b.val) 0

/-- The effect of `bucketResults` on the pair of the frame-to-bucket map and
`nextBucket`, for a processor with the given `IgnoreFalsePositives`. -/
def bucketStep (ignoreFalsePositives : Bool) (buckets : List (Int × Int) × Int)
    (frameID1 frameID2 : Int) (score : float32) : List (Int × Int) × Int :=
  if float32.lt score float32.zero && !ignoreFalsePositives then buckets
  else if float32.le score SimilarityThreshold then
    match mapGet buckets.1 frameID1 with
    | some bucket => (mapSet (mapSet buckets.1 frameID1 bucket) frameID2 bucket, buckets.2)
    | none =>
      match mapGet buckets.1 frameID2 with
      | some bucket => (mapSet (mapSet buckets.1 frameID1 bucket) frameID2 bucket, buckets.2)
      | none =>
        (mapSet (mapSet buckets.1 frameID1 buckets.2) frameID2 buckets.2, buckets.2 + 1)
  else buckets

/-- The effect on the buckets of consuming the cached score of a pair: a pair
without a cached score is sent to the workers and leaves the buckets alone. -/
def consumeCached (st : State) (ignoreFalsePositives : Bool)
    (buckets : List (Int × Int) × Int) (p : Int × Int) : List (Int × Int) × Int :=
  match GetComparisonScore st p.1 p.2 with
  | some (score, true) => bucketStep ignoreFalsePositives buckets p.1 p.2 score
  | _ => buckets

/-- A processor about to compare the frames 10, 20 and 30 in an in-memory
cache that holds a score for each pair: 10 and 20 are similar, 20 and 30 are
similar, 10 and 30 are different. -/
def procChain : Processor :=
  { MakeProcessor
      (SetComparisonScore
        (SetComparisonScore (SetComparisonScore MakeState 10 20 ScoreSimilar) 20 30 ScoreSimilar)
        10 30 ScoreDifferent) with
    frames := [10, 20, 30] }

/-- What `fcmpWorker` does with one request.  The similarity oracle
`compareImageFiles`, which opens the two thumbnail files and compares them, is
a parameter: it returns a score and an error. -/
def fcmpWorker (compareImageFiles : GoString → GoString → float32 × Option String)
    (env : Env) (state : State) (req : fcmpRequest) : fcmpResponse :=
  let file1 := GetFrameFileName env state req.frameID1
  let file2 := GetFrameFileName env state req.frameID2
  let result := compareImageFiles file1 file2
  { frameID1 := req.frameID1, frameID2 := req.frameID2, score := result.1, err := result.2 }

/-- A missing key gives `(0, false)`; decoding a stored value shorter than
eight bytes panics. -/
def getImageFramePersistent (state : State) (path : GoString) : Option (Int × Bool) :=
  match mapGet state.db (encodeFrameKey path) with
  | none => some (0, false)
  | some valCopy => do
    let frameID ← decodeFrameValue valCopy
    pure (frameID, true)

/-- With a persistent store a known path is also entered into `frame2image`,
so the state is part of the result. -/
def GetframeID (state : State) (path : GoString) : Option (State × Int × Bool) :=
  if state.persistent then do
    let (frameID, found) ← getImageFramePersistent state path
    if found then
      pure ({ state with frame2image := mapSet state.frame2image frameID path }, frameID, found)
    else
      pure (state, frameID, found)
  else
    match mapGet state.image2frame path with
    | some frameID => some (state, frameID, true)
    | none => some (state, 0, false)

/-- The body of the inner loop of `Processor.Unmatch` for the file `files[jj]`.
The accumulator is the state, the flag `failed`, and the record, in order, of
the calls `UnmatchFrames(frameID1, frameID2, true)` made so far. -/
def unmatchStep (frameID1 : Int) (acc : State × Bool × List (Int × Int)) (file : GoString) :
    Option (State × Bool × List (Int × Int)) := do
  let (state, frameID2, found) ← GetframeID acc.1 file
  if !found then
    pure (state, true, acc.2.2)
  else
    let state ← UnmatchFrames state frameID1 frameID2 true
    pure (state, acc.2.1, acc.2.2 ++ [(frameID1, frameID2)])

/-- `Processor.Unmatch`: the processor afterwards, the record of the calls of
`UnmatchFrames`, and the error returned.  With fewer than two files
`logger.Fatal` ends the process: there is no result. -/
def Unmatch (proc : Processor) (files : List GoString) :
    Option (Processor × List (Int × Int) × Option String) :=
  if files.length < 2 then none
  else do
    let final ← (List.range files.length).foldlM
      (fun (acc : State × Bool × List (Int × Int)) ii => do
        let file ← files[ii]?
        let (state, frameID1, found) ← GetframeID acc.1 file
        if !found then
          pure (state, true, acc.2.2)
        else
          (List.range ii).foldlM
            (fun acc jj => do
              let file2 ← files[jj]?
              unmatchStep frameID1 acc file2)
            (state, acc.2.1, acc.2.2))
      (proc.state, false, [])
    pure ({ proc with state := final.1 }, final.2.2,
      if final.2.1 then some "Failed to unmatch files" else none)

/-- The frame ID under which a path is known to the Frame Store, if any. -/
def knownID (state : State) (path : GoString) : Option Int :=
  if state.persistent then (mapGet state.db (encodeFrameKey path)).bind decodeFrameValue
  else mapGet state.image2frame path

/-- The pairs `(files[i], files[j])`, `j < i`, of two known files, as frame
IDs, in the nested ascending order of the indices. -/
def knownPairs (state : State) (files : List GoString) : List (Int × Int) :=
  (List.range files.length).flatMap
    (fun i => (List.range i).filterMap
      (fun j =>
        match knownID state (files.getD i []), knownID state (files.getD j []) with
        | some frameID1, some frameID2 => some (frameID1, frameID2)
        | _, _ => none))

/-- A persistent store that knows the paths `[1]`, `[2]` and `[3]` (frame IDs
1, 2, 3) and holds a score for the pairs `(1, 2)` and `(1, 3)`. -/
def procKnownFiles : Processor :=
  MakeProcessor
    { MakeState with
      persistent := true
      db := [(encodeFrameKey [1], encodeFrameValue 1), (encodeFrameKey [2], encodeFrameValue 2),
        (encodeFrameKey [3], encodeFrameValue 3),
        (encodeScoreKey 1 2, [58, 131, 18, 111, 0]), (encodeScoreKey 1 3, [58, 131, 18, 111, 0])] }

/-- What `Processor.Unmatch` keeps of the state it started from: the mode, the
in-memory path map and the frame records; and, with a persistent store, every
stored score value has at least five bytes. -/
def unmatchInv (st0 st : State) : Prop :=
  st.persistent = st0.persistent ∧ st.image2frame = st0.image2frame ∧
  (∀ f, mapGet st.db (encodeFrameKey f) = mapGet st0.db (encodeFrameKey f)) ∧
  (st.persistent = true → ∀ a b v, mapGet st.db (encodeScoreKey a b) = some v → 5 ≤ v.length)

/-- The Go statement `x++` on an `int`: the sum wraps around at `2^63`. -/
def incInt (x : Int) : Int := toInt (toUint64 (x + 1))

/-- The longest key badger accepts. -/
def maxKeySize : Nat := 65000

/-- Whether `txn.Set(key, value)` returns an error: badger refuses a key of
more than `maxKeySize` bytes.  (The keys of score records have 18 bytes.) -/
def txnSetFails (key : List Byte) : Bool := decide (maxKeySize < key.length)

/-- `AddFrameIDPersistent`: the state afterwards, the frame ID and `found`.
Decoding a stored value shorter than eight bytes panics.  When `txn.Set`
returns an error, the error is logged: the ID has been taken and
`nextframeID` incremented, and no record is stored. -/
def AddFrameIDPersistent (state : State) (path : GoString) : Option (State × Int × Bool) :=
  let key := encodeFrameKey path
  match mapGet state.db key with
  | some val => do
    let frameID ← decodeFrameValue val
    pure (state, frameID, true)
  | none =>
    let frameID := state.nextframeID
    let state := { state with nextframeID := incInt state.nextframeID }
    if txnSetFails key then some (state, frameID, false)
    else
      some ({ state with db := mapSet state.db key (encodeFrameValue frameID) },
        frameID, false)

/-- `RegisterFile`: the state afterwards, the frame ID and `found`. -/
def RegisterFile (state : State) (path : GoString) : Option (State × Int × Bool) := do
  let (state, frameID, found) ←
    if state.persistent then AddFrameIDPersistent state path
    else
      match mapGet state.image2frame path with
      | some frameID => some (state, frameID, true)
      | none =>
        let frameID := state.nextframeID
        some ({ state with
                nextframeID := incInt state.nextframeID
                image2frame := mapSet state.image2frame path frameID },
              frameID, false)
  pure ({ state with frame2image := mapSet state.frame2image frameID path }, frameID, found)

/-- `GetImageFile`: a missing key gives the empty string and `false`. -/
def GetImageFile (state : State) (frameID : Int) : GoString × Bool :=
  match mapGet state.frame2image frameID with
  | some path => (path, true)
  | none => ([], false)

/-- A sequence of `RegisterFile` calls: the state afterwards and, call by
call, the pair `(frameID, found)` returned. -/
def registerAll (state : State) (paths : List GoString) :
    Option (State × List (Int × Bool)) :=
  paths.foldlM
    (fun acc path => do
      let (state, frameID, found) ← RegisterFile acc.1 path
      pure (state, acc.2 ++ [(frameID, found)]))
    (state, [])

/-- What a sequence of `RegisterFile` calls keeps true of a state: the next ID
is positive; the IDs of the known paths are positive and below the next ID;
`frame2image` is the inverse of the path-to-ID mapping; and, with a persistent
store, every stored frame value has its eight bytes. -/
def epochInv (st : State) : Prop :=
  1 ≤ st.nextframeID ∧
  (∀ p id, knownID st p = some id → 1 ≤ id ∧ id < st.nextframeID) ∧
  (∀ p id, knownID st p = some id ↔ mapGet st.frame2image id = some p) ∧
  (st.persistent = true → ∀ p v, mapGet st.db (encodeFrameKey p) = some v → 8 ≤ v.length)

/-- `getMaxFrameID`: the largest frame ID among the frame records (0 if there
is none) and the error returned.  Decoding a stored value shorter than eight
bytes panics. -/
def getMaxFrameID (state : State) : Option (Int × Option String) :=
  if !state.persistent then some (0, some "only supported with persistence")
  else do
    let maxFrameID ← (recordsWithPrefix state.db framePrefix).foldlM
      (fun (maxFrameID : Int) item => do
        let frameID ← decodeFrameValue item.2
        pure (if frameID > maxFrameID then frameID else maxFrameID))
      0
    pure (maxFrameID, none)

/-- `Init`: the state afterwards and the error returned.  `tempDir` is the
directory `os.MkdirTemp` creates, `opened` is the result of `badger.Open` on
the directory: the records the store holds, or an error. -/
def Init (state : State) (stateDirectory tempDir : GoString)
    (opened : Except String (List (List Byte × List Byte))) : Option (State × Option String) :=
  let state :=
    if stateDirectory = [] then { state with dataDirectory := tempDir, persistent := false }
    else { state with dataDirectory := stateDirectory, persistent := true }
  if state.dataDirectory = [46] then
    some (state, some "don't use the current directory to keep the state")
  else if state.persistent then
    match opened with
    | .error err => some (state, some err)
    | .ok db => do
      let state := { state with db := db }
      let (maxID, err) ← getMaxFrameID state
      match err with
      | some e => pure (state, some e)
      | none => pure ({ state with nextframeID := incInt maxID }, none)
  else some (state, none)

/-- An operation on a persistent store: `RegisterFile(path)`,
`CompactDataStore()` at a moment when the files on disk are as `env` tells, or
closing the store and opening it again (a new `MakeState`, then `Init` on the
same directory, which finds the records the store held). -/
inductive storeOp where
  | register (path : GoString)
  | compact (env : Env)
  | reopen

/-- One operation.  The accumulator is the state and the record, in order, of
the pairs `(path, frameID)` of the `RegisterFile` calls made so far. -/
def storeStep (acc : State × List (GoString × Int)) :
    storeOp → Option (State × List (GoString × Int))
  | .register path => do
    let (state, frameID, _) ← RegisterFile acc.1 path
    pure (state, acc.2 ++ [(path, frameID)])
  | .compact env => do
    let (state, _, _) ← CompactDataStore env acc.1
    pure (state, acc.2)
  | .reopen => do
    let (state, _) ← Init MakeState acc.1.dataDirectory [] (.ok acc.1.db)
    pure (state, acc.2)

/-- A new store in the directory `dir`, opened. -/
def openStore (dir : GoString) : Option (State × Option String) :=
  Init MakeState dir [] (.ok [])

/-- The lifetime of a store in the directory `dir`: it is created empty and
opened, then the operations are applied in order.  The result is the record
of the `RegisterFile` calls. -/
def storeLifetime (dir : GoString) (ops : List storeOp) : Option (List (GoString × Int)) := do
  let (state, _) ← openStore dir
  let final ← ops.foldlM storeStep (state, [])
  pure final.2

/-- No ID is recorded with two different paths. -/
def noReuse (assigned : List (GoString × Int)) : Prop :=
  ∀ e1 ∈ assigned, ∀ e2 ∈ assigned, e1.2 = e2.2 → e1.1 = e2.1

/-- A new store in the directory `dir`, as `Init` leaves it. -/
def newStore (dir : GoString) : State :=
  { MakeState with dataDirectory := dir, persistent := true }

/-- Whether the store holds a frame record whose ID is at least every ID
handed out so far: the record of the largest ID handed out is still there. -/
def largestStored (st : State) (assigned : List (GoString × Int)) : Bool :=
  match getMaxFrameID st with
  | some (maxID, _) => assigned.all (fun e => decide (e.2 ≤ maxID))
  | none => false

/-- The paths of the `register` operations, in order. -/
def registeredPaths (ops : List storeOp) : List GoString :=
  ops.filterMap (fun op =>
    match op with
    | .register path => some path
    | _ => none)

/-- Whether the lifetime is safe: in the run of the operations from the state
and the record given, once a `reopen` has found the store without the record of
the largest ID handed out so far (`stale`), every later `register` is of a path
that has a record in the store. -/
def safeLifetime : Bool → State × List (GoString × Int) → List storeOp → Bool
  | _, _, [] => true
  | stale, acc, .register path :: rest =>
    (!stale || (knownID acc.1 path).isSome) &&
      (match storeStep acc (.register path) with
        | some acc2 => safeLifetime stale acc2 rest
        | none => true)
  | stale, acc, .compact env :: rest =>
    match storeStep acc (.compact env) with
    | some acc2 => safeLifetime stale acc2 rest
    | none => true
  | stale, acc, .reopen :: rest =>
    match storeStep acc .reopen with
    | some acc2 => safeLifetime (stale || !largestStored acc.1 acc.2) acc2 rest
    | none => true

/-- What the operations on a persistent store keep true of the state and of
the record of the `RegisterFile` calls: the store is persistent, in a directory
that `Init` accepts; the next ID is positive and at most one more than the
number of calls; every record of the store is the frame record of a recorded
call; the recorded IDs are positive and below the next ID; and no ID is
recorded with two paths. -/
def lifetimeInv (st : State) (assigned : List (GoString × Int)) : Prop :=
  st.persistent = true ∧ st.dataDirectory ≠ [] ∧ st.dataDirectory ≠ [46] ∧
  1 ≤ st.nextframeID ∧ st.nextframeID ≤ assigned.length + 1 ∧
  (∀ e ∈ st.db, ∃ p id, e = (encodeFrameKey p, encodeFrameValue id) ∧ (p, id) ∈ assigned) ∧
  (∀ e ∈ assigned, 1 ≤ e.2 ∧ e.2 < st.nextframeID) ∧
  noReuse assigned

/-- What the operations keep true once the store has lost the record of the
largest ID handed out: the store is persistent, in a directory that `Init`
accepts; every record of the store is the frame record of a recorded call; the
recorded IDs are Go `int` values; and no ID is recorded with two paths. -/
def staleInv (st : State) (assigned : List (GoString × Int)) : Prop :=
  st.persistent = true ∧ st.dataDirectory ≠ [] ∧ st.dataDirectory ≠ [46] ∧
  (∀ e ∈ st.db, ∃ p id, e = (encodeFrameKey p, encodeFrameValue id) ∧ (p, id) ∈ assigned) ∧
  (∀ e ∈ assigned, -9223372036854775808 ≤ e.2 ∧ e.2 < 9223372036854775808) ∧
  noReuse assigned

/-- An environment in which every file exists but `[1]`; no deletion fails. -/
def envMissingFirst : Env :=
  { statNotExist := fun path => decide (path = [1])
    glob := fun _ => some []
    join := fun dir name => dir ++ [47] ++ name
    sprintfFrame := fun frameID => [102, 114, 97, 109, 101] ++ PutUint64 (toUint64 frameID)
    txnDeleteFails := fun _ _ => false }

/-- A path of 64999 bytes: its frame key has 65001 bytes, more than
`maxKeySize`. -/
def longPath : GoString := List.replicate 64999 0

/-- Whether the cache holds a score for the pair that `bucketResults` takes
for a match: not a false positive, and at most `SimilarityThreshold`. -/
def cachedMatch (st : State) (ignoreFalsePositives : Bool) (x y : Int) : Bool :=
  match GetComparisonScore st x y with
  | some (score, true) =>
    !(float32.lt score float32.zero && !ignoreFalsePositives) &&
      float32.le score SimilarityThreshold
  | _ => false

/-- What `bucketResults` does to the buckets at a match. -/
def joinBuckets (buckets : List (Int × Int) × Int) (frameID1 frameID2 : Int) :
    List (Int × Int) × Int :=
  match mapGet buckets.1 frameID1 with
  | some bucket => (mapSet (mapSet buckets.1 frameID1 bucket) frameID2 bucket, buckets.2)
  | none =>
    match mapGet buckets.1 frameID2 with
    | some bucket => (mapSet (mapSet buckets.1 frameID1 bucket) frameID2 bucket, buckets.2)
    | none =>
      (mapSet (mapSet buckets.1 frameID1 buckets.2) frameID2 buckets.2, buckets.2 + 1)

/-- The buckets after a pair, for a relation `M` that tells the matches. -/
def groupStep (M : Int → Int → Bool) (buckets : List (Int × Int) × Int) (p : Int × Int) :
    List (Int × Int) × Int :=
  if M p.1 p.2 then joinBuckets buckets p.1 p.2 else buckets

/-- Whether two frames are assigned to the same bucket. -/
def sameBucket (frameBuckets : List (Int × Int)) (x y : Int) : Bool :=
  match mapGet frameBuckets x, mapGet frameBuckets y with
  | some bucket1, some bucket2 => decide (bucket1 = bucket2)
  | _, _ => false

/-- An in-memory cache with a score for every pair of the frames 1, 2, 3, 4:
the pairs `(1, 2)`, `(2, 3)` and `(3, 4)` are similar, the others different. -/
def storeFourChain : State :=
  SetComparisonScore (SetComparisonScore (SetComparisonScore
    (SetComparisonScore (SetComparisonScore (SetComparisonScore MakeState
      1 2 ScoreSimilar) 2 3 ScoreSimilar) 3 4 ScoreSimilar)
      1 3 ScoreDifferent) 1 4 ScoreDifferent) 2 4 ScoreDifferent

/-- An in-memory cache with a score for every pair of the frames 1, 2, 3, 4:
the pairs `(1, 2)` and `(3, 4)` are similar, the others different. -/
def storeFourPaired : State :=
  SetComparisonScore (SetComparisonScore (SetComparisonScore
    (SetComparisonScore (SetComparisonScore (SetComparisonScore MakeState
      1 2 ScoreSimilar) 3 4 ScoreSimilar) 2 3 ScoreDifferent)
      1 3 ScoreDifferent) 1 4 ScoreDifferent) 2 4 ScoreDifferent

/-- What the grouping keeps true of the buckets after the pairs of the frame
list `l`, for a relation `M` that tells the matches: an assigned frame is in
`l`, its bucket is below the next bucket, and it matches another frame of `l`;
a frame of `l` that matches another one is assigned; and two assigned frames
have the same bucket exactly when they are the same frame or match. -/
def groupingInv (M : Int → Int → Bool) (l : List Int) (b : List (Int × Int) × Int) : Prop :=
  (∀ x bx, mapGet b.1 x = some bx → x ∈ l ∧ bx < b.2 ∧ ∃ y ∈ l, y ≠ x ∧ M x y = true) ∧
  (∀ x ∈ l, (∃ y ∈ l, y ≠ x ∧ M x y = true) → mapGet b.1 x ≠ none) ∧
  (∀ x y bx bY, mapGet b.1 x = some bx → mapGet b.1 y = some bY →
    (bx = bY ↔ x = y ∨ M x y = true))

/-- What holds while the frame `x` is compared with the frames `done` of the
frame list `l` before it. -/
def rowInv (M : Int → Int → Bool) (l : List Int) (x : Int) (done : List Int)
    (b : List (Int × Int) × Int) : Prop :=
  (∀ z bz, mapGet b.1 z = some bz → bz < b.2 ∧
    ((z = x ∧ ∃ y ∈ done, M x y = true) ∨
      (z ∈ l ∧ ((∃ y ∈ l, y ≠ z ∧ M z y = true) ∨ (z ∈ done ∧ M x z = true))))) ∧
  ((∃ y ∈ done, M x y = true) → mapGet b.1 x ≠ none) ∧
  (∀ z ∈ l, ((∃ y ∈ l, y ≠ z ∧ M z y = true) ∨ (z ∈ done ∧ M x z = true)) →
    mapGet b.1 z ≠ none) ∧
  (∀ u v bu bv, mapGet b.1 u = some bu → mapGet b.1 v = some bv →
    (bu = bv ↔ u = v ∨ M u v = true))

/-- A new processor over the cache `storeFourPaired` with a given frame list. -/
def procFourPaired (frames : List Int) : Processor :=
  { MakeProcessor storeFourPaired with frames := frames }

/-- The range of the bucket identifiers: the next bucket is at least 1, and
every bucket that a frame is assigned to is at least 1 and below the next
bucket. -/
def bucketRange (proc : Processor) : Prop :=
  1 ≤ proc.nextBucket ∧ ∀ e ∈ proc.frameBuckets, 1 ≤ e.2 ∧ e.2 < proc.nextBucket

/-! ## Frame generation (`processor/framegen.go`) -/

/-- The result of `cmd.Run()`: no error, an `*exec.ExitError` with its exit
code, or another error. -/
inductive runResult where
  | ok
  | exitError (code : Int)
  | otherError
deriving DecidableEq

/-- What `generateFrameAtOffset` asks of the operating system, over a type `ω`
of states of the world: running a program with its arguments, which changes
the world, and `os.Stat`, which is `true` when it returns no error.  Paths and
arguments are strings that the model only passes on. -/
structure ToolEnv (ω : Type) where
  run : ω → String → List String → ω × runResult
  statOk : ω → String → Bool

/-- The arguments `generateFrameAtOffset` gives to `ffmpeg`. -/
def ffmpegArgs (path frameFile offset : String) : List String :=
  ["-loglevel", "quiet", "-y", "-ss", offset, "-i", path, "-frames:v", "1", "-q:v", "2",
    "-s", "400x400", frameFile]

/-- `generateFrameAtOffset`: the world afterwards and the error returned. -/
def generateFrameAtOffset {ω : Type} (env : ToolEnv ω) (w : ω)
    (path frameFile offset : String) : ω × Option String :=
  let r := env.run w "ffmpeg" (ffmpegArgs path frameFile offset)
  match r.2 with
  | .exitError code => (r.1, some ("ffmpeg failed (" ++ toString code ++ ")"))
  | .otherError => (r.1, some "failed to run ffmpeg")
  | .ok =>
    if env.statOk r.1 frameFile then (r.1, none)
    else (r.1, some "failed to generate frame file")

/-- The loop of `generateFrame` over the offsets that are left.  The
accumulator is the world, the offsets attempted so far, in order, and `err`. -/
def generateFrameLoop {ω : Type} (env : ToolEnv ω) (path frameFile : String) :
    List String → ω × List String × Option String → ω × List String × Option String
  | [], acc => acc
  | offset :: rest, acc =>
    let r := generateFrameAtOffset env acc.1 path frameFile offset
    match r.2 with
    | none => (r.1, acc.2.1 ++ [offset], none)
    | some err =>
      generateFrameLoop env path frameFile rest (r.1, acc.2.1 ++ [offset], some err)

/-- `generateFrame`: the world afterwards, the offsets attempted, in order, and
the error returned. -/
def generateFrame {ω : Type} (env : ToolEnv ω) (w : ω) (path frameFile : String) :
    ω × List String × Option String :=
  generateFrameLoop env path frameFile ["00:10", "00:03", "00:01"] (w, [], none)

/-- A tool that fails with exit code 1 when asked for the offset `00:10` and
writes the frame file otherwise.  The world is the list of the files that
exist. -/
def toolShortVideo : ToolEnv (List String) :=
  { run := fun files _ args =>
      if args.getD 4 "" = "00:10" then (files, .exitError 1)
      else (files ++ [args.getD 13 ""], .ok)
    statOk := fun files file => decide (file ∈ files) }

/-- The entry the Score Cache holds for a pair: the stored score and the
stored false-positive flag (`GetComparisonScore` answers with the score
negated when the flag is set). -/
def scoreEntry (state : State) (frameID1 frameID2 : Int) : Option (float32 × Bool) :=
  if state.persistent then
    (mapGet state.db (encodeScoreKey frameID1 frameID2)).bind decodeScoreData
  else
    let key : Int × Int :=
      if frameID1 > frameID2 then (frameID2, frameID1) else (frameID1, frameID2)
    (mapGet state.matchScores key).map (fun info => (info.Score, info.FalsePositive))

/-- A persistent store holding the score `ScoreSimilar` for the pair `(1, 2)`,
marked as a false positive. -/
def storeMarkedPair : State :=
  { MakeState with persistent := true, db := [(encodeScoreKey 1 2, [58, 131, 18, 111, 1])] }

/-- Whether one of the calls `UnmatchFrames(frameID1, frameID2, true)` was for
the pair of `a` and `b`, in either order. -/
def markedBy (calls : List (Int × Int)) (a b : Int) : Bool :=
  calls.any (fun c => decide ((c.1 = a ∧ c.2 = b) ∨ (c.1 = b ∧ c.2 = a)))

/-- Whether one of the calls was for a pair with the score key of `a` and
`b`. -/
def sameKeyCalled (calls : List (Int × Int)) (a b : Int) : Bool :=
  calls.any (fun c => decide (encodeScoreKey c.1 c.2 = encodeScoreKey a b))

/-- What the calls of `UnmatchFrames` made so far by `Processor.Unmatch` have
done to the state it started from: nothing in the in-memory mode; with a
persistent store, every entry of the Score Cache has the score it had, and its
flag is set if it was set or a call was made for its key; a pair without an
entry has none. -/
def marksInv (st0 st : State) (calls : List (Int × Int)) : Prop :=
  (st0.persistent = false → st = st0) ∧
  (st0.persistent = true → ∀ a b, scoreEntry st a b
    = (scoreEntry st0 a b).map (fun e => (e.1, e.2 || sameKeyCalled calls a b)))

/-! ## Lemmas: maps -/

theorem mapGet_mapSet_same {κ ν : Type} [DecidableEq κ] (m : List (κ × ν)) (k : κ) (v : ν) :
    mapGet (mapSet m k v) k = some v := by
  induction m with
  | nil => simp [mapSet, mapGet]
  | cons e rest ih =>
    obtain ⟨k', v'⟩ := e
    by_cases h : k' = k
    · simp [mapSet, mapGet, h]
    · simp [mapSet, mapGet, h, ih]

theorem mapGet_mapSet_other {κ ν : Type} [DecidableEq κ] (m : List (κ × ν)) (k k2 : κ) (v : ν)
    (h : k ≠ k2) : mapGet (mapSet m k v) k2 = mapGet m k2 := by
  induction m with
  | nil => simp [mapSet, mapGet, h]
  | cons e rest ih =>
    obtain ⟨k', v'⟩ := e
    by_cases h1 : k' = k
    · subst h1
      simp [mapSet, mapGet, h]
    · by_cases h2 : k' = k2
      · subst h2
        simp [mapSet, mapGet, h1]
      · simp [mapSet, mapGet, h1, h2, ih]

theorem mapSet_of_mapGet {κ ν : Type} [DecidableEq κ] (m : List (κ × ν)) (k : κ) (v : ν)
    (h : mapGet m k = some v) : mapSet m k v = m := by
  induction m with
  | nil => simp [mapGet] at h
  | cons e rest ih =>
    obtain ⟨k', v'⟩ := e
    by_cases h1 : k' = k
    · subst h1
      simp [mapGet] at h
      simp [mapSet, h]
    · simp [mapGet, h1] at h
      simp [mapSet, h1, ih h]

theorem mapGet_mapDelete_same {κ ν : Type} [DecidableEq κ] (m : List (κ × ν)) (k : κ) :
    mapGet (mapDelete m k) k = none := by
  induction m with
  | nil => simp [mapDelete, mapGet]
  | cons e rest ih =>
    obtain ⟨k', v'⟩ := e
    by_cases h : k' = k
    · simpa [mapDelete, h] using ih
    · simpa [mapDelete, List.filter_cons, h, mapGet] using ih

theorem mapGet_mapDelete_other {κ ν : Type} [DecidableEq κ] (m : List (κ × ν)) (k k2 : κ)
    (h : k ≠ k2) : mapGet (mapDelete m k) k2 = mapGet m k2 := by
  induction m with
  | nil => simp [mapDelete, mapGet]
  | cons e rest ih =>
    obtain ⟨k', v'⟩ := e
    by_cases h1 : k' = k
    · subst h1
      simpa [mapDelete, mapGet, h] using ih
    · by_cases h2 : k' = k2
      · subst h2
        simp [mapDelete, List.filter_cons, h1, mapGet]
      · simpa [mapDelete, List.filter_cons, h1, h2, mapGet] using ih

/-! ## Lemmas: encodings -/

theorem encodeScoreKey_comm (a b : Int) : encodeScoreKey a b = encodeScoreKey b a := by
  unfold encodeScoreKey
  by_cases h1 : a > b
  · have h2 : ¬ b > a := by omega
    simp [h1, h2]
  · by_cases h2 : b > a
    · simp [h1, h2]
    · have h3 : a = b := by omega
      subst h3
      rfl

theorem Uint32_PutUint32 (v : uint32) (rest : List Byte) :
    Uint32 (PutUint32 v ++ rest) = some v := by
  obtain ⟨n, hn⟩ := v
  simp only [PutUint32, Uint32, byte, List.cons_append, List.nil_append, Option.some.injEq,
    Fin.mk.injEq]
  omega

theorem decodeScoreData_encoded (score : float32) (fp : Bool) :
    decodeScoreData (PutUint32 (Float32bits score) ++ [boolToByte fp]) = some (score, fp) := by
  have h : Uint32 (List.take 4 (PutUint32 (Float32bits score) ++ [boolToByte fp]))
      = some score.bits := by
    have h1 := Uint32_PutUint32 score.bits []
    simpa [PutUint32, Float32bits] using h1
  have h2 : (PutUint32 (Float32bits score) ++ [boolToByte fp])[4]? = some (boolToByte fp) := by
    simp [PutUint32]
  unfold decodeScoreData
  rw [h, h2]
  cases fp <;> simp [Float32frombits, boolToByte]

theorem GetComparisonScore_comm (st : State) (a b : Int) :
    GetComparisonScore st a b = GetComparisonScore st b a := by
  unfold GetComparisonScore getComparisonScorePersistent
  rw [encodeScoreKey_comm a b]
  by_cases h1 : a > b
  · have h2 : ¬ b > a := by omega
    simp [h1, h2]
  · by_cases h2 : b > a
    · simp [h1, h2]
    · have h3 : a = b := by omega
      subst h3
      rfl

theorem GetComparisonScore_SetComparisonScore (st : State) (a b : Int) (s : float32) :
    GetComparisonScore (SetComparisonScore st a b s) a b = some (s, true) := by
  cases hp : st.persistent
  · simp [GetComparisonScore, SetComparisonScore, hp, mapGet_mapSet_same]
  · simp [GetComparisonScore, SetComparisonScore, hp, setComparisonScorePersistent,
      getComparisonScorePersistent, encodeScoreData, mapGet_mapSet_same,
      decodeScoreData_encoded s false]

/-! ## Lemmas: float32 -/

theorem float32.neg_magnitude (f : float32) : f.neg.magnitude = f.magnitude := by
  obtain ⟨⟨n, hn⟩⟩ := f
  simp only [float32.neg, float32.magnitude, float32.ofBits]
  omega

theorem float32.neg_sign (f : float32) : f.neg.sign = !f.sign := by
  obtain ⟨⟨n, hn⟩⟩ := f
  simp only [float32.neg, float32.sign, float32.ofBits]
  by_cases h : 2147483648 ≤ n
  · have : ¬ 2147483648 ≤ (n + 2147483648) % 4294967296 := by omega
    simp [h, this]
  · have : 2147483648 ≤ (n + 2147483648) % 4294967296 := by omega
    simp [h, this]

theorem float32.neg_lt_zero_of_pos (f : float32) (h : float32.lt float32.zero f = true) :
    float32.lt f.neg float32.zero = true := by
  have hm := float32.neg_magnitude f
  have hs := float32.neg_sign f
  simp only [float32.lt, float32.isNaN, float32.key, Bool.and_eq_true, Bool.not_eq_true',
    decide_eq_false_iff_not, decide_eq_true_eq] at h ⊢
  rw [hm, hs]
  obtain ⟨⟨h1, h2⟩, h3⟩ := h
  have hz : float32.zero.magnitude = 0 := by decide
  have hzs : float32.zero.sign = false := by decide
  rw [hz, hzs] at h3 ⊢
  refine ⟨⟨h2, h1⟩, ?_⟩
  cases hsf : f.sign
  · simp [hsf] at h3 ⊢
    omega
  · simp [hsf] at h3
    omega

/-! ## Lemmas: the false-positive flag -/

theorem decodeScoreData_set_flag (val : List Byte) (s : float32) (flag fp : Bool)
    (h : decodeScoreData val = some (s, flag)) :
    4 < val.length ∧ decodeScoreData (val.set 4 (boolToByte fp)) = some (s, fp) ∧
    (val.set 4 (boolToByte fp)).take 4 = val.take 4 ∧
    (val.set 4 (boolToByte fp))[4]? = some (boolToByte fp) ∧
    (val.set 4 (boolToByte fp)).length = val.length := by
  rcases val with _ | ⟨b0, _ | ⟨b1, _ | ⟨b2, _ | ⟨b3, _ | ⟨b4, rest⟩⟩⟩⟩⟩ <;>
    simp [decodeScoreData, Uint32] at h
  obtain ⟨h1, h2⟩ := h
  refine ⟨by simp, ?_, by simp, by simp, by simp⟩
  cases fp <;> simp [decodeScoreData, Uint32, h1, boolToByte]

theorem unmatchFramesPersistent_spec (st : State) (a b : Int) (val : List Byte) (s : float32)
    (flag : Bool) (hval : mapGet st.db (encodeScoreKey a b) = some val)
    (hs : decodeScoreData val = some (s, flag)) :
    unmatchFramesPersistent st a b true =
      some { st with db := mapSet st.db (encodeScoreKey a b) (val.set 4 (boolToByte true)) } := by
  have h4 := (decodeScoreData_set_flag val s flag true hs).1
  have h5 : ¬ val.length ≤ 4 := by omega
  simp [unmatchFramesPersistent, hval, h5]

/-! ## Lemmas: bucketing -/

theorem mem_mapSet {κ ν : Type} [DecidableEq κ] (m : List (κ × ν)) (k : κ) (v : ν)
    (e : κ × ν) (h : e ∈ mapSet m k v) : e ∈ m ∨ e = (k, v) := by
  induction m with
  | nil => simpa [mapSet] using h
  | cons x rest ih =>
    obtain ⟨k', v'⟩ := x
    by_cases hk : k' = k
    · simp only [mapSet, hk, if_true, List.mem_cons] at h
      rcases h with h | h
      · exact Or.inr h
      · exact Or.inl (List.mem_cons_of_mem _ h)
    · simp only [mapSet, hk, if_false, List.mem_cons] at h
      rcases h with h | h
      · exact Or.inl (h ▸ List.mem_cons_self _ _)
      · rcases ih h with h | h
        · exact Or.inl (List.mem_cons_of_mem _ h)
        · exact Or.inr h

theorem mem_of_mapGet {κ ν : Type} [DecidableEq κ] (m : List (κ × ν)) (k : κ) (v : ν)
    (h : mapGet m k = some v) : (k, v) ∈ m := by
  induction m with
  | nil => simp [mapGet] at h
  | cons x rest ih =>
    obtain ⟨k', v'⟩ := x
    by_cases hk : k' = k
    · subst hk
      simp only [mapGet, if_true, Option.some.injEq] at h
      subst h
      exact List.mem_cons_self _ _
    · simp only [mapGet, hk, if_false] at h
      exact List.mem_cons_of_mem _ (ih h)

theorem float32.not_lt_zero_of_zero_le (s : float32) (h : float32.le float32.zero s = true) :
    float32.lt s float32.zero = false := by
  simp only [float32.le, float32.lt, Bool.and_eq_true, Bool.not_eq_true',
    decide_eq_true_eq] at h ⊢
  obtain ⟨_, h3⟩ := h
  have : ¬ s.key < float32.zero.key := by omega
  simp [this]

/-- On a matching score `bucketResults` takes its second branch. -/
theorem bucketResults_match (proc : Processor) (f1 f2 : Int) (s : float32)
    (hs0 : float32.le float32.zero s = true) (hs1 : float32.le s SimilarityThreshold = true) :
    bucketResults proc f1 f2 s =
      let chosen : Int × Processor :=
        match mapGet proc.frameBuckets f1 with
        | some bucket => (bucket, proc)
        | none =>
          match mapGet proc.frameBuckets f2 with
          | some bucket => (bucket, proc)
          | none => newBucket proc
      { chosen.2 with
        frameBuckets := mapSet (mapSet chosen.2.frameBuckets f1 chosen.1) f2 chosen.1
        stats := { chosen.2.stats with NumMatches := chosen.2.stats.NumMatches + 1 } } := by
  have h := float32.not_lt_zero_of_zero_le s hs0
  simp [bucketResults, isFalsePositive, h, hs1]

theorem mapGet_mapSet_mapSet_fst {κ ν : Type} [DecidableEq κ] (m : List (κ × ν)) (k1 k2 : κ)
    (v : ν) : mapGet (mapSet (mapSet m k1 v) k2 v) k1 = some v := by
  by_cases h : k2 = k1
  · subst h
    exact mapGet_mapSet_same _ _ _
  · rw [mapGet_mapSet_other _ _ _ _ h]
    exact mapGet_mapSet_same _ _ _

theorem MakeProcessor_bucketsBelowNext (st : State) : bucketsBelowNext (MakeProcessor st) := by
  intro e he
  simp [MakeProcessor] at he

/-- The invariant `bucketsBelowNext` is kept by every call of `bucketResults`. -/
theorem bucketResults_bucketsBelowNext (proc : Processor) (f1 f2 : Int) (s : float32)
    (hinv : bucketsBelowNext proc) : bucketsBelowNext (bucketResults proc f1 f2 s) := by
  have key : ∀ (p : Processor) (b : Int), (∀ e ∈ proc.frameBuckets, e.2 < p.nextBucket) →
      b < p.nextBucket →
      ∀ e ∈ mapSet (mapSet proc.frameBuckets f1 b) f2 b, e.2 < p.nextBucket := by
    intro p b hold hb e he
    rcases mem_mapSet _ _ _ _ he with he | he
    · rcases mem_mapSet _ _ _ _ he with he | he
      · exact hold e he
      · rw [he]; exact hb
    · rw [he]; exact hb
  unfold bucketResults
  split
  · exact hinv
  · split
    · intro e he
      cases h1 : mapGet proc.frameBuckets f1 with
      | some b =>
        simp only [h1] at he ⊢
        exact key proc b hinv (hinv _ (mem_of_mapGet _ _ _ h1)) e he
      | none =>
        cases h2 : mapGet proc.frameBuckets f2 with
        | some b =>
          simp only [h1, h2] at he ⊢
          exact key proc b hinv (hinv _ (mem_of_mapGet _ _ _ h2)) e he
        | none =>
          simp only [h1, h2, newBucket] at he ⊢
          exact key { proc with nextBucket := proc.nextBucket + 1 } proc.nextBucket
            (fun e he => by have := hinv e he; simp only; omega) (by simp) e he
    · exact hinv

/-! ## Lemmas: the enumeration of pairs -/

theorem enumeratedPairs_append_singleton (l : List Int) (z : Int) :
    enumeratedPairs (l ++ [z]) = enumeratedPairs l ++ l.map (fun y => (z, y)) := by
  unfold enumeratedPairs
  rw [List.length_append, List.length_singleton, List.range_succ, List.flatMap_append]
  congr 1
  · apply List.flatMap_congr
    intro i hi
    apply List.map_congr_left
    intro j hj
    rw [List.mem_range] at hi hj
    have hj2 : j < l.length := by omega
    simp [List.getD_eq_getElem?_getD, List.getElem?_append_left, hi, hj2]
  · simp only [List.flatMap_singleton, List.flatMap_cons, List.flatMap_nil, List.append_nil]
    apply List.ext_getElem
    · simp
    · intro n h1 h2
      simp at h1
      simp [List.getD_eq_getElem?_getD, List.getElem?_append_left, h1]

theorem enumeratedPairs_length (l : List Int) :
    2 * (enumeratedPairs l).length = l.length * (l.length - 1) := by
  induction l using List.reverseRecOn with
  | nil => rfl
  | append_singleton l z ih =>
    rw [enumeratedPairs_append_singleton, List.length_append, List.length_map, Nat.mul_add, ih,
      List.length_append, List.length_singleton]
    cases l.length with
    | zero => rfl
    | succ n => simp; ring

theorem mem_enumeratedPairs (l : List Int) (x y : Int) (h : (x, y) ∈ enumeratedPairs l) :
    x ∈ l ∧ y ∈ l := by
  induction l using List.reverseRecOn with
  | nil => simp [enumeratedPairs] at h
  | append_singleton l z ih =>
    rw [enumeratedPairs_append_singleton, List.mem_append] at h
    rcases h with h | h
    · have := ih h
      simp [this.1, this.2]
    · simp only [List.mem_map, Prod.mk.injEq] at h
      obtain ⟨w, hw, rfl, rfl⟩ := h
      simp [hw]

theorem count_map_pair_left (l : List Int) (z x y : Int) :
    (l.map (fun w => (z, w))).count (x, y) = if x = z then l.count y else 0 := by
  induction l with
  | nil => simp
  | cons a rest ih =>
    simp only [List.map_cons, List.count_cons, ih, beq_iff_eq, Prod.mk.injEq]
    by_cases hx : x = z
    · subst hx
      by_cases hy : a = y
      · simp [hy]
      · have : ¬ y = a := fun h => hy h.symm
        simp [hy, this]
    · have : ¬ z = x := fun h => hx h.symm
      simp [hx, this]

theorem count_enumeratedPairs (l : List Int) (hl : l.Nodup) (x y : Int) :
    (enumeratedPairs l).count (x, y) + (enumeratedPairs l).count (y, x)
      = if x ≠ y ∧ x ∈ l ∧ y ∈ l then 1 else 0 := by
  induction l using List.reverseRecOn with
  | nil => simp [enumeratedPairs]
  | append_singleton l z ih =>
    have hn : l.Nodup ∧ z ∉ l := by
      rw [List.nodup_append] at hl
      refine ⟨hl.1, fun h => ?_⟩
      exact hl.2.2 h (List.mem_singleton_self z)
    have ih := ih hn.1
    rw [enumeratedPairs_append_singleton, List.count_append, List.count_append,
      count_map_pair_left, count_map_pair_left]
    have e : ∀ a b c d : Nat, a + b + (c + d) = (a + c) + (b + d) := by intros; omega
    rw [e, ih]
    by_cases hx : x = z
    · subst hx
      by_cases hy : y = x
      · subst hy
        simp [hn.2, List.count_eq_zero_of_not_mem hn.2]
      · have hy2 : ¬ x = y := fun h => hy h.symm
        by_cases hyl : y ∈ l
        · simp [hy, hy2, hn.2, hyl, List.count_eq_one_of_mem hn.1 hyl]
        · simp [hy, hy2, hn.2, hyl, List.count_eq_zero_of_not_mem hyl]
    · by_cases hy : y = z
      · subst hy
        have hx2 : ¬ y = x := fun h => hx h.symm
        by_cases hxl : x ∈ l
        · simp [hx, hx2, hn.2, hxl, List.count_eq_one_of_mem hn.1 hxl]
        · simp [hx, hx2, hn.2, hxl, List.count_eq_zero_of_not_mem hxl]
      · simp [hx, hy]

/-! ## Lemmas: the comparison stage -/

theorem foldlM_flatMap_option {α β σ : Type} (l : List α) (g : α → List β)
    (f : σ → β → Option σ) (init : σ) :
    (l.flatMap g).foldlM f init = l.foldlM (fun acc a => (g a).foldlM f acc) init := by
  induction l generalizing init with
  | nil => rfl
  | cons a rest ih =>
    rw [List.flatMap_cons, List.foldlM_append, List.foldlM_cons]
    cases h : List.foldlM f init (g a) with
    | none => rfl
    | some v => exact ih v

theorem foldlM_congr_option {α σ : Type} (l : List α) (f g : σ → α → Option σ)
    (h : ∀ a ∈ l, ∀ acc, f acc a = g acc a) (init : σ) :
    l.foldlM f init = l.foldlM g init := by
  induction l generalizing init with
  | nil => rfl
  | cons a rest ih =>
    rw [List.foldlM_cons, List.foldlM_cons, h a (List.mem_cons_self _ _) init]
    cases hv : g init a with
    | none => rfl
    | some v => exact ih (fun b hb acc => h b (List.mem_cons_of_mem _ hb) acc) v

/-- The nested loops of `generateComparisonJobs` are one pass over the
enumerated pairs. -/
theorem generateComparisonJobs_eq_fold (proc : Processor) :
    generateComparisonJobs proc =
      (enumeratedPairs proc.frames).foldlM (fun acc p => compareStep acc p.1 p.2)
        ({ proc with
            stats := { proc.stats with
              NumTotalComparisons :=
                Int.tdiv ((proc.frames.length : Int) * ((proc.frames.length : Int) - 1)) 2 } },
          []) := by
  unfold generateComparisonJobs enumeratedPairs
  rw [foldlM_flatMap_option]
  apply foldlM_congr_option
  intro ii hii acc
  rw [List.mem_range] at hii
  rw [List.foldlM_map]
  simp only [List.getElem?_eq_getElem hii, Option.bind_eq_bind, Option.some_bind]
  apply foldlM_congr_option
  intro jj hjj acc2
  rw [List.mem_range] at hjj
  have hj : jj < proc.frames.length := by omega
  simp [List.getElem?_eq_getElem hj, List.getD_eq_getElem?_getD, List.getElem?_eq_getElem hii]

theorem bucketResults_frame (proc : Processor) (f1 f2 : Int) (s : float32) :
    (bucketResults proc f1 f2 s).state = proc.state ∧
    (bucketResults proc f1 f2 s).frames = proc.frames ∧
    (bucketResults proc f1 f2 s).IgnoreFalsePositives = proc.IgnoreFalsePositives ∧
    (bucketResults proc f1 f2 s).stats.NumCacheHits = proc.stats.NumCacheHits ∧
    (bucketResults proc f1 f2 s).stats.NumTotalComparisons = proc.stats.NumTotalComparisons := by
  unfold bucketResults
  split
  · simp
  · split
    · cases mapGet proc.frameBuckets f1 <;> cases mapGet proc.frameBuckets f2 <;>
        simp [newBucket]
    · simp

theorem compareStep_none (acc : Processor × List cmpEvent) (x y : Int)
    (h : GetComparisonScore acc.1.state x y = none) : compareStep acc x y = none := by
  simp [compareStep, h]

theorem compareStep_some (acc : Processor × List cmpEvent) (x y : Int) (r : float32 × Bool)
    (h : GetComparisonScore acc.1.state x y = some r) :
    ∃ proc1, compareStep acc x y = some (proc1, acc.2 ++ [eventFor acc.1.state (x, y)]) ∧
      proc1.state = acc.1.state ∧ proc1.frames = acc.1.frames ∧
      proc1.stats.NumTotalComparisons = acc.1.stats.NumTotalComparisons ∧
      proc1.stats.NumCacheHits = acc.1.stats.NumCacheHits + (if r.2 then 1 else 0) := by
  obtain ⟨score, found⟩ := r
  have hb := bucketResults_frame acc.1 x y score
  cases found
  · exact ⟨acc.1, by simp [compareStep, h, eventFor], rfl, rfl, rfl, by simp⟩
  · refine ⟨_, by simp only [compareStep, h, eventFor]; rfl, ?_, ?_, ?_, ?_⟩
    · simpa using hb.1
    · simpa using hb.2.1
    · simpa [StatsCollector.IncNumComparisonsMade] using hb.2.2.2.2
    · simpa [StatsCollector.IncNumComparisonsMade] using hb.2.2.2.1

/-- The record of a pair whose score lookup does not panic. -/
theorem eventFor_cases (st : State) (p : Int × Int) (r : float32 × Bool)
    (h : GetComparisonScore st p.1 p.2 = some r) :
    eventFor st p = if r.2 then cmpEvent.cacheHit p.1 p.2 r.1
      else cmpEvent.request { frameID1 := p.1, frameID2 := p.2 } := by
  obtain ⟨score, found⟩ := r
  cases found <;> simp [eventFor, h]

theorem compare_fold_some (l : List (Int × Int)) (proc : Processor) (tr0 : List cmpEvent)
    (hok : ∀ p ∈ l, (GetComparisonScore proc.state p.1 p.2).isSome = true) :
    ∃ proc1, l.foldlM (fun acc p => compareStep acc p.1 p.2) (proc, tr0)
        = some (proc1, tr0 ++ l.map (eventFor proc.state)) ∧
      proc1.state = proc.state ∧ proc1.frames = proc.frames ∧
      proc1.stats.NumTotalComparisons = proc.stats.NumTotalComparisons ∧
      proc1.stats.NumCacheHits
        = proc.stats.NumCacheHits + ((cacheHitsOf (l.map (eventFor proc.state))).length : Int) := by
  induction l generalizing proc tr0 with
  | nil => exact ⟨proc, by simp, rfl, rfl, rfl, by simp [cacheHitsOf]⟩
  | cons p rest ih =>
    have hp := hok p (List.mem_cons_self _ _)
    rw [Option.isSome_iff_exists] at hp
    obtain ⟨r, hr⟩ := hp
    obtain ⟨proc1, h1, hst, hfr, htot, hhits⟩ := compareStep_some (proc, tr0) p.1 p.2 r hr
    obtain ⟨proc2, h2, hst2, hfr2, htot2, hhits2⟩ := ih proc1 (tr0 ++ [eventFor proc.state p])
      (fun q hq => by rw [hst]; exact hok q (List.mem_cons_of_mem _ hq))
    refine ⟨proc2, ?_, hst2.trans hst, hfr2.trans hfr, htot2.trans htot, ?_⟩
    · rw [List.foldlM_cons, h1]
      simp only [Option.bind_eq_bind, Option.some_bind]
      rw [h2, hst]
      simp
    · rw [hhits2, hhits, hst]
      have he := eventFor_cases proc.state p r hr
      simp only at hhits ⊢
      rcases r with ⟨score, found⟩
      cases found <;> simp [cacheHitsOf, he, List.filter_cons]
      ring

theorem compare_fold_isSome (l : List (Int × Int)) (proc : Processor) (tr0 : List cmpEvent)
    (h : (l.foldlM (fun acc p => compareStep acc p.1 p.2) (proc, tr0)).isSome = true) :
    ∀ p ∈ l, (GetComparisonScore proc.state p.1 p.2).isSome = true := by
  induction l generalizing proc tr0 with
  | nil => simp
  | cons p rest ih =>
    rw [List.foldlM_cons] at h
    cases hr : GetComparisonScore proc.state p.1 p.2 with
    | none =>
      rw [compareStep_none (proc, tr0) p.1 p.2 hr] at h
      simp at h
    | some r =>
      obtain ⟨proc1, h1, hst, _⟩ := compareStep_some (proc, tr0) p.1 p.2 r hr
      rw [h1] at h
      simp only [Option.bind_eq_bind, Option.some_bind] at h
      intro q hq
      rcases List.mem_cons.1 hq with rfl | hq
      · simp [hr]
      · rw [← hst]
        exact ih proc1 _ h q hq

theorem eventFor_pair (st : State) (p : Int × Int) : (eventFor st p).pair = p := by
  unfold eventFor
  split <;> rfl

theorem map_eventFor_pair (st : State) (l : List (Int × Int)) :
    (l.map (eventFor st)).map cmpEvent.pair = l := by
  induction l with
  | nil => rfl
  | cons p rest ih => simp [eventFor_pair, ih]

theorem count_requestsOf_le (trace : List cmpEvent) (x y : Int) :
    (requestsOf trace).count { frameID1 := x, frameID2 := y }
      ≤ (trace.map cmpEvent.pair).count (x, y) := by
  induction trace with
  | nil => simp [requestsOf]
  | cons ev rest ih =>
    cases ev with
    | cacheHit a b s =>
      have : requestsOf (cmpEvent.cacheHit a b s :: rest) = requestsOf rest := by
        simp [requestsOf]
      rw [this, List.map_cons, List.count_cons]
      omega
    | request req =>
      have : requestsOf (cmpEvent.request req :: rest) = req :: requestsOf rest := by
        simp [requestsOf]
      rw [this, List.map_cons, List.count_cons, List.count_cons]
      obtain ⟨a, b⟩ := req
      by_cases h : a = x ∧ b = y
      · obtain ⟨rfl, rfl⟩ := h
        simp [cmpEvent.pair]
        exact ih
      · have h1 : ¬ ((⟨a, b⟩ : fcmpRequest) = ⟨x, y⟩) := by
          intro e
          injection e with e1 e2
          exact h ⟨e1, e2⟩
        simp only [beq_iff_eq, h1, if_false]
        omega

theorem tdiv_pairs (n m : Nat) (h : 2 * m = n * (n - 1)) :
    Int.tdiv ((n : Int) * ((n : Int) - 1)) 2 = (m : Int) ∧ m = n * (n - 1) / 2 := by
  constructor
  · have e : (n : Int) * ((n : Int) - 1) = 2 * (m : Int) := by
      cases n with
      | zero => simp at h; simp [h]
      | succ k =>
        have : ((2 * m : Nat) : Int) = (((k + 1) * (k + 1 - 1) : Nat) : Int) := by rw [h]
        push_cast at this
        push_cast
        linarith
    rw [e]
    exact Int.mul_tdiv_cancel_left _ (by decide)
  · omega

/-- The outcome of `generateComparisonJobs` when no lookup panics. -/
theorem generateComparisonJobs_spec (proc : Processor)
    (hok : ∀ p ∈ enumeratedPairs proc.frames,
      (GetComparisonScore proc.state p.1 p.2).isSome = true) :
    ∃ proc1, generateComparisonJobs proc
        = some (proc1, (enumeratedPairs proc.frames).map (eventFor proc.state)) ∧
      proc1.state = proc.state ∧ proc1.frames = proc.frames ∧
      proc1.stats.NumTotalComparisons
        = Int.tdiv ((proc.frames.length : Int) * ((proc.frames.length : Int) - 1)) 2 ∧
      proc1.stats.NumCacheHits = proc.stats.NumCacheHits
        + ((cacheHitsOf ((enumeratedPairs proc.frames).map (eventFor proc.state))).length : Int) := by
  rw [generateComparisonJobs_eq_fold]
  obtain ⟨proc1, h1, h2, h3, h4, h5⟩ := compare_fold_some (enumeratedPairs proc.frames)
    { proc with
      stats := { proc.stats with
        NumTotalComparisons :=
          Int.tdiv ((proc.frames.length : Int) * ((proc.frames.length : Int) - 1)) 2 } }
    [] hok
  exact ⟨proc1, by simpa using h1, h2, h3, h4, h5⟩

theorem found_SetComparisonScore_same (st : State) (a b : Int) (s : float32) :
    ∃ v, GetComparisonScore (SetComparisonScore st a b s) a b = some (v, true) :=
  ⟨s, GetComparisonScore_SetComparisonScore st a b s⟩

theorem found_SetComparisonScore_mono (st : State) (a b x y : Int) (s : float32)
    (h : ∃ v, GetComparisonScore st x y = some (v, true)) :
    ∃ v, GetComparisonScore (SetComparisonScore st a b s) x y = some (v, true) := by
  obtain ⟨v, hv⟩ := h
  cases hp : st.persistent
  · simp only [GetComparisonScore, SetComparisonScore, hp] at hv ⊢
    simp only [Bool.false_eq_true, if_false] at hv ⊢
    by_cases hk : (if a > b then (b, a) else (a, b)) = (if x > y then (y, x) else (x, y))
    · rw [← hk, mapGet_mapSet_same]
      exact ⟨s, by simp⟩
    · rw [mapGet_mapSet_other _ _ _ _ hk]
      exact ⟨v, hv⟩
  · simp only [GetComparisonScore, SetComparisonScore, hp, if_true,
      getComparisonScorePersistent, setComparisonScorePersistent, encodeScoreData] at hv ⊢
    by_cases hk : encodeScoreKey a b = encodeScoreKey x y
    · rw [← hk, mapGet_mapSet_same]
      exact ⟨s, by simp [decodeScoreData_encoded s false]⟩
    · rw [mapGet_mapSet_other _ _ _ _ hk]
      exact ⟨v, hv⟩

theorem processComparisonResults_cons (proc : Processor) (rsp : fcmpResponse)
    (rest : List fcmpResponse) :
    processComparisonResults proc (rsp :: rest) =
      processComparisonResults
        { (if rsp.err.isNone then
            bucketResults
              { proc with
                state := SetComparisonScore proc.state rsp.frameID1 rsp.frameID2 rsp.score }
              rsp.frameID1 rsp.frameID2 rsp.score
          else proc) with
          stats := (if rsp.err.isNone then
            bucketResults
              { proc with
                state := SetComparisonScore proc.state rsp.frameID1 rsp.frameID2 rsp.score }
              rsp.frameID1 rsp.frameID2 rsp.score
          else proc).stats.IncNumComparisonsMade } rest := by
  simp [processComparisonResults]

theorem processComparisonResults_found_mono (rs : List fcmpResponse) (proc : Processor)
    (x y : Int) (h : ∃ v, GetComparisonScore proc.state x y = some (v, true)) :
    ∃ v, GetComparisonScore (processComparisonResults proc rs).state x y = some (v, true) := by
  induction rs generalizing proc with
  | nil => simpa [processComparisonResults] using h
  | cons rsp rest ih =>
    rw [processComparisonResults_cons]
    apply ih
    cases he : rsp.err.isNone
    · simpa using h
    · simp only [if_true]
      rw [(bucketResults_frame _ _ _ _).1]
      exact found_SetComparisonScore_mono _ _ _ _ _ _ h

theorem processComparisonResults_found (rs : List fcmpResponse) (proc : Processor)
    (rsp : fcmpResponse) (hmem : rsp ∈ rs) (herr : rsp.err = none) :
    ∃ v, GetComparisonScore (processComparisonResults proc rs).state rsp.frameID1 rsp.frameID2
      = some (v, true) := by
  induction rs generalizing proc with
  | nil => simp at hmem
  | cons r rest ih =>
    rw [processComparisonResults_cons]
    rcases List.mem_cons.1 hmem with rfl | hmem
    · apply processComparisonResults_found_mono
      simp only [herr, Option.isNone_none, if_true]
      rw [(bucketResults_frame _ _ _ _).1]
      exact found_SetComparisonScore_same _ _ _ _
    · exact ih _ hmem

theorem ne_of_mem_enumeratedPairs (l : List Int) (hl : l.Nodup) (x y : Int)
    (h : (x, y) ∈ enumeratedPairs l) : x ≠ y := by
  intro hxy
  subst hxy
  have h1 := count_enumeratedPairs l hl x x
  have h2 : 0 < (enumeratedPairs l).count (x, x) := List.count_pos_iff.2 h
  simp at h1
  omega

theorem mem_enumeratedPairs_or (l : List Int) (hl : l.Nodup) (x y : Int) (hx : x ∈ l)
    (hy : y ∈ l) (hxy : x ≠ y) : (x, y) ∈ enumeratedPairs l ∨ (y, x) ∈ enumeratedPairs l := by
  have h1 := count_enumeratedPairs l hl x y
  simp only [hxy, hx, hy, ne_eq, not_false_eq_true, and_self, if_true] at h1
  by_cases h : 0 < (enumeratedPairs l).count (x, y)
  · exact Or.inl (List.count_pos_iff.1 h)
  · have : 0 < (enumeratedPairs l).count (y, x) := by omega
    exact Or.inr (List.count_pos_iff.1 this)

theorem mem_requestsOf (trace : List cmpEvent) (req : fcmpRequest) :
    req ∈ requestsOf trace ↔ cmpEvent.request req ∈ trace := by
  induction trace with
  | nil => simp [requestsOf]
  | cons ev rest ih =>
    cases ev with
    | cacheHit a b s =>
      have : requestsOf (cmpEvent.cacheHit a b s :: rest) = requestsOf rest := by
        simp [requestsOf]
      rw [this, ih]
      simp
    | request r =>
      have : requestsOf (cmpEvent.request r :: rest) = r :: requestsOf rest := by
        simp [requestsOf]
      rw [this, List.mem_cons, List.mem_cons, ih]
      simp

theorem request_mem_map_eventFor (st : State) (l : List (Int × Int)) (p : Int × Int)
    (hp : p ∈ l) :
    cmpEvent.request { frameID1 := p.1, frameID2 := p.2 } ∈ l.map (eventFor st) ↔
      eventFor st p = cmpEvent.request { frameID1 := p.1, frameID2 := p.2 } := by
  constructor
  · intro h
    obtain ⟨q, _, hq⟩ := List.mem_map.1 h
    have : q = p := by
      have := congrArg cmpEvent.pair hq
      rw [eventFor_pair] at this
      simpa [cmpEvent.pair] using this
    rw [← this]
    rw [hq, this]
  · intro h
    exact List.mem_map.2 ⟨p, hp, h⟩

theorem all_hits_of_found (st : State) (l : List (Int × Int))
    (h : ∀ p ∈ l, ∃ v, GetComparisonScore st p.1 p.2 = some (v, true)) :
    requestsOf (l.map (eventFor st)) = [] ∧
    cacheHitsOf (l.map (eventFor st)) = l.map (eventFor st) := by
  induction l with
  | nil => simp [requestsOf, cacheHitsOf]
  | cons p rest ih =>
    obtain ⟨v, hv⟩ := h p (List.mem_cons_self _ _)
    obtain ⟨ih1, ih2⟩ := ih (fun q hq => h q (List.mem_cons_of_mem _ hq))
    have he : eventFor st p = cmpEvent.cacheHit p.1 p.2 v := by simp [eventFor, hv]
    constructor
    · simp only [requestsOf, List.map_cons, he, List.filterMap_cons] at ih1 ⊢
      exact ih1
    · simp only [cacheHitsOf, List.map_cons, he, List.filter_cons, if_true] at ih2 ⊢
      rw [ih2]

/-! ## Lemmas: the safety gate -/

theorem scaleUp_spec (fuel a target : Nat) (ha : 1 ≤ a) (hf : target ≤ a * 2 ^ fuel) :
    target ≤ a * 2 ^ scaleUp fuel a target ∧
    (0 < scaleUp fuel a target → a * 2 ^ (scaleUp fuel a target - 1) < target) := by
  induction fuel generalizing a with
  | zero => simpa [scaleUp] using hf
  | succ k ih =>
    unfold scaleUp
    by_cases h : target ≤ a
    · simp [h]
    · simp only [h, if_false]
      have hf2 : target ≤ 2 * a * 2 ^ k := by
        rw [pow_succ] at hf
        calc target ≤ a * (2 ^ k * 2) := hf
          _ = 2 * a * 2 ^ k := by ring
      obtain ⟨h1, h2⟩ := ih (2 * a) (by omega) hf2
      constructor
      · calc target ≤ 2 * a * 2 ^ scaleUp k (2 * a) target := h1
          _ = a * 2 ^ (scaleUp k (2 * a) target + 1) := by rw [pow_succ]; ring
      · intro _
        simp only [Nat.add_sub_cancel]
        by_cases h0 : scaleUp k (2 * a) target = 0
        · rw [h0]
          simp
          omega
        · have h3 := h2 (by omega)
          calc a * 2 ^ scaleUp k (2 * a) target
              = 2 * a * 2 ^ (scaleUp k (2 * a) target - 1) := by
                obtain ⟨m, hm⟩ : ∃ m, scaleUp k (2 * a) target = m + 1 :=
                  ⟨scaleUp k (2 * a) target - 1, by omega⟩
                rw [hm, pow_succ]
                simp only [Nat.add_sub_cancel]
                ring
            _ < target := h3

theorem scaleDown_of_lt (fuel a bound : Nat) (h : a < bound) : scaleDown fuel a bound = 0 := by
  cases fuel with
  | zero => rfl
  | succ k => simp [scaleDown, h]

theorem divRoundHalfEven_le (a b : Nat) (hb : 0 < b) :
    2 * (divRoundHalfEven a b * b) ≤ 2 * a + b := by
  have hdiv : b * (a / b) + a % b = a := Nat.div_add_mod a b
  have hmod : a % b < b := Nat.mod_lt a hb
  have e1 : a / b * b = b * (a / b) := Nat.mul_comm _ _
  have e2 : (a / b + 1) * b = b * (a / b) + b := by ring
  unfold divRoundHalfEven
  split
  · rw [e1]; omega
  · split
    · rw [e2]; omega
    · split
      · rw [e1]; omega
      · rw [e2]; omega

theorem minViableFraction_eq : minViableFraction = (13421773, 33554432) := by decide

/-- Below `2^24` frame records the safety gate is exact: it aborts whenever
fewer than 40% of the files exist. -/
theorem compactionAborts_of_lt (n e : Nat) (hn : n < 16777216) (h : 5 * e < 2 * n) :
    compactionAborts n e = true := by
  have he : e < 16777216 := by omega
  have hn0 : n ≠ 0 := by omega
  unfold compactionAborts float32OfNat
  simp only [hn, he, if_true, minViableFraction_eq, decide_eq_true_eq]
  unfold float32Quot
  by_cases he0 : e = 0
  · simp [he0]
  · simp only [he0, hn0, or_self, if_false]
    have hfuel : n * 8388608 ≤ e * 2 ^ (n * 8388608) := by
      have h1 : n * 8388608 < 2 ^ (n * 8388608) := Nat.lt_two_pow _
      have h2 : 2 ^ (n * 8388608) ≤ e * 2 ^ (n * 8388608) :=
        Nat.le_mul_of_pos_left _ (by omega)
      omega
    obtain ⟨h1, h2⟩ := scaleUp_spec (n * 8388608) e (n * 8388608) (by omega) hfuel
    generalize scaleUp (n * 8388608) e (n * 8388608) = up at h1 h2
    -- the quotient is below 1/2, so it is scaled up by at least 25 bits
    have hup : 25 ≤ up := by
      by_contra hlt
      have hle : up ≤ 24 := by omega
      have : (2 : Nat) ^ up ≤ 2 ^ 24 := Nat.pow_le_pow_right (by decide) hle
      have : e * 2 ^ up ≤ e * 2 ^ 24 := Nat.mul_le_mul_left _ this
      omega
    have h3 : e * 2 ^ (up - 1) < n * 8388608 := h2 (by omega)
    have hdown : e * 2 ^ up < n * 16777216 := by
      obtain ⟨m, hm⟩ : ∃ m, up = m + 1 := ⟨up - 1, by omega⟩
      rw [hm] at h3
      simp only [Nat.add_sub_cancel] at h3
      calc e * 2 ^ up = 2 * (e * 2 ^ m) := by rw [hm, pow_succ]; ring
        _ < n * 16777216 := by omega
    rw [scaleDown_of_lt _ _ _ hdown]
    simp only [pow_zero, Nat.mul_one]
    obtain ⟨k, hk⟩ : ∃ k, up = 25 + k := ⟨up - 25, by omega⟩
    have hpow : (2 : Nat) ^ up = 33554432 * 2 ^ k := by rw [hk, pow_add]; norm_num
    have hK : 1 ≤ 2 ^ k := Nat.one_le_two_pow
    have hr := divRoundHalfEven_le (e * 2 ^ up) n (by omega)
    rw [hpow] at hr ⊢
    generalize divRoundHalfEven (e * (33554432 * 2 ^ k)) n = m at hr ⊢
    generalize 2 ^ k = K at hr hK ⊢
    by_contra hge
    have hm : 13421773 * K ≤ m := by omega
    have hmn : 13421773 * (K * n) ≤ m * n := by
      calc 13421773 * (K * n) = 13421773 * K * n := by ring
        _ ≤ m * n := Nat.mul_le_mul_right _ hm
    have hX : n ≤ K * n := Nat.le_mul_of_pos_left _ (by omega)
    have hY : 5 * (e * K) + K ≤ 2 * (K * n) := by
      calc 5 * (e * K) + K = (5 * e + 1) * K := by ring
        _ ≤ 2 * n * K := Nat.mul_le_mul_right _ (by omega)
        _ = 2 * (K * n) := by ring
    have hr2 : 2 * (m * n) ≤ 67108864 * (e * K) + n := by
      calc 2 * (m * n) ≤ 2 * (e * (33554432 * K)) + n := hr
        _ = 67108864 * (e * K) + n := by ring
    generalize K * n = X at hmn hX hY
    generalize e * K = Y at hY hr2
    generalize m * n = Z at hmn hr2
    omega

theorem divRoundHalfEven_ge (a b : Nat) (hb : 0 < b) :
    2 * a ≤ 2 * (divRoundHalfEven a b * b) + b := by
  have hdiv : b * (a / b) + a % b = a := Nat.div_add_mod a b
  have hmod : a % b < b := Nat.mod_lt a hb
  have e1 : a / b * b = b * (a / b) := Nat.mul_comm _ _
  have e2 : (a / b + 1) * b = b * (a / b) + b := by ring
  unfold divRoundHalfEven
  split
  · rw [e1]; omega
  · split
    · rw [e2]; omega
    · split
      · rw [e1]; omega
      · rw [e2]; omega

/-- Below `2^24` frame records the safety gate is exact: it does not abort when
at least 40% of the files exist. -/
theorem compactionAborts_of_ge (n e : Nat) (hn0 : 0 < n) (hn : n < 16777216) (hen : e ≤ n)
    (h : 2 * n ≤ 5 * e) : compactionAborts n e = false := by
  have he : e < 16777216 := by omega
  have he0 : e ≠ 0 := by omega
  have hn1 : n ≠ 0 := by omega
  rw [← Bool.not_eq_true]
  unfold compactionAborts float32OfNat
  simp only [hn, he, if_true, minViableFraction_eq, decide_eq_true_eq]
  unfold float32Quot
  simp only [he0, hn1, or_self, if_false]
  have hfuel : n * 8388608 ≤ e * 2 ^ (n * 8388608) := by
    have h1 : n * 8388608 < 2 ^ (n * 8388608) := Nat.lt_two_pow _
    have h2 : 2 ^ (n * 8388608) ≤ e * 2 ^ (n * 8388608) :=
      Nat.le_mul_of_pos_left _ (by omega)
    omega
  obtain ⟨h1, h2⟩ := scaleUp_spec (n * 8388608) e (n * 8388608) (by omega) hfuel
  generalize scaleUp (n * 8388608) e (n * 8388608) = up at h1 h2
  -- the quotient is between 2/5 and 1: it is scaled up by 23, 24 or 25 bits
  have hup25 : up ≤ 25 := by
    by_contra hgt
    have h3 := h2 (by omega)
    obtain ⟨m, hm⟩ : ∃ m, up = 26 + m := ⟨up - 26, by omega⟩
    rw [hm] at h3
    have e1 : 26 + m - 1 = 25 + m := by omega
    rw [e1, pow_add] at h3
    have hM : 1 ≤ 2 ^ m := Nat.one_le_two_pow
    have h4 : e * 33554432 ≤ e * (2 ^ 25 * 2 ^ m) := by
      have : e * 33554432 * 1 ≤ e * 33554432 * 2 ^ m := Nat.mul_le_mul_left _ hM
      calc e * 33554432 = e * 33554432 * 1 := by ring
        _ ≤ e * 33554432 * 2 ^ m := this
        _ = e * (2 ^ 25 * 2 ^ m) := by norm_num; ring
    omega
  have hup23 : 23 ≤ up := by
    by_contra hlt
    have hle : up ≤ 22 := by omega
    have : (2 : Nat) ^ up ≤ 2 ^ 22 := Nat.pow_le_pow_right (by decide) hle
    have : e * 2 ^ up ≤ e * 2 ^ 22 := Nat.mul_le_mul_left _ this
    omega
  have hcases : up = 23 ∨ up = 24 ∨ up = 25 := by omega
  have hdown : e * 2 ^ up < n * 16777216 := by
    have h3 := h2 (by omega)
    obtain ⟨m, hm⟩ : ∃ m, up = m + 1 := ⟨up - 1, by omega⟩
    rw [hm] at h3
    simp only [Nat.add_sub_cancel] at h3
    calc e * 2 ^ up = 2 * (e * 2 ^ m) := by rw [hm, pow_succ]; ring
      _ < n * 16777216 := by omega
  rw [scaleDown_of_lt _ _ _ hdown]
  simp only [pow_zero, Nat.mul_one]
  have hr := divRoundHalfEven_ge (e * 2 ^ up) n hn0
  generalize divRoundHalfEven (e * 2 ^ up) n = m at hr ⊢
  rcases hcases with hu | hu | hu <;> rw [hu] at hr h1 ⊢ <;> norm_num at hr h1 ⊢
  · by_contra hlt
    have : m * n ≤ 3355443 * n := Nat.mul_le_mul_right _ (by omega)
    generalize m * n = Z at hr this
    omega
  · by_contra hlt
    have : m * n ≤ 6710886 * n := Nat.mul_le_mul_right _ (by omega)
    generalize m * n = Z at hr this
    omega
  · by_contra hlt
    have : m * n ≤ 13421772 * n := Nat.mul_le_mul_right _ (by omega)
    generalize m * n = Z at hr this
    omega

/-! ## Lemmas: compaction -/

theorem insertRecord_perm (e : List Byte × List Byte) (l : List (List Byte × List Byte)) :
    (insertRecord e l).Perm (e :: l) := by
  induction l with
  | nil => exact List.Perm.refl _
  | cons x rest ih =>
    unfold insertRecord
    by_cases h : keyLE e.1 x.1 = true
    · rw [if_pos h]
    · rw [if_neg h]
      exact (List.Perm.cons x ih).trans (List.Perm.swap e x rest)

theorem sortRecords_perm (l : List (List Byte × List Byte)) : (sortRecords l).Perm l := by
  induction l with
  | nil => exact List.Perm.refl _
  | cons x rest ih =>
    exact (insertRecord_perm x (sortRecords rest)).trans (List.Perm.cons x ih)

/-- The iterator yields the records with the prefix, each once. -/
theorem recordsWithPrefix_perm (db : List (List Byte × List Byte)) (pfx : List Byte) :
    (recordsWithPrefix db pfx).Perm (db.filter (fun e => pfx.isPrefixOf e.1)) :=
  sortRecords_perm _

theorem mem_recordsWithPrefix (db : List (List Byte × List Byte)) (pfx : List Byte)
    (e : List Byte × List Byte) :
    e ∈ recordsWithPrefix db pfx ↔ e ∈ db ∧ pfx.isPrefixOf e.1 = true := by
  rw [(recordsWithPrefix_perm db pfx).mem_iff, List.mem_filter]

theorem countFrameEntries_fold (env : Env) (l : List (List Byte × List Byte)) (a b : Nat) :
    l.foldl
      (fun (counts : Nat × Nat) item =>
        (counts.1 + 1,
          if !env.statNotExist (decodeFrameKey item.1) then counts.2 + 1 else counts.2))
      (a, b)
    = (a + l.length,
        b + l.countP (fun item => !env.statNotExist (decodeFrameKey item.1))) := by
  induction l generalizing a b with
  | nil => simp
  | cons x rest ih =>
    rw [List.foldl_cons, ih]
    cases h : env.statNotExist (decodeFrameKey x.1) <;>
      simp [List.countP_cons, h] <;> omega

theorem countFrameEntries_eq (env : Env) (db : List (List Byte × List Byte)) :
    countFrameEntries env db
      = ((recordsWithPrefix db framePrefix).length,
          (recordsWithPrefix db framePrefix).countP
            (fun item => !env.statNotExist (decodeFrameKey item.1))) := by
  unfold countFrameEntries
  rw [countFrameEntries_fold]
  simp

theorem isPrefixOf_encodeFrameKey (p : GoString) :
    framePrefix.isPrefixOf (encodeFrameKey p) = true := by
  simp [framePrefix, encodeFrameKey, List.isPrefixOf]

theorem decodeFrameKey_encodeFrameKey (p : GoString) :
    decodeFrameKey (encodeFrameKey p) = p := by
  simp [framePrefix, encodeFrameKey, decodeFrameKey]

theorem encodeFrameKey_decodeFrameKey (k : List Byte)
    (h : framePrefix.isPrefixOf k = true) : encodeFrameKey (decodeFrameKey k) = k := by
  rcases k with _ | ⟨b0, _ | ⟨b1, rest⟩⟩ <;>
    simp [framePrefix, List.isPrefixOf] at h
  obtain ⟨h0, h1⟩ := h
  simp [framePrefix, encodeFrameKey, decodeFrameKey, h0, h1]

theorem not_scorePrefix_of_framePrefix (k : List Byte)
    (h : framePrefix.isPrefixOf k = true) : scorePrefix.isPrefixOf k = false := by
  rcases k with _ | ⟨b0, _ | ⟨b1, rest⟩⟩ <;>
    simp [framePrefix, List.isPrefixOf] at h
  obtain ⟨h0, h1⟩ := h
  subst h0
  simp [scorePrefix, List.isPrefixOf]

theorem mem_mapDelete {κ ν : Type} [DecidableEq κ] (m : List (κ × ν)) (k : κ) (e : κ × ν) :
    e ∈ mapDelete m k ↔ e ∈ m ∧ e.1 ≠ k := by
  simp [mapDelete]

theorem decodeFrameValue_isSome (v : List Byte) (h : 8 ≤ v.length) :
    ∃ id, decodeFrameValue v = some id := by
  rcases v with _ | ⟨b0, _ | ⟨b1, _ | ⟨b2, _ | ⟨b3, _ | ⟨b4, _ | ⟨b5, _ | ⟨b6, _ | ⟨b7, rest⟩⟩⟩⟩⟩⟩⟩⟩ <;>
    simp at h
  simp [decodeFrameValue, Uint64]

/-- Step 2 as a pass over any list of records: it runs to the end when the
records of existing files have values of at least eight bytes; it only
removes records of missing files; and when the store accepts the deletion of
each record of a missing file, in the transaction that holds the deletions of
those before it, it removes all of them. -/
theorem compactFrames_fold (env : Env) (state : State) (l : List (List Byte × List Byte))
    (acc : List (List Byte × List Byte) × List (Int × Bool) × List (GoString × Bool) ×
      List (List Byte))
    (hwf : ∀ item ∈ l, env.statNotExist (decodeFrameKey item.1) = false → 8 ≤ item.2.length) :
    ∃ res, l.foldlM (compactFramesStep env state) acc = some res ∧
      (∀ e, e ∈ res.1 → e ∈ acc.1) ∧
      (∀ e, e ∈ acc.1 →
        (∀ item ∈ l, env.statNotExist (decodeFrameKey item.1) = true → e.1 ≠ item.1) →
        e ∈ res.1) ∧
      ((∀ pre key post,
          (l.filter (fun item => env.statNotExist (decodeFrameKey item.1))).map Prod.fst
            = pre ++ key :: post →
          env.txnDeleteFails (acc.2.2.2 ++ pre) key = false) →
        ∀ e, e ∈ res.1 →
          ∀ item ∈ l, env.statNotExist (decodeFrameKey item.1) = true → e.1 ≠ item.1) ∧
      (∀ id, mapGet res.2.1 id = some true ↔
        mapGet acc.2.1 id = some true ∨
          ∃ item ∈ l, env.statNotExist (decodeFrameKey item.1) = false ∧
            decodeFrameValue item.2 = some id) := by
  induction l generalizing acc with
  | nil =>
    exact ⟨acc, rfl, fun e he => he, fun e he _ => he,
      fun _ e _ item hi => absurd hi (List.not_mem_nil _), by simp⟩
  | cons x rest ih =>
    have hwf2 : ∀ item ∈ rest,
        env.statNotExist (decodeFrameKey item.1) = false → 8 ≤ item.2.length :=
      fun item hi => hwf item (List.mem_cons_of_mem _ hi)
    rw [List.foldlM_cons]
    cases hx : env.statNotExist (decodeFrameKey x.1)
    · obtain ⟨id, hid⟩ := decodeFrameValue_isSome x.2 (hwf x (List.mem_cons_self _ _) hx)
      obtain ⟨res, h1, h2, h3, h4, h5⟩ := ih
        (acc.1, mapSet acc.2.1 id true, mapSet acc.2.2.1 (GetFrameFileName env state id) true,
          acc.2.2.2) hwf2
      refine ⟨res, ?_, h2, ?_, ?_, ?_⟩
      · simpa [compactFramesStep, hx, hid] using h1
      · intro e he hall
        exact h3 e he (fun item hi => hall item (List.mem_cons_of_mem _ hi))
      · intro hdel e he item hi hn
        rcases List.mem_cons.mp hi with hi | hi
        · rw [hi, hx] at hn
          cases hn
        · refine h4 (fun pre key post hsplit => hdel pre key post ?_) e he item hi hn
          rw [List.filter_cons_of_neg (by simp [hx])]
          exact hsplit
      · intro id2
        rw [h5 id2]
        simp only [List.mem_cons, exists_eq_or_imp, hx, hid, true_and, Option.some.injEq]
        by_cases hi : id = id2
        · subst hi
          simp [mapGet_mapSet_same]
        · rw [mapGet_mapSet_other _ _ _ _ hi]
          simp [hi]
    · cases hf : env.txnDeleteFails acc.2.2.2 x.1
      · obtain ⟨res, h1, h2, h3, h4, h5⟩ := ih
          (mapDelete acc.1 x.1, acc.2.1, acc.2.2.1, acc.2.2.2 ++ [x.1]) hwf2
        refine ⟨res, ?_, ?_, ?_, ?_, ?_⟩
        · simpa [compactFramesStep, hx, hf] using h1
        · intro e he
          exact ((mem_mapDelete _ _ _).1 (h2 e he)).1
        · intro e he hall
          apply h3 e
          · exact (mem_mapDelete _ _ _).2 ⟨he, hall x (List.mem_cons_self _ _) hx⟩
          · exact fun item hi => hall item (List.mem_cons_of_mem _ hi)
        · intro hdel e he item hi hn
          rcases List.mem_cons.mp hi with hi | hi
          · rw [hi]
            exact ((mem_mapDelete _ _ _).1 (h2 e he)).2
          · refine h4 (fun pre key post hsplit => ?_) e he item hi hn
            have hd := hdel (x.1 :: pre) key post (by
              rw [List.filter_cons_of_pos (by simp [hx]), List.map_cons, hsplit]
              rfl)
            simpa [List.append_assoc] using hd
        · intro id2
          rw [h5 id2]
          simp [hx]
      · obtain ⟨res, h1, h2, h3, h4, h5⟩ := ih acc hwf2
        refine ⟨res, ?_, h2, ?_, ?_, ?_⟩
        · simpa [compactFramesStep, hx, hf] using h1
        · intro e he hall
          exact h3 e he (fun item hi => hall item (List.mem_cons_of_mem _ hi))
        · intro hdel
          have hd := hdel [] x.1
            ((rest.filter (fun item => env.statNotExist (decodeFrameKey item.1))).map Prod.fst)
            (by
              rw [List.filter_cons_of_pos (by simp [hx]), List.map_cons]
              rfl)
          rw [List.append_nil, hf] at hd
          cases hd
        · intro id2
          rw [h5 id2]
          simp [hx]

theorem decodeScoreKey_isSome (k : List Byte) (h : 18 ≤ k.length) :
    ∃ ids, decodeScoreKey k = some ids := by
  rcases k with _ | ⟨p0, _ | ⟨p1, _ | ⟨b0, _ | ⟨b1, _ | ⟨b2, _ | ⟨b3, _ | ⟨b4, _ | ⟨b5, _ | ⟨b6, _ | ⟨b7, _ | ⟨c0, _ | ⟨c1, _ | ⟨c2, _ | ⟨c3, _ | ⟨c4, _ | ⟨c5, _ | ⟨c6, _ | ⟨c7, rest⟩⟩⟩⟩⟩⟩⟩⟩⟩⟩⟩⟩⟩⟩⟩⟩⟩⟩ <;>
    simp at h
  simp [decodeScoreKey, scorePrefix, Uint64]

theorem mem_foldl_mapDelete (ks : List (List Byte)) (db : List (List Byte × List Byte))
    (e : List Byte × List Byte) :
    e ∈ ks.foldl mapDelete db ↔ e ∈ db ∧ ∀ k ∈ ks, e.1 ≠ k := by
  induction ks generalizing db with
  | nil => simp
  | cons k rest ih =>
    rw [List.foldl_cons, ih, mem_mapDelete]
    simp only [List.mem_cons, forall_eq_or_imp]
    tauto

theorem compactScoresStep_eq (validFrames : List (Int × Bool))
    (acc : List (List Byte × List Byte) × List (List Byte) × Nat)
    (item : List Byte × List Byte) (ids : Int × Int)
    (hids : decodeScoreKey item.1 = some ids) :
    compactScoresStep validFrames acc item =
      if staleScoreKey validFrames item.1 then
        if acc.2.2 + 1 ≥ maxBatchSize then
          some ((acc.2.1 ++ [item.1]).foldl mapDelete acc.1, [], 0)
        else some (acc.1, acc.2.1 ++ [item.1], acc.2.2 + 1)
      else some acc := by
  simp only [compactScoresStep, staleScoreKey, hids, Option.bind_eq_bind, Option.some_bind]
  rfl

/-- Step 3 as a pass over any list of records whose keys decode. -/
theorem compactScores_fold (validFrames : List (Int × Bool))
    (l : List (List Byte × List Byte))
    (acc : List (List Byte × List Byte) × List (List Byte) × Nat)
    (hwf : ∀ item ∈ l, 18 ≤ item.1.length) :
    ∃ res, l.foldlM (compactScoresStep validFrames) acc = some res ∧
      (∀ e, e ∈ res.1 → e ∈ acc.1) ∧
      (∀ e, e ∈ acc.1 → (∀ k ∈ acc.2.1, e.1 ≠ k) →
        (∀ item ∈ l, staleScoreKey validFrames item.1 = true → e.1 ≠ item.1) → e ∈ res.1) ∧
      (acc.2.2 + l.countP (fun item => staleScoreKey validFrames item.1) < maxBatchSize →
        res.1 = acc.1) := by
  induction l generalizing acc with
  | nil => exact ⟨acc, rfl, fun e he => he, fun e he _ _ => he, fun _ => rfl⟩
  | cons x rest ih =>
    have hwf2 : ∀ item ∈ rest, 18 ≤ item.1.length :=
      fun item hi => hwf item (List.mem_cons_of_mem _ hi)
    obtain ⟨ids, hids⟩ := decodeScoreKey_isSome x.1 (hwf x (List.mem_cons_self _ _))
    rw [List.foldlM_cons, compactScoresStep_eq validFrames acc x ids hids]
    cases hstale : staleScoreKey validFrames x.1
    · -- both frames are valid: the record is kept
      obtain ⟨res, h1, h2, h3, h4⟩ := ih acc hwf2
      refine ⟨res, ?_, h2, ?_, ?_⟩
      · simpa using h1
      · intro e he hwb hl
        exact h3 e he hwb (fun item hi => hl item (List.mem_cons_of_mem _ hi))
      · intro hc
        apply h4
        simpa [List.countP_cons, hstale] using hc
    · by_cases hb : acc.2.2 + 1 ≥ maxBatchSize
      · -- the batch is full: it is flushed
        obtain ⟨res, h1, h2, h3, h4⟩ := ih ((acc.2.1 ++ [x.1]).foldl mapDelete acc.1, [], 0) hwf2
        refine ⟨res, ?_, ?_, ?_, ?_⟩
        · simpa [hb] using h1
        · intro e he
          exact ((mem_foldl_mapDelete _ _ _).1 (h2 e he)).1
        · intro e he hwb hl
          apply h3 e
          · rw [mem_foldl_mapDelete]
            refine ⟨he, fun k hk => ?_⟩
            rcases List.mem_append.1 hk with hk | hk
            · exact hwb k hk
            · rw [List.mem_singleton] at hk
              rw [hk]
              exact hl x (List.mem_cons_self _ _) hstale
          · simp
          · exact fun item hi => hl item (List.mem_cons_of_mem _ hi)
        · intro hc
          exfalso
          simp only [List.countP_cons, hstale, if_true] at hc
          omega
      · -- the deletion stays pending
        obtain ⟨res, h1, h2, h3, h4⟩ := ih (acc.1, acc.2.1 ++ [x.1], acc.2.2 + 1) hwf2
        refine ⟨res, ?_, h2, ?_, ?_⟩
        · simpa [hb] using h1
        · intro e he hwb hl
          apply h3 e he
          · intro k hk
            rcases List.mem_append.1 hk with hk | hk
            · exact hwb k hk
            · rw [List.mem_singleton] at hk
              rw [hk]
              exact hl x (List.mem_cons_self _ _) hstale
          · exact fun item hi => hl item (List.mem_cons_of_mem _ hi)
        · intro hc
          apply h4
          simp only [List.countP_cons, hstale, if_true] at hc
          simp only
          omega

/-- Step 2 runs to the end on a store whose frame records of existing files
have values of at least eight bytes: it removes nothing but frame records of
missing files, it removes all of them when the store accepts the deletion of
each frame record of a missing file, in key order, in the transaction that
holds the deletions of those before it, and it collects
the frame IDs of the records of existing files. -/
theorem compactFrames_spec (env : Env) (state : State)
    (hwf : ∀ item ∈ recordsWithPrefix state.db framePrefix,
      env.statNotExist (decodeFrameKey item.1) = false → 8 ≤ item.2.length) :
    ∃ db2 validFrames validImages,
      compactFrames env state = some (db2, validFrames, validImages) ∧
      (∀ e, e ∈ db2 → e ∈ state.db) ∧
      (∀ e, e ∈ state.db →
        ¬ (framePrefix.isPrefixOf e.1 = true ∧ env.statNotExist (decodeFrameKey e.1) = true) →
        e ∈ db2) ∧
      ((∀ pre key post,
          ((recordsWithPrefix state.db framePrefix).filter
            (fun item => env.statNotExist (decodeFrameKey item.1))).map Prod.fst
            = pre ++ key :: post →
          env.txnDeleteFails pre key = false) →
        ∀ e, e ∈ db2 →
          ¬ (framePrefix.isPrefixOf e.1 = true ∧
            env.statNotExist (decodeFrameKey e.1) = true)) ∧
      (∀ id, mapGet validFrames id = some true ↔
        ∃ item ∈ recordsWithPrefix state.db framePrefix,
          env.statNotExist (decodeFrameKey item.1) = false ∧
            decodeFrameValue item.2 = some id) := by
  obtain ⟨res, h1, h2, h3, h4, h5⟩ := compactFrames_fold env state
    (recordsWithPrefix state.db framePrefix) (state.db, [], [], []) hwf
  refine ⟨res.1, res.2.1, res.2.2.1, ?_, h2, ?_, ?_, ?_⟩
  · unfold compactFrames
    rw [h1]
    rfl
  · intro e he hnot
    refine h3 e he (fun item hi hn heq => hnot ?_)
    rw [heq]
    exact ⟨((mem_recordsWithPrefix _ _ _).1 hi).2, hn⟩
  · intro hdel e he hh
    exact h4 (fun pre key post hsplit => by simpa using hdel pre key post hsplit) e he e
      ((mem_recordsWithPrefix _ _ _).2 ⟨h2 e he, hh.1⟩) hh.2 rfl
  · intro id
    rw [h5 id]
    simp [mapGet]

/-- Step 3 runs to the end on a store whose score keys have at least 18 bytes.
It deletes nothing but stale score records, and it deletes nothing at all
when fewer than `maxBatchSize` score records are stale. -/
theorem compactScores_spec (db : List (List Byte × List Byte)) (validFrames : List (Int × Bool))
    (hwf : ∀ item ∈ recordsWithPrefix db scorePrefix, 18 ≤ item.1.length) :
    ∃ db3, compactScores db validFrames = some db3 ∧
      (∀ e, e ∈ db3 → e ∈ db) ∧
      (∀ e, e ∈ db →
        ¬ (scorePrefix.isPrefixOf e.1 = true ∧ staleScoreKey validFrames e.1 = true) →
        e ∈ db3) ∧
      ((recordsWithPrefix db scorePrefix).countP (fun item => staleScoreKey validFrames item.1)
          < maxBatchSize → db3 = db) := by
  obtain ⟨res, h1, h2, h3, h4⟩ := compactScores_fold validFrames
    (recordsWithPrefix db scorePrefix) (db, [], 0) hwf
  refine ⟨res.1, by simp [compactScores, h1], h2, ?_, ?_⟩
  · intro e he hnot
    apply h3 e he (by simp)
    intro item hi hs heq
    apply hnot
    rw [heq]
    exact ⟨((mem_recordsWithPrefix _ _ _).1 hi).2, hs⟩
  · intro hc
    exact h4 (by simpa using hc)

/-- When the safety gate passes, `CompactDataStore` is step 2 followed by
step 3 and step 4. -/
theorem CompactDataStore_passed (env : Env) (state : State)
    (db2 db3 : List (List Byte × List Byte)) (validFrames : List (Int × Bool))
    (validImages : List (GoString × Bool))
    (hp : state.persistent = true)
    (hn : (countFrameEntries env state.db).1 ≠ 0)
    (hgate : compactionAborts (countFrameEntries env state.db).1
      (countFrameEntries env state.db).2 = false)
    (h2 : compactFrames env state = some (db2, validFrames, validImages))
    (h3 : compactScores db2 validFrames = some db3) :
    CompactDataStore env state
      = some ({ state with db := db3 }, staleImageFiles env state validImages, none) := by
  simp [CompactDataStore, hp, hn, hgate, h2, h3]

theorem Uint64_PutUint64 (v : Nat) (hv : v < 18446744073709551616) (rest : List Byte) :
    Uint64 (PutUint64 v ++ rest) = some v := by
  simp only [PutUint64, Uint64, byte, List.cons_append, List.nil_append, Option.some.injEq]
  omega

theorem countP_lt_range (k n : Nat) (h : k ≤ n) :
    (List.range n).countP (fun i => decide (i < k)) = k := by
  induction n with
  | zero =>
    have : k = 0 := by omega
    subst this
    rfl
  | succ m ih =>
    rw [List.range_succ, List.countP_append]
    by_cases hk : k ≤ m
    · rw [ih hk]
      have : ¬ m < k := by omega
      simp [this]
    · have hk2 : k = m + 1 := by omega
      have h1 : (List.range m).countP (fun i => decide (i < k)) = m := by
        have : (List.range m).countP (fun i => decide (i < k))
            = (List.range m).countP (fun _ => true) := by
          apply List.countP_congr
          intro x hx
          rw [List.mem_range] at hx
          simp
          omega
        rw [this]
        simp
      rw [h1, hk2]
      simp

theorem storeManyFrames_records (n : Nat) :
    (recordsWithPrefix (storeManyFrames n).db framePrefix).Perm (storeManyFrames n).db := by
  have h : (storeManyFrames n).db.filter (fun e => framePrefix.isPrefixOf e.1)
      = (storeManyFrames n).db := by
    rw [List.filter_eq_self]
    intro e he
    simp only [storeManyFrames, List.mem_map] at he
    obtain ⟨i, _, rfl⟩ := he
    exact isPrefixOf_encodeFrameKey _
  have hp := recordsWithPrefix_perm (storeManyFrames n).db framePrefix
  rw [h] at hp
  exact hp

theorem storeManyFrames_counts (n k : Nat) (hn : n ≤ 18446744073709551616) (hk : k ≤ n) :
    countFrameEntries (envManyFiles k) (storeManyFrames n).db = (n, k) := by
  rw [countFrameEntries_eq, (storeManyFrames_records n).length_eq,
    (storeManyFrames_records n).countP_eq]
  have h1 : (storeManyFrames n).db.length = n := by simp [storeManyFrames]
  have h2 : (storeManyFrames n).db.countP
      (fun item => !(envManyFiles k).statNotExist (decodeFrameKey item.1)) = k := by
    simp only [storeManyFrames, List.countP_map]
    refine Eq.trans ?_ (countP_lt_range k n hk)
    apply List.countP_congr
    intro i hi
    rw [List.mem_range] at hi
    have hr := Uint64_PutUint64 i (by omega) []
    rw [List.append_nil] at hr
    simp [decodeFrameKey_encodeFrameKey, envManyFiles, hr]
  rw [h1, h2]

/-- The frame records of a passed compaction in which the store accepts the
deletion of each frame record of a missing file, in key order, in the
transaction that holds the deletions of those before it: with
the values of the frame records of existing files and the score keys
well-formed, `CompactDataStore`
runs to the end without error, a frame record is in the store afterwards
exactly when it was there before and its file exists, and `validFrames` holds
exactly the frame IDs of the records that remain. -/
theorem CompactDataStore_frames (env : Env) (state : State)
    (hp : state.persistent = true)
    (hgate : (countFrameEntries env state.db).1 ≠ 0 →
      compactionAborts (countFrameEntries env state.db).1
        (countFrameEntries env state.db).2 = false)
    (hwfF : ∀ item ∈ recordsWithPrefix state.db framePrefix,
      env.statNotExist (decodeFrameKey item.1) = false → 8 ≤ item.2.length)
    (hwfS : ∀ item ∈ recordsWithPrefix state.db scorePrefix, 18 ≤ item.1.length)
    (hdel : ∀ pre key post,
      ((recordsWithPrefix state.db framePrefix).filter
        (fun item => env.statNotExist (decodeFrameKey item.1))).map Prod.fst
        = pre ++ key :: post →
      env.txnDeleteFails pre key = false) :
    ∃ st' removed db2 validFrames validImages,
      CompactDataStore env state = some (st', removed, none) ∧
      compactFrames env state = some (db2, validFrames, validImages) ∧
      (∀ p v, (encodeFrameKey p, v) ∈ st'.db ↔
        ((encodeFrameKey p, v) ∈ state.db ∧ env.statNotExist p = false)) ∧
      (∀ id, (mapGet validFrames id).getD false = true ↔
        ∃ p v, (encodeFrameKey p, v) ∈ st'.db ∧ decodeFrameValue v = some id) := by
  obtain ⟨db2, validFrames, validImages, h2, hsub2, hkeep2, hgone2, hvf⟩ :=
    compactFrames_spec env state hwfF
  have hdb2 : ∀ e, e ∈ db2 ↔ e ∈ state.db ∧
      ¬ (framePrefix.isPrefixOf e.1 = true ∧ env.statNotExist (decodeFrameKey e.1) = true) :=
    fun e => ⟨fun he => ⟨hsub2 e he, hgone2 hdel e he⟩, fun he => hkeep2 e he.1 he.2⟩
  have hwfS2 : ∀ item ∈ recordsWithPrefix db2 scorePrefix, 18 ≤ item.1.length := by
    intro item hi
    rw [mem_recordsWithPrefix] at hi
    exact hwfS item ((mem_recordsWithPrefix _ _ _).2 ⟨((hdb2 item).1 hi.1).1, hi.2⟩)
  obtain ⟨db3, h3, hsub, hkeep, _⟩ := compactScores_spec db2 validFrames hwfS2
  -- membership of a frame record after steps 2 and 3
  have hrec : ∀ p v, (encodeFrameKey p, v) ∈ db3 ↔
      ((encodeFrameKey p, v) ∈ state.db ∧ env.statNotExist p = false) := by
    intro p v
    constructor
    · intro h
      obtain ⟨h1, hnot⟩ := (hdb2 _).1 (hsub _ h)
      refine ⟨h1, ?_⟩
      cases hx : env.statNotExist p
      · rfl
      · exact absurd ⟨isPrefixOf_encodeFrameKey p,
          by simpa [decodeFrameKey_encodeFrameKey] using hx⟩ hnot
    · rintro ⟨h1, hx⟩
      apply hkeep
      · apply (hdb2 _).2
        refine ⟨h1, fun hh => ?_⟩
        have := hh.2
        simp [decodeFrameKey_encodeFrameKey, hx] at this
      · intro hh
        have := not_scorePrefix_of_framePrefix _ (isPrefixOf_encodeFrameKey p)
        simp [this] at hh
  have hvalid : ∀ (db' : List (List Byte × List Byte)),
      (∀ p v, (encodeFrameKey p, v) ∈ db' ↔
        ((encodeFrameKey p, v) ∈ state.db ∧ env.statNotExist p = false)) →
      ∀ id, (mapGet validFrames id).getD false = true ↔
        ∃ p v, (encodeFrameKey p, v) ∈ db' ∧ decodeFrameValue v = some id := by
    intro db' hdb' id
    have e1 : (mapGet validFrames id).getD false = true ↔ mapGet validFrames id = some true := by
      cases h : mapGet validFrames id with
      | none => simp
      | some b => cases b <;> simp
    rw [e1, hvf id]
    constructor
    · rintro ⟨item, hi, hx, hid⟩
      rw [mem_recordsWithPrefix] at hi
      refine ⟨decodeFrameKey item.1, item.2, ?_, hid⟩
      rw [hdb', encodeFrameKey_decodeFrameKey _ hi.2]
      exact ⟨hi.1, hx⟩
    · rintro ⟨p, v, hmem, hid⟩
      obtain ⟨h1, hx⟩ := (hdb' p v).1 hmem
      refine ⟨(encodeFrameKey p, v), ?_, ?_, hid⟩
      · exact (mem_recordsWithPrefix _ _ _).2 ⟨h1, isPrefixOf_encodeFrameKey p⟩
      · simpa [decodeFrameKey_encodeFrameKey] using hx
  by_cases hn : (countFrameEntries env state.db).1 = 0
  · -- no frame record at all: nothing to do
    have hempty : recordsWithPrefix state.db framePrefix = [] := by
      rw [countFrameEntries_eq] at hn
      exact List.length_eq_zero.1 hn
    have hnone : ∀ p v, (encodeFrameKey p, v) ∉ state.db := by
      intro p v h
      have : (encodeFrameKey p, v) ∈ recordsWithPrefix state.db framePrefix :=
        (mem_recordsWithPrefix _ _ _).2 ⟨h, isPrefixOf_encodeFrameKey p⟩
      rw [hempty] at this
      simp at this
    have hsame : ∀ p v, (encodeFrameKey p, v) ∈ state.db ↔
        ((encodeFrameKey p, v) ∈ state.db ∧ env.statNotExist p = false) :=
      fun p v => ⟨fun h => absurd h (hnone p v), fun h => h.1⟩
    refine ⟨state, [], db2, validFrames, validImages, ?_, h2, hsame, hvalid _ hsame⟩
    simp [CompactDataStore, hp, hn]
  · exact ⟨_, _, db2, validFrames, validImages,
      CompactDataStore_passed env state db2 db3 validFrames validImages hp hn (hgate hn) h2 h3,
      h2, hrec, hvalid _ hrec⟩

/-- Compaction of `storeManyFrames n` when the first `k` files exist and the
gate passes: it runs to the end and deletes the record of file `k`. -/
theorem storeManyFrames_compacted (n k : Nat) (hn : n ≤ 18446744073709551616) (hk : k < n)
    (hgate : compactionAborts n k = false) :
    (encodeFrameKey (PutUint64 k), encodeFrameValue ((k : Int) + 1)) ∈ (storeManyFrames n).db ∧
    ∃ st' removed, CompactDataStore (envManyFiles k) (storeManyFrames n)
        = some (st', removed, none) ∧
      (encodeFrameKey (PutUint64 k), encodeFrameValue ((k : Int) + 1)) ∉ st'.db := by
  have hcount := storeManyFrames_counts n k hn (by omega)
  have hmem : (encodeFrameKey (PutUint64 k), encodeFrameValue ((k : Int) + 1))
      ∈ (storeManyFrames n).db := by
    simp only [storeManyFrames, List.mem_map, List.mem_range]
    exact ⟨k, hk, rfl⟩
  refine ⟨hmem, ?_⟩
  obtain ⟨st', removed, db2, vf, vi, h1, _, hrec, _⟩ :=
    CompactDataStore_frames (envManyFiles k) (storeManyFrames n) rfl
      (fun _ => by rw [hcount]; exact hgate)
      (by
        intro item hi _
        rw [(storeManyFrames_records n).mem_iff] at hi
        simp only [storeManyFrames, List.mem_map] at hi
        obtain ⟨i, _, rfl⟩ := hi
        simp [encodeFrameValue, PutUint64])
      (by
        intro item hi
        rw [mem_recordsWithPrefix] at hi
        have hf : framePrefix.isPrefixOf item.1 = true := by
          have := hi.1
          simp only [storeManyFrames, List.mem_map] at this
          obtain ⟨i, _, rfl⟩ := this
          exact isPrefixOf_encodeFrameKey _
        have := not_scorePrefix_of_framePrefix _ hf
        rw [hi.2] at this
        simp at this)
      (fun _ _ _ _ => rfl)
  refine ⟨st', removed, h1, fun h => ?_⟩
  have hx := ((hrec _ _).1 h).2
  have hr := Uint64_PutUint64 k (by omega) []
  rw [List.append_nil] at hr
  simp [envManyFiles, hr] at hx

/-! ## Lemmas: integer and key encodings -/

theorem toUint64_of_nonneg (n : Int) (h1 : 0 ≤ n) (h2 : n < 18446744073709551616) :
    toUint64 n = n.toNat := by
  unfold toUint64
  rw [Int.emod_eq_of_lt h1 h2]

theorem toUint64_lt (n : Int) : toUint64 n < 18446744073709551616 := by
  unfold toUint64
  have := Int.emod_lt_of_pos n (show (0 : Int) < 18446744073709551616 by decide)
  have := Int.emod_nonneg n (show (18446744073709551616 : Int) ≠ 0 by decide)
  omega

theorem toInt_toUint64 (n : Int) (h1 : -9223372036854775808 ≤ n)
    (h2 : n < 9223372036854775808) : toInt (toUint64 n) = n := by
  unfold toInt toUint64
  have h3 := Int.emod_lt_of_pos n (show (0 : Int) < 18446744073709551616 by decide)
  have h4 := Int.emod_nonneg n (show (18446744073709551616 : Int) ≠ 0 by decide)
  have h5 := Int.emod_add_ediv n 18446744073709551616
  split <;> omega

theorem decodeFrameValue_encodeFrameValue (n : Int) (h1 : -9223372036854775808 ≤ n)
    (h2 : n < 9223372036854775808) : decodeFrameValue (encodeFrameValue n) = some n := by
  have h := Uint64_PutUint64 (toUint64 n) (toUint64_lt n) []
  rw [List.append_nil] at h
  simp [decodeFrameValue, encodeFrameValue, h, toInt_toUint64 n h1 h2]

theorem bigEndianValue_PutUint64 (v : Nat) (hv : v < 18446744073709551616) :
    bigEndianValue (PutUint64 v) = v := by
  simp only [bigEndianValue, PutUint64, byte, List.foldl_cons, List.foldl_nil]
  omega

theorem bigEndianValue_PutUint32 (v : uint32) : bigEndianValue (PutUint32 v) = v.val := by
  obtain ⟨n, hn⟩ := v
  simp only [bigEndianValue, PutUint32, byte, List.foldl_cons, List.foldl_nil]
  omega

theorem PutUint64_injective (u v : Nat) (hu : u < 18446744073709551616)
    (hv : v < 18446744073709551616) (h : PutUint64 u = PutUint64 v) : u = v := by
  rw [← bigEndianValue_PutUint64 u hu, ← bigEndianValue_PutUint64 v hv, h]

theorem decodeScoreKey_encoded (u v : Nat) (hu : u < 18446744073709551616)
    (hv : v < 18446744073709551616) :
    decodeScoreKey (scorePrefix ++ PutUint64 u ++ PutUint64 v) = some (toInt u, toInt v) := by
  have h1 := Uint64_PutUint64 u hu []
  have h2 := Uint64_PutUint64 v hv []
  rw [List.append_nil] at h1 h2
  have e1 : ((scorePrefix ++ PutUint64 u ++ PutUint64 v).drop scorePrefix.length).take 8
      = PutUint64 u := by
    simp [scorePrefix, PutUint64]
  have e2 : (scorePrefix ++ PutUint64 u ++ PutUint64 v).drop (scorePrefix.length + 8)
      = PutUint64 v := by
    simp [scorePrefix, PutUint64]
  have e3 : ¬ (scorePrefix ++ PutUint64 u ++ PutUint64 v).length < scorePrefix.length + 8 := by
    simp [scorePrefix, PutUint64]
  unfold decodeScoreKey
  rw [if_neg e3, e1, e2, h1, h2]
  rfl

/-! ## Lemmas: the buckets after the comparison stage -/

theorem bucketResults_bucketStep (proc : Processor) (f1 f2 : Int) (s : float32) :
    ((bucketResults proc f1 f2 s).frameBuckets, (bucketResults proc f1 f2 s).nextBucket)
      = bucketStep proc.IgnoreFalsePositives (proc.frameBuckets, proc.nextBucket) f1 f2 s := by
  unfold bucketResults bucketStep isFalsePositive
  split
  · rfl
  · split
    · cases mapGet proc.frameBuckets f1 <;> cases mapGet proc.frameBuckets f2 <;> rfl
    · rfl

theorem compareStep_buckets (acc : Processor × List cmpEvent) (x y : Int)
    (res : Processor × List cmpEvent) (h : compareStep acc x y = some res) :
    (res.1.frameBuckets, res.1.nextBucket)
      = consumeCached acc.1.state acc.1.IgnoreFalsePositives
          (acc.1.frameBuckets, acc.1.nextBucket) (x, y) ∧
    res.1.IgnoreFalsePositives = acc.1.IgnoreFalsePositives ∧ res.1.state = acc.1.state := by
  cases hr : GetComparisonScore acc.1.state x y with
  | none => rw [compareStep_none acc x y hr] at h; exact absurd h (by simp)
  | some r =>
    obtain ⟨score, found⟩ := r
    have hb := bucketResults_bucketStep acc.1 x y score
    have hf := bucketResults_frame acc.1 x y score
    cases found
    · simp only [compareStep, hr, Option.bind_eq_bind, Option.some_bind, Bool.false_eq_true,
        if_false, Option.pure_def, Option.some.injEq] at h
      subst h
      simp [consumeCached, hr]
    · simp only [compareStep, hr, Option.bind_eq_bind, Option.some_bind, if_true,
        Option.pure_def, Option.some.injEq] at h
      subst h
      simp only [consumeCached, hr]
      exact ⟨hb, hf.2.2.1, hf.1⟩

theorem compare_fold_buckets (l : List (Int × Int)) (acc res : Processor × List cmpEvent)
    (h : l.foldlM (fun acc p => compareStep acc p.1 p.2) acc = some res) :
    (res.1.frameBuckets, res.1.nextBucket)
      = l.foldl (consumeCached acc.1.state acc.1.IgnoreFalsePositives)
          (acc.1.frameBuckets, acc.1.nextBucket) ∧
    res.1.IgnoreFalsePositives = acc.1.IgnoreFalsePositives := by
  induction l generalizing acc with
  | nil =>
    simp only [List.foldlM_nil, Option.pure_def, Option.some.injEq] at h
    subst h
    exact ⟨rfl, rfl⟩
  | cons p rest ih =>
    rw [List.foldlM_cons] at h
    cases h1 : compareStep acc p.1 p.2 with
    | none => rw [h1] at h; exact absurd h (by simp)
    | some mid =>
      rw [h1] at h
      simp only [Option.bind_eq_bind, Option.some_bind] at h
      obtain ⟨e1, e2, e3⟩ := compareStep_buckets acc p.1 p.2 mid h1
      obtain ⟨i1, i2⟩ := ih mid h
      refine ⟨?_, i2.trans e2⟩
      rw [i1, e1, e2, e3]
      rfl

/-- The buckets after `generateComparisonJobs`: the cached scores of the
enumerated pairs, consumed in order. -/
theorem generateComparisonJobs_buckets (proc proc1 : Processor) (trace : List cmpEvent)
    (h : generateComparisonJobs proc = some (proc1, trace)) :
    (proc1.frameBuckets, proc1.nextBucket)
      = (enumeratedPairs proc.frames).foldl
          (consumeCached proc.state proc.IgnoreFalsePositives)
          (proc.frameBuckets, proc.nextBucket) := by
  rw [generateComparisonJobs_eq_fold] at h
  exact (compare_fold_buckets _ _ _ h).1

theorem bucketStep_different (ign : Bool) (b : List (Int × Int) × Int) (f1 f2 : Int) :
    bucketStep ign b f1 f2 ScoreDifferent = b := by
  have h1 : float32.lt ScoreDifferent float32.zero = false := by decide
  have h2 : float32.le ScoreDifferent SimilarityThreshold = false := by decide
  simp [bucketStep, h1, h2]

theorem bucketStep_similar (ign : Bool) (b : List (Int × Int) × Int) (f1 f2 : Int) :
    bucketStep ign b f1 f2 ScoreSimilar =
      match mapGet b.1 f1 with
      | some bucket => (mapSet (mapSet b.1 f1 bucket) f2 bucket, b.2)
      | none =>
        match mapGet b.1 f2 with
        | some bucket => (mapSet (mapSet b.1 f1 bucket) f2 bucket, b.2)
        | none => (mapSet (mapSet b.1 f1 b.2) f2 b.2, b.2 + 1) := by
  have h1 : float32.lt ScoreSimilar float32.zero = false := by decide
  have h2 : float32.le ScoreSimilar SimilarityThreshold = true := by decide
  simp only [bucketStep, h1, h2, Bool.false_and, Bool.false_eq_true, if_false, if_true]

/-- Three distinct frames, the first two similar, the first and third
different, the last two similar: one bucket, whatever the argument order. -/
theorem three_frames_one_bucket (ign : Bool) (n : Int) (a b c d e f : Int)
    (X Y Z : Int) (hXY : X ≠ Y) (hXZ : X ≠ Z) (hYZ : Y ≠ Z)
    (h1 : (a = X ∧ b = Y) ∨ (a = Y ∧ b = X))
    (h2 : (c = X ∧ d = Z) ∨ (c = Z ∧ d = X))
    (h3 : (e = Y ∧ f = Z) ∨ (e = Z ∧ f = Y)) :
    ∃ fb, bucketStep ign (bucketStep ign (bucketStep ign ([], n) a b ScoreSimilar)
        c d ScoreDifferent) e f ScoreSimilar = (fb, n + 1) ∧
      mapGet fb X = some n ∧ mapGet fb Y = some n ∧ mapGet fb Z = some n := by
  have hYX : Y ≠ X := Ne.symm hXY
  have hZX : Z ≠ X := Ne.symm hXZ
  have hZY : Z ≠ Y := Ne.symm hYZ
  rw [bucketStep_different, bucketStep_similar, bucketStep_similar]
  rcases h1 with ⟨rfl, rfl⟩ | ⟨rfl, rfl⟩ <;> rcases h3 with ⟨rfl, rfl⟩ | ⟨rfl, rfl⟩ <;>
    simp [mapGet, mapSet, hXY, hXZ, hYZ, hYX, hZX, hZY]

theorem processComparisonResults_errors (rs : List fcmpResponse) (proc : Processor)
    (h : ∀ r ∈ rs, r.err.isSome = true) :
    (processComparisonResults proc rs).state = proc.state ∧
    (processComparisonResults proc rs).frameBuckets = proc.frameBuckets ∧
    (processComparisonResults proc rs).nextBucket = proc.nextBucket := by
  induction rs generalizing proc with
  | nil => exact ⟨rfl, rfl, rfl⟩
  | cons r rest ih =>
    rw [processComparisonResults_cons]
    have hr : r.err.isNone = false := by
      have := h r (List.mem_cons_self _ _)
      cases he : r.err with
      | none => rw [he] at this; simp at this
      | some e => rfl
    simp only [hr, Bool.false_eq_true, if_false]
    exact ih _ (fun x hx => h x (List.mem_cons_of_mem _ hx))

/-! ## Lemmas: unmatching files -/

/-- The invariant rule for a loop `for k := range n`. -/
theorem foldlM_range_invariant {σ : Type} (f : σ → Nat → Option σ) (P : Nat → σ → Prop)
    (n : Nat) (init : σ) (h0 : P 0 init)
    (hstep : ∀ k, k < n → ∀ acc, P k acc → ∃ acc', f acc k = some acc' ∧ P (k + 1) acc') :
    ∃ res, (List.range n).foldlM f init = some res ∧ P n res := by
  induction n with
  | zero => exact ⟨init, rfl, h0⟩
  | succ m ih =>
    obtain ⟨mid, h1, h2⟩ := ih (fun k hk acc hp => hstep k (by omega) acc hp)
    obtain ⟨res, h3, h4⟩ := hstep m (by omega) mid h2
    refine ⟨res, ?_, h4⟩
    rw [List.range_succ, List.foldlM_append, h1]
    simp [h3]

theorem isPrefixOf_encodeScoreKey (a b : Int) :
    scorePrefix.isPrefixOf (encodeScoreKey a b) = true := by
  unfold encodeScoreKey
  split <;> simp [scorePrefix, List.isPrefixOf]

theorem encodeScoreKey_ne_encodeFrameKey (a b : Int) (f : GoString) :
    encodeScoreKey a b ≠ encodeFrameKey f := by
  intro h
  have h1 := isPrefixOf_encodeScoreKey a b
  have h2 := not_scorePrefix_of_framePrefix _ (isPrefixOf_encodeFrameKey f)
  rw [h, h2] at h1
  exact absurd h1 (by simp)

theorem unmatchInv_refl (st : State)
    (hS : st.persistent = true → ∀ a b v, mapGet st.db (encodeScoreKey a b) = some v →
      5 ≤ v.length) : unmatchInv st st :=
  ⟨rfl, rfl, fun _ => rfl, hS⟩

theorem knownID_of_unmatchInv (st0 st : State) (h : unmatchInv st0 st) (f : GoString) :
    knownID st f = knownID st0 f := by
  obtain ⟨h1, h2, h3, _⟩ := h
  simp [knownID, h1, h2, h3]

/-- The entry of a pair depends on the mode, the store and the in-memory
scores only. -/
theorem scoreEntry_congr (st1 st2 : State) (a b : Int) (hp : st1.persistent = st2.persistent)
    (hdb : st1.db = st2.db) (hms : st1.matchScores = st2.matchScores) :
    scoreEntry st1 a b = scoreEntry st2 a b := by
  unfold scoreEntry
  rw [hp, hdb, hms]

theorem sameKeyCalled_append (calls : List (Int × Int)) (c : Int × Int) (a b : Int) :
    sameKeyCalled (calls ++ [c]) a b
      = (sameKeyCalled calls a b || decide (encodeScoreKey c.1 c.2 = encodeScoreKey a b)) := by
  simp [sameKeyCalled, List.any_append]

theorem marksInv_refl (st : State) : marksInv st st [] := by
  refine ⟨fun _ => rfl, fun _ a b => ?_⟩
  cases scoreEntry st a b <;> simp [sameKeyCalled]

theorem decodeScoreData_isSome (val : List Byte) (h : 5 ≤ val.length) :
    ∃ s f, decodeScoreData val = some (s, f) := by
  rcases val with _ | ⟨b0, _ | ⟨b1, _ | ⟨b2, _ | ⟨b3, _ | ⟨b4, rest⟩⟩⟩⟩⟩ <;> simp at h
  cases hd : decodeScoreData (b0 :: b1 :: b2 :: b3 :: b4 :: rest) with
  | none => simp [decodeScoreData, Uint32] at hd
  | some e => exact ⟨e.1, e.2, rfl⟩

theorem GetframeID_spec (st : State) (f : GoString)
    (hwf : st.persistent = true → ∀ v, mapGet st.db (encodeFrameKey f) = some v →
      8 ≤ v.length) :
    ∃ st', GetframeID st f = some (st', (knownID st f).getD 0, (knownID st f).isSome) ∧
      st'.persistent = st.persistent ∧ st'.image2frame = st.image2frame ∧ st'.db = st.db ∧
      st'.matchScores = st.matchScores ∧ (st.persistent = false → st' = st) := by
  cases hp : st.persistent
  · cases hl : mapGet st.image2frame f with
    | none =>
      exact ⟨st, by simp [GetframeID, knownID, hp, hl], hp, rfl, rfl, rfl, fun _ => rfl⟩
    | some id =>
      exact ⟨st, by simp [GetframeID, knownID, hp, hl], hp, rfl, rfl, rfl, fun _ => rfl⟩
  · cases hl : mapGet st.db (encodeFrameKey f) with
    | none =>
      exact ⟨st, by simp [GetframeID, getImageFramePersistent, knownID, hp, hl], hp, rfl, rfl,
        rfl, fun _ => rfl⟩
    | some v =>
      obtain ⟨id, hid⟩ := decodeFrameValue_isSome v (hwf hp v hl)
      exact ⟨{ st with frame2image := mapSet st.frame2image id f },
        by simp [GetframeID, getImageFramePersistent, knownID, hp, hl, hid], hp, rfl, rfl, rfl,
        fun h => Bool.noConfusion h⟩

/-- `GetframeID` keeps `unmatchInv` and `marksInv`. -/
theorem inv_of_GetframeID (st0 st st1 : State) (calls : List (Int × Int))
    (hinv : unmatchInv st0 st) (hm : marksInv st0 st calls)
    (hp1 : st1.persistent = st.persistent) (hi1 : st1.image2frame = st.image2frame)
    (hd1 : st1.db = st.db) (hs1 : st1.matchScores = st.matchScores)
    (he1 : st.persistent = false → st1 = st) :
    unmatchInv st0 st1 ∧ marksInv st0 st1 calls := by
  obtain ⟨i1, i2, i3, i4⟩ := hinv
  refine ⟨⟨hp1.trans i1, hi1.trans i2, fun g => by rw [hd1]; exact i3 g,
    fun hp => by rw [hd1]; exact i4 (by rw [← hp1]; exact hp)⟩, ?_, ?_⟩
  · intro hp
    rw [he1 (i1.trans hp)]
    exact hm.1 hp
  · intro hp a b
    rw [scoreEntry_congr st1 st a b hp1 hd1 hs1]
    exact hm.2 hp a b

theorem UnmatchFrames_unmatchInv (st0 st : State) (a b : Int) (calls : List (Int × Int))
    (h : unmatchInv st0 st) (hm : marksInv st0 st calls) :
    ∃ st', UnmatchFrames st a b true = some st' ∧ unmatchInv st0 st' ∧
      marksInv st0 st' (calls ++ [(a, b)]) := by
  obtain ⟨h1, h2, h3, h4⟩ := h
  rcases Bool.eq_false_or_eq_true st.persistent with hp | hp
  · cases hl : mapGet st.db (encodeScoreKey a b) with
    | none =>
      refine ⟨st, by simp [UnmatchFrames, unmatchFramesPersistent, hp, hl], ⟨h1, h2, h3, h4⟩,
        fun hp0 => absurd (h1.symm.trans hp) (by rw [hp0]; simp), ?_⟩
      intro hp0 x y
      rw [hm.2 hp0 x y, sameKeyCalled_append]
      by_cases hk : encodeScoreKey a b = encodeScoreKey x y
      · have hnone : scoreEntry st x y = none := by
          simp only [scoreEntry, hp, if_true]
          rw [← hk, hl]
          rfl
        rw [hm.2 hp0 x y] at hnone
        cases h0 : scoreEntry st0 x y with
        | none => rfl
        | some e =>
          rw [h0] at hnone
          cases hnone
      · simp [hk]
    | some val =>
      have hlen := h4 hp a b val hl
      have hnot : ¬ val.length ≤ 4 := by omega
      refine ⟨{ st with db := mapSet st.db (encodeScoreKey a b) (val.set 4 (boolToByte true)) },
        by simp [UnmatchFrames, unmatchFramesPersistent, hp, hl, hnot], ⟨h1, h2, ?_, ?_⟩,
        fun hp0 => absurd (h1.symm.trans hp) (by rw [hp0]; simp), ?_⟩
      · intro f
        simp only
        rw [mapGet_mapSet_other _ _ _ _ (encodeScoreKey_ne_encodeFrameKey a b f)]
        exact h3 f
      · intro _ c d v hv
        simp only at hv
        by_cases hk : encodeScoreKey a b = encodeScoreKey c d
        · rw [← hk, mapGet_mapSet_same] at hv
          injection hv with hv
          rw [← hv]
          simpa using hlen
        · rw [mapGet_mapSet_other _ _ _ _ hk] at hv
          exact h4 hp c d v hv
      · intro hp0 x y
        rw [sameKeyCalled_append]
        by_cases hk : encodeScoreKey a b = encodeScoreKey x y
        · obtain ⟨s, flag, hdec⟩ := decodeScoreData_isSome val hlen
          have hold : scoreEntry st x y = some (s, flag) := by
            simp only [scoreEntry, hp, if_true]
            rw [← hk, hl]
            exact hdec
          have hnew : scoreEntry { st with
              db := mapSet st.db (encodeScoreKey a b) (val.set 4 (boolToByte true)) } x y
              = some (s, true) := by
            simp only [scoreEntry, hp, if_true]
            rw [← hk, mapGet_mapSet_same]
            exact (decodeScoreData_set_flag val s flag true hdec).2.1
          rw [hnew]
          rw [hm.2 hp0 x y] at hold
          cases h0 : scoreEntry st0 x y with
          | none =>
            rw [h0] at hold
            cases hold
          | some e =>
            rw [h0] at hold
            simp only [Option.map_some', Option.some.injEq, Prod.mk.injEq] at hold
            simp [hk, hold.1]
        · have hsame : scoreEntry { st with
              db := mapSet st.db (encodeScoreKey a b) (val.set 4 (boolToByte true)) } x y
              = scoreEntry st x y := by
            simp only [scoreEntry, hp, if_true]
            rw [mapGet_mapSet_other _ _ _ _ hk]
          rw [hsame, hm.2 hp0 x y]
          simp [hk]
  · refine ⟨st, by simp [UnmatchFrames, hp], ⟨h1, h2, h3, fun hh => by rw [hp] at hh; simp at hh⟩,
      hm.1, ?_⟩
    intro hp0
    rw [← h1, hp] at hp0
    exact Bool.noConfusion hp0

theorem unmatchStep_spec (st0 : State) (frameID1 : Int)
    (acc : State × Bool × List (Int × Int)) (f : GoString)
    (hinv : unmatchInv st0 acc.1) (hm : marksInv st0 acc.1 acc.2.2)
    (hwf : st0.persistent = true → ∀ v, mapGet st0.db (encodeFrameKey f) = some v →
      8 ≤ v.length) :
    ∃ acc', unmatchStep frameID1 acc f = some acc' ∧ unmatchInv st0 acc'.1 ∧
      marksInv st0 acc'.1 acc'.2.2 ∧
      acc'.2.1 = (acc.2.1 || (knownID st0 f).isNone) ∧
      acc'.2.2 = acc.2.2 ++ ((knownID st0 f).map (fun b => (frameID1, b))).toList := by
  have hk := knownID_of_unmatchInv st0 acc.1 hinv f
  obtain ⟨st1, h1, hp1, hi1, hd1, hs1, he1⟩ := GetframeID_spec acc.1 f (by
    intro hp v hv
    rw [hinv.2.2.1 f] at hv
    exact hwf (by rw [← hinv.1]; exact hp) v hv)
  obtain ⟨hinv1, hm1⟩ := inv_of_GetframeID st0 acc.1 st1 acc.2.2 hinv hm hp1 hi1 hd1 hs1 he1
  rw [hk] at h1
  cases hid : knownID st0 f with
  | none =>
    rw [hid] at h1
    refine ⟨(st1, true, acc.2.2), ?_, hinv1, hm1, by simp, by simp⟩
    simp [unmatchStep, h1]
  | some id2 =>
    rw [hid] at h1
    obtain ⟨st2, h2, hinv2, hm2⟩ :=
      UnmatchFrames_unmatchInv st0 st1 frameID1 id2 acc.2.2 hinv1 hm1
    refine ⟨(st2, acc.2.1, acc.2.2 ++ [(frameID1, id2)]), ?_, hinv2, hm2, by simp, by simp⟩
    simp [unmatchStep, h1, h2]

theorem getD_eq_of_getElem? (files : List GoString) (k : Nat) (hk : k < files.length) :
    files[k]? = some (files.getD k []) := by
  rw [List.getD_eq_getElem?_getD, List.getElem?_eq_getElem hk]
  rfl

/-- The inner loop of `Processor.Unmatch` for a known file `files[ii]`. -/
theorem unmatch_inner_spec (st0 : State) (files : List GoString) (frameID1 : Int) (ii : Nat)
    (hii : ii ≤ files.length) (init : State × Bool × List (Int × Int))
    (hinv : unmatchInv st0 init.1) (hm : marksInv st0 init.1 init.2.2)
    (hwf : st0.persistent = true → ∀ f ∈ files, ∀ v,
      mapGet st0.db (encodeFrameKey f) = some v → 8 ≤ v.length) :
    ∃ res, (List.range ii).foldlM
        (fun acc jj => do
          let file2 ← files[jj]?
          unmatchStep frameID1 acc file2)
        init = some res ∧
      unmatchInv st0 res.1 ∧ marksInv st0 res.1 res.2.2 ∧
      res.2.1 = (init.2.1 ||
        (List.range ii).any (fun j => (knownID st0 (files.getD j [])).isNone)) ∧
      res.2.2 = init.2.2 ++ (List.range ii).filterMap
        (fun j => (knownID st0 (files.getD j [])).map (fun b => (frameID1, b))) := by
  apply foldlM_range_invariant _
    (fun k (acc : State × Bool × List (Int × Int)) => unmatchInv st0 acc.1 ∧
      marksInv st0 acc.1 acc.2.2 ∧
      acc.2.1 = (init.2.1 ||
        (List.range k).any (fun j => (knownID st0 (files.getD j [])).isNone)) ∧
      acc.2.2 = init.2.2 ++ (List.range k).filterMap
        (fun j => (knownID st0 (files.getD j [])).map (fun b => (frameID1, b))))
  · exact ⟨hinv, hm, by simp, by simp⟩
  · intro k hk acc ⟨h1, hm1, h2, h3⟩
    have hk2 : k < files.length := by omega
    obtain ⟨acc', e1, e2, em, e3, e4⟩ := unmatchStep_spec st0 frameID1 acc (files.getD k []) h1
      hm1 (fun hp v hv => hwf hp _ (by
        rw [List.getD_eq_getElem?_getD, List.getElem?_eq_getElem hk2]
        exact List.getElem_mem _) v hv)
    refine ⟨acc', ?_, e2, em, ?_, ?_⟩
    · show (files[k]?.bind fun file2 => unmatchStep frameID1 acc file2) = some acc'
      rw [getD_eq_of_getElem? files k hk2]
      exact e1
    · rw [e3, h2, List.range_succ, List.any_append, List.any_cons, List.any_nil,
        Bool.or_false, Bool.or_assoc]
    · rw [e4, h3, List.range_succ, List.filterMap_append, List.append_assoc]
      cases hc : knownID st0 (files.getD k []) <;>
        simp only [List.filterMap_cons, List.filterMap_nil, hc, Option.map, Option.toList]

/-- The two nested loops of `Processor.Unmatch`. -/
theorem unmatch_outer_spec (st0 : State) (files : List GoString)
    (hS : st0.persistent = true → ∀ a b v,
      mapGet st0.db (encodeScoreKey a b) = some v → 5 ≤ v.length)
    (hwf : st0.persistent = true → ∀ f ∈ files, ∀ v,
      mapGet st0.db (encodeFrameKey f) = some v → 8 ≤ v.length) :
    ∃ res, (List.range files.length).foldlM
        (fun (acc : State × Bool × List (Int × Int)) ii => do
          let file ← files[ii]?
          let (state, frameID1, found) ← GetframeID acc.1 file
          if !found then
            pure (state, true, acc.2.2)
          else
            (List.range ii).foldlM
              (fun acc jj => do
                let file2 ← files[jj]?
                unmatchStep frameID1 acc file2)
              (state, acc.2.1, acc.2.2))
        (st0, false, []) = some res ∧
      unmatchInv st0 res.1 ∧ marksInv st0 res.1 res.2.2 ∧
      res.2.1 = (List.range files.length).any
        (fun j => (knownID st0 (files.getD j [])).isNone) ∧
      res.2.2 = knownPairs st0 files := by
  unfold knownPairs
  generalize hn : files.length = n
  have hle : n ≤ files.length := by omega
  clear hn
  apply foldlM_range_invariant _
    (fun k (acc : State × Bool × List (Int × Int)) => unmatchInv st0 acc.1 ∧
      marksInv st0 acc.1 acc.2.2 ∧
      acc.2.1 = (List.range k).any (fun j => (knownID st0 (files.getD j [])).isNone) ∧
      acc.2.2 = (List.range k).flatMap
        (fun i => (List.range i).filterMap
          (fun j =>
            match knownID st0 (files.getD i []), knownID st0 (files.getD j []) with
            | some frameID1, some frameID2 => some (frameID1, frameID2)
            | _, _ => none)))
  · exact ⟨unmatchInv_refl st0 hS, marksInv_refl st0, by simp, by simp⟩
  · intro k hk acc ⟨h1, hm0, h2, h3⟩
    have hk2 : k < files.length := by omega
    have hmem : files.getD k [] ∈ files := by
      rw [List.getD_eq_getElem?_getD, List.getElem?_eq_getElem hk2]
      exact List.getElem_mem _
    have hkn := knownID_of_unmatchInv st0 acc.1 h1 (files.getD k [])
    obtain ⟨st1, g1, hp1, hi1, hd1, hs1, he1⟩ := GetframeID_spec acc.1 (files.getD k []) (by
      intro hp v hv
      rw [h1.2.2.1 _] at hv
      exact hwf (by rw [← h1.1]; exact hp) _ hmem v hv)
    obtain ⟨hinv1, hm1⟩ := inv_of_GetframeID st0 acc.1 st1 acc.2.2 h1 hm0 hp1 hi1 hd1 hs1 he1
    rw [hkn] at g1
    cases hid : knownID st0 (files.getD k []) with
    | none =>
      rw [hid] at g1
      refine ⟨(st1, true, acc.2.2), ?_, hinv1, hm1, ?_, ?_⟩
      · simp only [getD_eq_of_getElem? files k hk2, Option.bind_eq_bind, Option.some_bind, g1,
          Option.getD_none, Option.isSome_none, Bool.not_false, if_true]
        rfl
      · rw [List.range_succ, List.any_append, List.any_cons, List.any_nil, hid]
        simp
      · rw [List.range_succ, List.flatMap_append, ← h3]
        simp only [List.flatMap_cons, List.flatMap_nil, List.append_nil, hid]
        have hnil : List.filterMap (fun (_ : Nat) => (none : Option (Int × Int)))
            (List.range k) = [] := by simp
        rw [hnil, List.append_nil]
    | some id1 =>
      rw [hid] at g1
      obtain ⟨res, r1, r2, rm, r3, r4⟩ := unmatch_inner_spec st0 files id1 k (by omega)
        (st1, acc.2.1, acc.2.2) hinv1 hm1 hwf
      refine ⟨res, ?_, r2, rm, ?_, ?_⟩
      · simp only [getD_eq_of_getElem? files k hk2, Option.bind_eq_bind, Option.some_bind, g1,
          Option.getD_some, Option.isSome_some, Bool.not_true, Bool.false_eq_true, if_false]
        exact r1
      · rw [r3, List.range_succ, List.any_append, List.any_cons, List.any_nil, hid]
        simp [h2]
      · rw [r4, List.range_succ, List.flatMap_append]
        simp only [h3, List.flatMap_cons, List.flatMap_nil, List.append_nil, hid]
        congr 1
        apply List.filterMap_congr
        intro j _
        cases knownID st0 (files.getD j []) <;> rfl

/-! ## Lemmas: registering files -/

theorem incInt_eq (x : Int) (h0 : 0 ≤ x) (h1 : x < 9223372036854775807) :
    incInt x = x + 1 :=
  toInt_toUint64 (x + 1) (by omega) (by omega)

theorem encodeFrameKey_injective (p q : GoString) (h : encodeFrameKey p = encodeFrameKey q) :
    p = q :=
  List.append_cancel_left h

theorem encodeFrameValue_length (n : Int) : (encodeFrameValue n).length = 8 := rfl

theorem knownID_eq_none (st : State) (p : GoString)
    (hwf : st.persistent = true → ∀ v, mapGet st.db (encodeFrameKey p) = some v → 8 ≤ v.length)
    (h : knownID st p = none) :
    (st.persistent = true → mapGet st.db (encodeFrameKey p) = none) ∧
    (st.persistent = false → mapGet st.image2frame p = none) := by
  constructor
  · intro hp
    cases hv : mapGet st.db (encodeFrameKey p) with
    | none => rfl
    | some v =>
      obtain ⟨id, hid⟩ := decodeFrameValue_isSome v (hwf hp v hv)
      simp [knownID, hp, hv, hid] at h
  · intro hp
    simpa [knownID, hp] using h

/-- Registering a known path returns its ID with `found = true` and leaves the
state as it is. -/
theorem RegisterFile_known (st : State) (p : GoString) (id : Int) (hinv : epochInv st)
    (h : knownID st p = some id) : RegisterFile st p = some (st, id, true) := by
  have hf : mapGet st.frame2image id = some p := (hinv.2.2.1 p id).mp h
  have hset : mapSet st.frame2image id p = st.frame2image := mapSet_of_mapGet _ _ _ hf
  rcases Bool.eq_false_or_eq_true st.persistent with hp | hp
  · simp only [knownID, hp, if_true] at h
    cases hv : mapGet st.db (encodeFrameKey p) with
    | none => simp [hv] at h
    | some v =>
      rw [hv] at h
      have hd : decodeFrameValue v = some id := h
      simp only [RegisterFile, AddFrameIDPersistent, hp, if_true, hv, hd, Option.bind_eq_bind,
        Option.some_bind, Option.pure_def, hset]
      rw [← hp]
  · simp only [knownID, hp, Bool.false_eq_true, if_false] at h
    simp only [RegisterFile, hp, Bool.false_eq_true, if_false, h, Option.bind_eq_bind,
      Option.some_bind, Option.pure_def, hset]
    rw [← hp]

/-- Registering an unknown path, whose record the store accepts, hands out the
next ID with `found = false`. -/
theorem RegisterFile_new (st : State) (p : GoString) (hinv : epochInv st)
    (h : knownID st p = none) (hb : st.nextframeID < 9223372036854775807)
    (hfit : st.persistent = true → txnSetFails (encodeFrameKey p) = false) :
    ∃ st', RegisterFile st p = some (st', st.nextframeID, false) ∧
      st'.nextframeID = st.nextframeID + 1 ∧ st'.persistent = st.persistent ∧
      (∀ q, knownID st' q = if q = p then some st.nextframeID else knownID st q) ∧
      (∀ i, mapGet st'.frame2image i
        = if i = st.nextframeID then some p else mapGet st.frame2image i) ∧
      (st.persistent = true →
        st'.db = mapSet st.db (encodeFrameKey p) (encodeFrameValue st.nextframeID)) := by
  obtain ⟨h1, _, _, hwf⟩ := hinv
  have hinc : incInt st.nextframeID = st.nextframeID + 1 := incInt_eq _ (by omega) hb
  have hnone := knownID_eq_none st p (fun hp v hv => hwf hp p v hv) h
  have hfr : ∀ (m : List (Int × GoString)) (i : Int), mapGet (mapSet m st.nextframeID p) i
      = if i = st.nextframeID then some p else mapGet m i := by
    intro m i
    by_cases hi : i = st.nextframeID
    · rw [if_pos hi, hi, mapGet_mapSet_same]
    · rw [if_neg hi, mapGet_mapSet_other _ _ _ _ (fun e => hi e.symm)]
  rcases Bool.eq_false_or_eq_true st.persistent with hp | hp
  · have hn := hnone.1 hp
    refine ⟨{ st with
        nextframeID := incInt st.nextframeID
        db := mapSet st.db (encodeFrameKey p) (encodeFrameValue st.nextframeID)
        frame2image := mapSet st.frame2image st.nextframeID p }, ?_, hinc, rfl, ?_, hfr _,
        fun _ => rfl⟩
    · simp [RegisterFile, AddFrameIDPersistent, hp, hn, hfit hp]
    · intro q
      simp only [knownID, hp, if_true]
      by_cases hq : q = p
      · rw [if_pos hq, hq, mapGet_mapSet_same]
        exact decodeFrameValue_encodeFrameValue _ (by omega) (by omega)
      · rw [if_neg hq, mapGet_mapSet_other _ _ _ _
          (fun e => hq (encodeFrameKey_injective _ _ e).symm)]
  · have hn := hnone.2 hp
    refine ⟨{ st with
        nextframeID := incInt st.nextframeID
        image2frame := mapSet st.image2frame p st.nextframeID
        frame2image := mapSet st.frame2image st.nextframeID p }, ?_, hinc, rfl, ?_, hfr _,
        fun hp2 => by rw [hp] at hp2; cases hp2⟩
    · simp [RegisterFile, hp, hn]
    · intro q
      simp only [knownID, hp, Bool.false_eq_true, if_false]
      by_cases hq : q = p
      · rw [if_pos hq, hq, mapGet_mapSet_same]
      · rw [if_neg hq, mapGet_mapSet_other _ _ _ _ (fun e => hq e.symm)]

/-- The state after registering an unknown path keeps `epochInv`. -/
theorem RegisterFile_new_epochInv (st : State) (p : GoString) (hinv : epochInv st)
    (h : knownID st p = none) (hb : st.nextframeID < 9223372036854775807)
    (hfit : st.persistent = true → txnSetFails (encodeFrameKey p) = false) :
    ∃ st', RegisterFile st p = some (st', st.nextframeID, false) ∧
      st'.nextframeID = st.nextframeID + 1 ∧ st'.persistent = st.persistent ∧
      (∀ q, knownID st' q = if q = p then some st.nextframeID else knownID st q) ∧
      epochInv st' := by
  obtain ⟨st', h1, h2, h3, h4, h5, h6⟩ := RegisterFile_new st p hinv h hb hfit
  refine ⟨st', h1, h2, h3, h4, ?_⟩
  obtain ⟨i1, i2, i3, i4⟩ := hinv
  refine ⟨by omega, ?_, ?_, ?_⟩
  · intro q id hq
    rw [h4] at hq
    by_cases hqp : q = p
    · rw [if_pos hqp] at hq
      cases hq
      omega
    · rw [if_neg hqp] at hq
      have := i2 q id hq
      omega
  · intro q id
    rw [h4, h5]
    by_cases hqp : q = p <;> by_cases hid : id = st.nextframeID
    · simp [hqp, hid]
    · rw [if_pos hqp, if_neg hid, hqp]
      constructor
      · intro e
        cases e
        exact absurd rfl hid
      · intro e
        rw [← i3, h] at e
        cases e
    · rw [if_neg hqp, if_pos hid]
      constructor
      · intro e
        have := i2 q id e
        omega
      · intro e
        cases e
        exact absurd rfl hqp
    · rw [if_neg hqp, if_neg hid]
      exact i3 q id
  · intro hp q v hv
    rw [h3] at hp
    rw [h6 hp] at hv
    by_cases hqp : q = p
    · rw [hqp, mapGet_mapSet_same] at hv
      cases hv
      exact Nat.le_refl 8
    · rw [mapGet_mapSet_other _ _ _ _
        (fun e => hqp (encodeFrameKey_injective _ _ e).symm)] at hv
      exact i4 hp q v hv

theorem registerAll_snoc (st : State) (l : List GoString) (p : GoString) :
    registerAll st (l ++ [p]) = (registerAll st l).bind (fun acc =>
      (RegisterFile acc.1 p).bind (fun r => some (r.1, acc.2 ++ [(r.2.1, r.2.2)]))) := by
  unfold registerAll
  rw [List.foldlM_append]
  cases (List.foldlM
    (fun (acc : State × List (Int × Bool)) path => do
      let (state, frameID, found) ← RegisterFile acc.1 path
      pure (state, acc.2 ++ [(frameID, found)])) (st, []) l) with
  | none => rfl
  | some acc =>
    simp only [Option.bind_eq_bind, Option.some_bind, List.foldlM_cons, List.foldlM_nil]
    cases RegisterFile acc.1 p <;> rfl

/-- What holds of the state and of the results after registering `paths`, one
after the other, in a state with empty maps, an empty store and next ID 1,
when the store accepts the record of each path. -/
theorem registerAll_spec (persistent : Bool) (dir : GoString) (paths : List GoString)
    (hlen : paths.length < 9223372036854775807)
    (hfit : persistent = true → ∀ p ∈ paths, txnSetFails (encodeFrameKey p) = false) :
    ∃ st rs, registerAll { MakeState with dataDirectory := dir, persistent := persistent } paths
        = some (st, rs) ∧
      st.persistent = persistent ∧
      rs.length = paths.length ∧ epochInv st ∧ st.nextframeID ≤ paths.length + 1 ∧
      (∀ e ∈ paths.zip rs, knownID st e.1 = some e.2.1) ∧
      (∀ p, p ∈ paths ↔ knownID st p ≠ none) ∧
      (∀ i, i < paths.length →
        ((rs.getD i (0, false)).2 = true ↔ paths.getD i [] ∈ paths.take i)) ∧
      (∀ r ∈ rs, 1 ≤ r.1 ∧ r.1 < st.nextframeID) ∧
      List.Pairwise (fun a b => a < b) ((rs.filter (fun r => !r.2)).map Prod.fst) := by
  induction paths using List.reverseRecOn with
  | nil =>
    have hk : ∀ p, knownID { MakeState with dataDirectory := dir, persistent := persistent } p
        = none := by
      intro p
      cases persistent <;> rfl
    refine ⟨{ MakeState with dataDirectory := dir, persistent := persistent }, [], rfl, rfl,
      rfl, ?_, ?_, ?_, ?_, ?_, ?_, ?_⟩
    · refine ⟨Int.le_refl 1, ?_, ?_, ?_⟩
      · intro p id h
        rw [hk] at h
        cases h
      · intro p id
        rw [hk]
        constructor
        · intro h
          cases h
        · intro h
          cases h
      · intro _ p v hv
        cases hv
    · exact Int.le_refl 1
    · intro e he
      cases he
    · intro p
      rw [hk]
      simp
    · intro i hi
      cases hi
    · intro r hr
      cases hr
    · exact List.Pairwise.nil
  | append_singleton l p ih =>
    have hl : l.length < 9223372036854775807 := by
      rw [List.length_append, List.length_singleton] at hlen
      omega
    have hl2 : ((l.length : Nat) : Int) + 1 < 9223372036854775807 := by
      rw [List.length_append, List.length_singleton] at hlen
      omega
    obtain ⟨st, rs, h0, hpers, h1, h2, h3, h4, h5, h6, h7, h8⟩ := ih hl
      (fun hp q hq => hfit hp q (List.mem_append_left _ hq))
    have hfound : ∀ (r : Int × Bool), ∀ i, i < (l ++ [p]).length →
        (r.2 = true ↔ p ∈ l) →
        (((rs ++ [r]).getD i (0, false)).2 = true ↔
          (l ++ [p]).getD i [] ∈ (l ++ [p]).take i) := by
      intro r i hi hr
      rw [List.length_append, List.length_singleton] at hi
      by_cases hil : i < l.length
      · rw [List.getD_append _ _ _ _ (by omega), List.getD_append _ _ _ _ hil,
          List.take_append_of_le_length (by omega)]
        exact h6 i hil
      · have hie : i = l.length := by omega
        subst hie
        rw [List.getD_append_right _ _ _ _ (by omega), List.getD_append_right _ _ _ _ (by omega),
          List.take_left, h1]
        simpa using hr
    cases hk : knownID st p with
    | some id =>
      have hr := RegisterFile_known st p id h2 hk
      have hpl : p ∈ l := (h5 p).mpr (by rw [hk]; exact fun e => by cases e)
      refine ⟨st, rs ++ [(id, true)], ?_, hpers, ?_, h2, ?_, ?_, ?_, ?_, ?_, ?_⟩
      · rw [registerAll_snoc, h0]
        simp only [Option.some_bind, hr]
      · simp [h1]
      · rw [List.length_append, List.length_singleton]
        push_cast
        omega
      · intro e he
        rw [List.zip_append h1.symm] at he
        rcases List.mem_append.mp he with he | he
        · exact h4 e he
        · simp only [List.zip_cons_cons, List.zip_nil_right, List.mem_singleton] at he
          subst he
          exact hk
      · intro q
        rw [← h5 q, List.mem_append, List.mem_singleton]
        constructor
        · rintro (hq | hq)
          · exact hq
          · rw [hq]
            exact hpl
        · exact fun hq => Or.inl hq
      · intro i hi
        exact hfound (id, true) i hi ⟨fun _ => hpl, fun _ => rfl⟩
      · intro r hr
        rcases List.mem_append.mp hr with hr | hr
        · exact h7 r hr
        · rw [List.mem_singleton.mp hr]
          exact (h2.2.1 p id hk)
      · rw [List.filter_append]
        simpa using h8
    | none =>
      have hpl : p ∉ l := fun hm => (h5 p).mp hm hk
      obtain ⟨st', r1, r2, r3, r4, r5⟩ := RegisterFile_new_epochInv st p h2 hk (by omega)
        (fun hp => hfit (by rw [← hpers]; exact hp) p
          (List.mem_append_right _ (List.mem_singleton.mpr rfl)))
      refine ⟨st', rs ++ [(st.nextframeID, false)], ?_, r3.trans hpers, ?_, r5, ?_, ?_, ?_, ?_,
        ?_, ?_⟩
      · rw [registerAll_snoc, h0]
        simp only [Option.some_bind, r1]
      · simp [h1]
      · rw [List.length_append, List.length_singleton, r2]
        push_cast
        omega
      · intro e he
        rw [List.zip_append h1.symm] at he
        rcases List.mem_append.mp he with he | he
        · have hne : e.1 ≠ p := by
            intro e1
            have := h4 e he
            rw [e1, hk] at this
            cases this
          rw [r4, if_neg hne]
          exact h4 e he
        · simp only [List.zip_cons_cons, List.zip_nil_right, List.mem_singleton] at he
          subst he
          rw [r4, if_pos rfl]
      · intro q
        rw [r4, List.mem_append, List.mem_singleton]
        by_cases hq : q = p
        · simp [hq]
        · rw [if_neg hq, ← h5 q]
          simp [hq]
      · intro i hi
        exact hfound (st.nextframeID, false) i hi
          ⟨fun e => Bool.noConfusion e, fun hm => absurd hm hpl⟩
      · intro r hr
        rw [r2]
        rcases List.mem_append.mp hr with hr | hr
        · have := h7 r hr
          omega
        · rw [List.mem_singleton.mp hr]
          have := h2.1
          exact ⟨this, by omega⟩
      · rw [List.filter_append, List.map_append, List.pairwise_append]
        refine ⟨h8, by simp, ?_⟩
        intro a ha b hb
        simp only [Bool.not_false, List.filter_cons_of_pos, List.filter_nil, List.map_cons,
          List.map_nil, List.mem_singleton] at hb
        obtain ⟨r, hr, rfl⟩ := List.mem_map.mp ha
        rw [hb]
        exact (h7 r (List.mem_of_mem_filter hr)).2

/-- `RegisterFile` of a path that is not in a persistent store and whose key
the store refuses: the ID is handed out and the next ID moves on, but nothing is
stored. -/
theorem RegisterFile_rejected (st : State) (p : GoString) (hp : st.persistent = true)
    (hv : mapGet st.db (encodeFrameKey p) = none)
    (hf : txnSetFails (encodeFrameKey p) = true) :
    RegisterFile st p = some ({ st with
      nextframeID := incInt st.nextframeID
      frame2image := mapSet st.frame2image st.nextframeID p }, st.nextframeID, false) := by
  simp [RegisterFile, AddFrameIDPersistent, hp, hv, hf]

/-- The frame key of `longPath` has 65001 bytes. -/
theorem encodeFrameKey_longPath : (encodeFrameKey longPath).length = 65001 := by
  unfold encodeFrameKey longPath
  rw [List.length_append, List.length_replicate]
  rfl

/-- The frame key of `longPath` is longer than the store accepts. -/
theorem txnSetFails_longPath : txnSetFails (encodeFrameKey longPath) = true := by
  unfold txnSetFails
  rw [encodeFrameKey_longPath]
  decide

/-- Two `RegisterFile` calls one after the other, as `registerAll` makes
them. -/
theorem registerAll_two (st : State) (p q : GoString) :
    registerAll st [p, q]
      = (RegisterFile st p).bind (fun r1 => (RegisterFile r1.1 q).bind
          (fun r2 => some (r2.1, [(r1.2.1, r1.2.2), (r2.2.1, r2.2.2)]))) := by
  unfold registerAll
  cases h1 : RegisterFile st p with
  | none => simp [List.foldlM_cons, h1]
  | some r1 =>
    cases h2 : RegisterFile r1.1 q with
    | none => simp [List.foldlM_cons, h1, h2]
    | some r2 => simp [List.foldlM_cons, h1, h2]

/-- The first `RegisterFile` of `longPath` over a new persistent store hands
out the ID 1 and stores nothing. -/
theorem RegisterFile_longPath_first :
    RegisterFile { MakeState with dataDirectory := [100], persistent := true } longPath
      = some ({ MakeState with
          dataDirectory := [100]
          persistent := true
          nextframeID := incInt 1
          frame2image := mapSet [] 1 longPath }, 1, false) :=
  RegisterFile_rejected
    { MakeState with dataDirectory := [100], persistent := true } longPath rfl rfl
    txnSetFails_longPath

/-- The second `RegisterFile` of `longPath` does not find the path and hands
out the next ID. -/
theorem RegisterFile_longPath_second :
    RegisterFile { MakeState with
        dataDirectory := [100]
        persistent := true
        nextframeID := incInt 1
        frame2image := mapSet [] 1 longPath } longPath
      = some ({ MakeState with
          dataDirectory := [100]
          persistent := true
          nextframeID := incInt (incInt 1)
          frame2image := mapSet (mapSet [] 1 longPath) (incInt 1) longPath },
        incInt 1, false) :=
  RegisterFile_rejected
    { MakeState with
      dataDirectory := [100]
      persistent := true
      nextframeID := incInt 1
      frame2image := mapSet [] 1 longPath } longPath rfl rfl
    txnSetFails_longPath

/-! ## Lemmas: the lifetime of a store -/

theorem mem_mapSet_of_mem {κ ν : Type} [DecidableEq κ] (m : List (κ × ν)) (k : κ) (v : ν)
    (e : κ × ν) (h : e ∈ m) (hne : e.1 ≠ k) : e ∈ mapSet m k v := by
  induction m with
  | nil => cases h
  | cons x rest ih =>
    obtain ⟨k', v'⟩ := x
    by_cases hk : k' = k
    · rcases List.mem_cons.mp h with h | h
      · subst h
        exact absurd hk hne
      · simp only [mapSet, hk, if_true]
        exact List.mem_cons_of_mem _ h
    · simp only [mapSet, hk, if_false]
      rcases List.mem_cons.mp h with h | h
      · subst h
        exact List.mem_cons_self _ _
      · exact List.mem_cons_of_mem _ (ih h)

theorem mem_mapSet_self {κ ν : Type} [DecidableEq κ] (m : List (κ × ν)) (k : κ) (v : ν) :
    (k, v) ∈ mapSet m k v :=
  mem_of_mapGet _ _ _ (mapGet_mapSet_same m k v)

theorem mapGet_ne_none_of_mem {κ ν : Type} [DecidableEq κ] (m : List (κ × ν)) (k : κ) (v : ν)
    (h : (k, v) ∈ m) : mapGet m k ≠ none := by
  induction m with
  | nil => cases h
  | cons x rest ih =>
    obtain ⟨k', v'⟩ := x
    by_cases hk : k' = k
    · simp [mapGet, hk]
    · rcases List.mem_cons.mp h with h | h
      · cases h
        exact absurd rfl hk
      · simpa [mapGet, hk] using ih h

/-- The loop of `getMaxFrameID` over records whose values have eight bytes. -/
theorem getMaxFrameID_fold (items : List (List Byte × List Byte))
    (hwf : ∀ item ∈ items, 8 ≤ item.2.length) (init : Int) :
    ∃ m, items.foldlM
        (fun (maxFrameID : Int) item => do
          let frameID ← decodeFrameValue item.2
          pure (if frameID > maxFrameID then frameID else maxFrameID))
        init = some m ∧
      init ≤ m ∧
      (∀ item ∈ items, ∀ id, decodeFrameValue item.2 = some id → id ≤ m) ∧
      (m = init ∨ ∃ item ∈ items, decodeFrameValue item.2 = some m) := by
  induction items generalizing init with
  | nil => exact ⟨init, rfl, Int.le_refl _, fun _ h => absurd h (List.not_mem_nil _), Or.inl rfl⟩
  | cons x rest ih =>
    obtain ⟨id, hid⟩ := decodeFrameValue_isSome x.2 (hwf x (List.mem_cons_self _ _))
    obtain ⟨m, h1, h2, h3, h4⟩ := ih (fun item hi => hwf item (List.mem_cons_of_mem _ hi))
      (if id > init then id else init)
    refine ⟨m, ?_, ?_, ?_, ?_⟩
    · simp only [List.foldlM_cons, hid, Option.bind_eq_bind, Option.some_bind, Option.pure_def]
      exact h1
    · split at h2 <;> omega
    · intro item hi id2 hd
      rcases List.mem_cons.mp hi with hi | hi
      · subst hi
        rw [hid] at hd
        cases hd
        split at h2 <;> omega
      · exact h3 item hi id2 hd
    · rcases h4 with h4 | ⟨item, hi, hd⟩
      · by_cases hgt : id > init
        · rw [if_pos hgt] at h4
          exact Or.inr ⟨x, List.mem_cons_self _ _, by rw [hid, h4]⟩
        · rw [if_neg hgt] at h4
          exact Or.inl h4
      · exact Or.inr ⟨item, List.mem_cons_of_mem _ hi, hd⟩

theorem getMaxFrameID_spec (st : State) (hp : st.persistent = true)
    (hwf : ∀ item ∈ recordsWithPrefix st.db framePrefix, 8 ≤ item.2.length) :
    ∃ m, getMaxFrameID st = some (m, none) ∧ 0 ≤ m ∧
      (∀ item ∈ recordsWithPrefix st.db framePrefix, ∀ id,
        decodeFrameValue item.2 = some id → id ≤ m) ∧
      (m = 0 ∨ ∃ item ∈ recordsWithPrefix st.db framePrefix,
        decodeFrameValue item.2 = some m) := by
  obtain ⟨m, h1, h2, h3, h4⟩ := getMaxFrameID_fold _ hwf 0
  refine ⟨m, ?_, h2, h3, h4⟩
  unfold getMaxFrameID
  rw [if_neg (by simp [hp])]
  exact congrArg (fun (o : Option Int) => o.bind fun maxFrameID => some (maxFrameID, none)) h1

/-- Compaction of a persistent store that holds only frame records with
eight-byte values returns, and only removes records. -/
theorem CompactDataStore_shrinks (env : Env) (st : State) (hp : st.persistent = true)
    (hdb : ∀ e ∈ st.db, framePrefix.isPrefixOf e.1 = true ∧ 8 ≤ e.2.length) :
    ∃ db3 removed err, CompactDataStore env st = some ({ st with db := db3 }, removed, err) ∧
      ∀ e ∈ db3, e ∈ st.db := by
  unfold CompactDataStore
  rw [if_neg (by simp [hp])]
  simp only []
  by_cases h0 : (countFrameEntries env st.db).1 = 0
  · rw [if_pos h0]
    exact ⟨st.db, [], none, rfl, fun e he => he⟩
  · rw [if_neg h0]
    by_cases hg : compactionAborts (countFrameEntries env st.db).1
        (countFrameEntries env st.db).2 = true
    · rw [if_pos hg]
      exact ⟨st.db, [], none, rfl, fun e he => he⟩
    · rw [if_neg hg]
      obtain ⟨db2, validFrames, validImages, c1, c2, _⟩ := compactFrames_spec env st
        (fun item hi _ => (hdb item ((mem_recordsWithPrefix _ _ _).1 hi).1).2)
      have hnoscore : recordsWithPrefix db2 scorePrefix = [] := by
        apply List.eq_nil_iff_forall_not_mem.mpr
        intro e he
        rw [mem_recordsWithPrefix] at he
        have := (hdb e (c2 e he.1)).1
        rw [not_scorePrefix_of_framePrefix _ this] at he
        exact Bool.false_ne_true he.2
      obtain ⟨db3, c3, c4, _⟩ := compactScores_spec db2 validFrames (by
        intro item hi
        rw [hnoscore] at hi
        cases hi)
      refine ⟨db3, staleImageFiles env st validImages, none, ?_,
        fun e he => c2 e (c4 e he)⟩
      simp only [c1, c3, Option.bind_eq_bind, Option.some_bind, Option.pure_def]

theorem getMaxFrameID_congr (st1 st2 : State) (hp : st1.persistent = st2.persistent)
    (hdb : st1.db = st2.db) : getMaxFrameID st1 = getMaxFrameID st2 := by
  unfold getMaxFrameID
  rw [hp, hdb]

theorem lifetimeInv_register (st : State) (assigned : List (GoString × Int))
    (p : GoString) (hinv : lifetimeInv st assigned)
    (hb : (assigned.length : Int) + 1 < 9223372036854775807) :
    ∃ st' id found, RegisterFile st p = some (st', id, found) ∧
      lifetimeInv st' (assigned ++ [(p, id)]) := by
  obtain ⟨i1, i2, i3, i4, i5, i6, i7, i8⟩ := hinv
  cases hv : mapGet st.db (encodeFrameKey p) with
  | some v =>
    obtain ⟨p', id, he, hmem⟩ := i6 _ (mem_of_mapGet _ _ _ hv)
    have hpp : p = p' := encodeFrameKey_injective _ _ (congrArg Prod.fst he)
    have hvv : v = encodeFrameValue id := congrArg Prod.snd he
    subst hpp
    have hbd := i7 _ hmem
    have hd : decodeFrameValue v = some id := by
      rw [hvv]
      exact decodeFrameValue_encodeFrameValue id (by simp only at hbd; omega)
        (by simp only at hbd; omega)
    refine ⟨{ st with frame2image := mapSet st.frame2image id p }, id, true, ?_,
      i1, i2, i3, i4, ?_, ?_, ?_, ?_⟩
    · simp [RegisterFile, AddFrameIDPersistent, i1, hv, hd]
    · rw [List.length_append, List.length_singleton]
      push_cast
      show st.nextframeID ≤ _
      omega
    · intro e he2
      obtain ⟨q, id2, h1, h2⟩ := i6 e he2
      exact ⟨q, id2, h1, List.mem_append_left _ h2⟩
    · intro e he2
      rcases List.mem_append.mp he2 with h | h
      · exact i7 e h
      · rw [List.mem_singleton.mp h]
        exact hbd
    · intro e1 h1 e2 h2
      have m1 : e1 ∈ assigned := by
        rcases List.mem_append.mp h1 with h | h
        · exact h
        · rw [List.mem_singleton.mp h]
          exact hmem
      have m2 : e2 ∈ assigned := by
        rcases List.mem_append.mp h2 with h | h
        · exact h
        · rw [List.mem_singleton.mp h]
          exact hmem
      exact i8 e1 m1 e2 m2
  | none =>
    have hinc : incInt st.nextframeID = st.nextframeID + 1 :=
      incInt_eq _ (by omega) (by omega)
    have hids : ∀ e ∈ assigned ++ [(p, st.nextframeID)],
        1 ≤ e.2 ∧ e.2 < incInt st.nextframeID := by
      intro e he
      rcases List.mem_append.mp he with h | h
      · have := i7 e h
        omega
      · rw [List.mem_singleton.mp h]
        simp only
        omega
    have hnew : noReuse (assigned ++ [(p, st.nextframeID)]) := by
      intro e1 h1 e2 h2 heq
      rcases List.mem_append.mp h1 with m1 | m1 <;> rcases List.mem_append.mp h2 with m2 | m2
      · exact i8 e1 m1 e2 m2 heq
      · rw [List.mem_singleton.mp m2] at heq
        have := i7 e1 m1
        simp only at heq
        omega
      · rw [List.mem_singleton.mp m1] at heq
        have := i7 e2 m2
        simp only at heq
        omega
      · rw [List.mem_singleton.mp m1, List.mem_singleton.mp m2]
    have hlen : incInt st.nextframeID ≤ ((assigned ++ [(p, st.nextframeID)]).length : Int) + 1 := by
      rw [List.length_append, List.length_singleton]
      push_cast
      omega
    cases hf : txnSetFails (encodeFrameKey p) with
    | true =>
      refine ⟨{ st with
          nextframeID := incInt st.nextframeID
          frame2image := mapSet st.frame2image st.nextframeID p }, st.nextframeID, false, ?_,
        i1, i2, i3, ?_, hlen, ?_, hids, hnew⟩
      · simp [RegisterFile, AddFrameIDPersistent, i1, hv, hf]
      · show 1 ≤ incInt st.nextframeID
        omega
      · intro e he
        obtain ⟨q, id2, h1, h2⟩ := i6 e he
        exact ⟨q, id2, h1, List.mem_append_left _ h2⟩
    | false =>
      refine ⟨{ st with
          nextframeID := incInt st.nextframeID
          db := mapSet st.db (encodeFrameKey p) (encodeFrameValue st.nextframeID)
          frame2image := mapSet st.frame2image st.nextframeID p }, st.nextframeID, false, ?_,
        i1, i2, i3, ?_, hlen, ?_, hids, hnew⟩
      · simp [RegisterFile, AddFrameIDPersistent, i1, hv, hf]
      · show 1 ≤ incInt st.nextframeID
        omega
      · intro e he
        rcases mem_mapSet _ _ _ _ he with h | h
        · obtain ⟨q, id2, h1, h2⟩ := i6 e h
          exact ⟨q, id2, h1, List.mem_append_left _ h2⟩
        · exact ⟨p, st.nextframeID, h, List.mem_append_right _ (List.mem_singleton.mpr rfl)⟩

theorem lifetimeInv_compact (st : State) (assigned : List (GoString × Int))
    (env : Env) (hinv : lifetimeInv st assigned) :
    ∃ st' removed err, CompactDataStore env st = some (st', removed, err) ∧
      lifetimeInv st' assigned := by
  obtain ⟨i1, i2, i3, i4, i5, i6, i7, i8⟩ := hinv
  obtain ⟨db3, removed, err, h1, h2⟩ := CompactDataStore_shrinks env st i1 (by
    intro e he
    obtain ⟨p, id, h, _⟩ := i6 e he
    rw [h]
    exact ⟨isPrefixOf_encodeFrameKey p, Nat.le_refl 8⟩)
  exact ⟨{ st with db := db3 }, removed, err, h1, i1, i2, i3, i4, i5,
    fun e he => i6 e (h2 e he), i7, i8⟩

/-- Closing and opening the store again keeps `lifetimeInv` when the store
holds the record of the largest ID handed out so far. -/
theorem lifetimeInv_reopen (st : State) (assigned : List (GoString × Int))
    (hinv : lifetimeInv st assigned) (hkept : largestStored st assigned = true)
    (hb : (assigned.length : Int) + 1 < 9223372036854775807) :
    ∃ st' err, Init MakeState st.dataDirectory [] (.ok st.db) = some (st', err) ∧
      lifetimeInv st' assigned := by
  obtain ⟨i1, i2, i3, i4, i5, i6, i7, i8⟩ := hinv
  obtain ⟨m, h1, h2, h3, h4⟩ := getMaxFrameID_spec
    { MakeState with dataDirectory := st.dataDirectory, persistent := true, db := st.db } rfl (by
      intro item hi
      obtain ⟨p, id, h, _⟩ := i6 item ((mem_recordsWithPrefix _ _ _).1 hi).1
      rw [h]
      exact Nat.le_refl 8)
  have hall : ∀ e ∈ assigned, e.2 ≤ m := by
    have hc := getMaxFrameID_congr st
      { MakeState with dataDirectory := st.dataDirectory, persistent := true, db := st.db }
      i1 rfl
    unfold largestStored at hkept
    rw [hc, h1] at hkept
    intro e he
    have := List.all_eq_true.mp hkept e he
    exact of_decide_eq_true this
  have hm : m < st.nextframeID := by
    rcases h4 with h4 | ⟨item, hi, hd⟩
    · omega
    · obtain ⟨p, id, h, hmem⟩ := i6 item ((mem_recordsWithPrefix _ _ _).1 hi).1
      have hbd := i7 _ hmem
      simp only at hbd
      rw [h] at hd
      simp only at hd
      rw [decodeFrameValue_encodeFrameValue id (by omega) (by omega)] at hd
      cases hd
      exact hbd.2
  have hinc : incInt m = m + 1 := incInt_eq _ h2 (by omega)
  refine ⟨{ MakeState with
      dataDirectory := st.dataDirectory, persistent := true, db := st.db,
      nextframeID := incInt m }, none, ?_, rfl, i2, i3, ?_, ?_, i6, ?_, i8⟩
  · unfold Init
    simp only [i2, i3, if_false, if_true, h1, Option.bind_eq_bind, Option.some_bind,
      Option.pure_def]
  · show 1 ≤ incInt m
    omega
  · show incInt m ≤ _
    omega
  · intro e he
    show 1 ≤ e.2 ∧ e.2 < incInt m
    have hbd := i7 e he
    have := hall e he
    omega

theorem staleInv_of_lifetimeInv (st : State) (assigned : List (GoString × Int))
    (hinv : lifetimeInv st assigned)
    (hb : (assigned.length : Int) + 1 < 9223372036854775807) : staleInv st assigned := by
  obtain ⟨i1, i2, i3, i4, i5, i6, i7, i8⟩ := hinv
  refine ⟨i1, i2, i3, i6, ?_, i8⟩
  intro e he
  have := i7 e he
  omega

/-- A lifetime that is safe after the store has lost the record of the largest
ID handed out: every operation returns, the registered paths are recorded in
order, and `noReuse` is kept. -/
theorem storeRun_stale (ops : List storeOp) :
    ∀ (st : State) (assigned : List (GoString × Int)),
      staleInv st assigned → safeLifetime true (st, assigned) ops = true →
      ∃ res, ops.foldlM storeStep (st, assigned) = some res ∧ noReuse res.2 ∧
        res.2.map Prod.fst = assigned.map Prod.fst ++ registeredPaths ops := by
  induction ops with
  | nil =>
    intro st assigned hinv _
    exact ⟨(st, assigned), rfl, hinv.2.2.2.2.2, by simp [registeredPaths]⟩
  | cons op rest ih =>
    intro st assigned hinv hsafe
    obtain ⟨i1, i2, i3, i6, i7, i8⟩ := hinv
    have hdb : ∀ e ∈ st.db, framePrefix.isPrefixOf e.1 = true ∧ 8 ≤ e.2.length := by
      intro e he
      obtain ⟨p, id, h, _⟩ := i6 e he
      rw [h]
      exact ⟨isPrefixOf_encodeFrameKey p, Nat.le_refl 8⟩
    cases op with
    | register path =>
      rw [safeLifetime, Bool.and_eq_true] at hsafe
      obtain ⟨hk1, hk2⟩ := hsafe
      have hknown : (knownID st path).isSome = true := by simpa using hk1
      have hkn : knownID st path = (mapGet st.db (encodeFrameKey path)).bind decodeFrameValue := by
        simp only [knownID, i1, if_true]
      cases hv : mapGet st.db (encodeFrameKey path) with
      | none =>
        rw [hkn, hv] at hknown
        exact absurd hknown (by simp)
      | some v =>
        obtain ⟨p', id, he, hmem⟩ := i6 _ (mem_of_mapGet _ _ _ hv)
        have hpp : path = p' := encodeFrameKey_injective _ _ (congrArg Prod.fst he)
        have hvv : v = encodeFrameValue id := congrArg Prod.snd he
        subst hpp
        have hbd := i7 _ hmem
        have hd : decodeFrameValue v = some id := by
          rw [hvv]
          exact decodeFrameValue_encodeFrameValue id hbd.1 hbd.2
        have hreg : RegisterFile st path
            = some ({ st with frame2image := mapSet st.frame2image id path }, id, true) := by
          simp [RegisterFile, AddFrameIDPersistent, i1, hv, hd]
        have hstep : storeStep (st, assigned) (.register path)
            = some ({ st with frame2image := mapSet st.frame2image id path },
                assigned ++ [(path, id)]) := by
          simp only [storeStep, hreg, Option.bind_eq_bind, Option.some_bind, Option.pure_def]
        rw [hstep] at hk2
        have hin : ∀ e ∈ assigned ++ [(path, id)], e ∈ assigned := by
          intro e he2
          rcases List.mem_append.mp he2 with h | h
          · exact h
          · rw [List.mem_singleton.mp h]
            exact hmem
        obtain ⟨res, r1, r2, r3⟩ := ih { st with frame2image := mapSet st.frame2image id path }
          (assigned ++ [(path, id)])
          ⟨i1, i2, i3,
            fun e he2 => by
              obtain ⟨q, id2, h1, h2⟩ := i6 e he2
              exact ⟨q, id2, h1, List.mem_append_left _ h2⟩,
            fun e he2 => i7 e (hin e he2),
            fun e1 h1 e2 h2 => i8 e1 (hin e1 h1) e2 (hin e2 h2)⟩ hk2
        refine ⟨res, ?_, r2, ?_⟩
        · rw [List.foldlM_cons, hstep]
          exact r1
        · rw [r3]
          simp [registeredPaths]
    | compact env =>
      obtain ⟨db3, removed, err, c1, c2⟩ := CompactDataStore_shrinks env st i1 hdb
      have hstep : storeStep (st, assigned) (.compact env)
          = some ({ st with db := db3 }, assigned) := by
        simp only [storeStep, c1, Option.bind_eq_bind, Option.some_bind, Option.pure_def]
      rw [safeLifetime, hstep] at hsafe
      obtain ⟨res, r1, r2, r3⟩ := ih { st with db := db3 } assigned
        ⟨i1, i2, i3, fun e he => i6 e (c2 e he), i7, i8⟩ hsafe
      refine ⟨res, ?_, r2, ?_⟩
      · rw [List.foldlM_cons, hstep]
        exact r1
      · rw [r3]
        simp [registeredPaths]
    | reopen =>
      obtain ⟨m, m1, _⟩ := getMaxFrameID_spec
        { MakeState with dataDirectory := st.dataDirectory, persistent := true, db := st.db }
        rfl (fun item hi => (hdb item ((mem_recordsWithPrefix _ _ _).1 hi).1).2)
      have hinit : Init MakeState st.dataDirectory [] (.ok st.db)
          = some ({ MakeState with
              dataDirectory := st.dataDirectory, persistent := true, db := st.db,
              nextframeID := incInt m }, none) := by
        unfold Init
        simp only [i2, i3, if_false, if_true, m1, Option.bind_eq_bind, Option.some_bind,
          Option.pure_def]
      have hstep : storeStep (st, assigned) .reopen
          = some ({ MakeState with
              dataDirectory := st.dataDirectory, persistent := true, db := st.db,
              nextframeID := incInt m }, assigned) := by
        simp only [storeStep, hinit, Option.bind_eq_bind, Option.some_bind, Option.pure_def]
      rw [safeLifetime, hstep] at hsafe
      simp only [Bool.true_or] at hsafe
      obtain ⟨res, r1, r2, r3⟩ := ih { MakeState with
          dataDirectory := st.dataDirectory, persistent := true, db := st.db,
          nextframeID := incInt m } assigned ⟨rfl, i2, i3, i6, i7, i8⟩ hsafe
      refine ⟨res, ?_, r2, ?_⟩
      · rw [List.foldlM_cons, hstep]
        exact r1
      · rw [r3]
        simp [registeredPaths]

/-- A safe lifetime: every operation returns, the registered paths are
recorded in order, and `noReuse` is kept. -/
theorem storeRun_spec (ops : List storeOp) :
    ∀ (st : State) (assigned : List (GoString × Int)),
      lifetimeInv st assigned → safeLifetime false (st, assigned) ops = true →
      ((assigned.length + ops.length : Nat) : Int) + 1 < 9223372036854775807 →
      ∃ res, ops.foldlM storeStep (st, assigned) = some res ∧ noReuse res.2 ∧
        res.2.map Prod.fst = assigned.map Prod.fst ++ registeredPaths ops := by
  induction ops with
  | nil =>
    intro st assigned hinv _ _
    exact ⟨(st, assigned), rfl, hinv.2.2.2.2.2.2.2, by simp [registeredPaths]⟩
  | cons op rest ih =>
    intro st assigned hinv hsafe hb
    rw [List.length_cons] at hb
    cases op with
    | register path =>
      rw [safeLifetime, Bool.and_eq_true] at hsafe
      obtain ⟨_, hk2⟩ := hsafe
      obtain ⟨st', id, found, h1, h2⟩ := lifetimeInv_register st assigned path hinv
        (by push_cast at hb ⊢; omega)
      have hstep : storeStep (st, assigned) (.register path)
          = some (st', assigned ++ [(path, id)]) := by
        simp only [storeStep, h1, Option.bind_eq_bind, Option.some_bind, Option.pure_def]
      rw [hstep] at hk2
      obtain ⟨res, r1, r2, r3⟩ := ih st' (assigned ++ [(path, id)]) h2 hk2 (by
        rw [List.length_append, List.length_singleton]
        push_cast at hb ⊢
        omega)
      refine ⟨res, ?_, r2, ?_⟩
      · rw [List.foldlM_cons, hstep]
        exact r1
      · rw [r3]
        simp [registeredPaths]
    | compact env =>
      obtain ⟨st', removed, err, h1, h2⟩ := lifetimeInv_compact st assigned env hinv
      have hstep : storeStep (st, assigned) (.compact env) = some (st', assigned) := by
        simp only [storeStep, h1, Option.bind_eq_bind, Option.some_bind, Option.pure_def]
      rw [safeLifetime, hstep] at hsafe
      obtain ⟨res, r1, r2, r3⟩ := ih st' assigned h2 hsafe (by
        push_cast at hb ⊢
        omega)
      refine ⟨res, ?_, r2, ?_⟩
      · rw [List.foldlM_cons, hstep]
        exact r1
      · rw [r3]
        simp [registeredPaths]
    | reopen =>
      rcases Bool.eq_false_or_eq_true (largestStored st assigned) with hls | hls
      · obtain ⟨st', err, h1, h2⟩ := lifetimeInv_reopen st assigned hinv hls
          (by push_cast at hb ⊢; omega)
        have hstep : storeStep (st, assigned) .reopen = some (st', assigned) := by
          simp only [storeStep, h1, Option.bind_eq_bind, Option.some_bind, Option.pure_def]
        rw [safeLifetime, hstep] at hsafe
        simp only [hls, Bool.not_true, Bool.or_false] at hsafe
        obtain ⟨res, r1, r2, r3⟩ := ih st' assigned h2 hsafe (by
          push_cast at hb ⊢
          omega)
        refine ⟨res, ?_, r2, ?_⟩
        · rw [List.foldlM_cons, hstep]
          exact r1
        · rw [r3]
          simp [registeredPaths]
      · have hst := staleInv_of_lifetimeInv st assigned hinv (by push_cast at hb ⊢; omega)
        apply storeRun_stale (storeOp.reopen :: rest) st assigned hst
        rw [safeLifetime] at hsafe ⊢
        cases hs : storeStep (st, assigned) storeOp.reopen with
        | none => rfl
        | some acc2 =>
          rw [hs] at hsafe
          simp only [hls, Bool.not_false, Bool.or_true, Bool.true_or] at hsafe ⊢
          exact hsafe

/-- A new store, opened, satisfies `lifetimeInv`. -/
theorem openStore_spec (dir : GoString) (h1 : dir ≠ []) (h2 : dir ≠ [46]) :
    openStore dir = some (newStore dir, none) ∧ lifetimeInv (newStore dir) [] := by
  refine ⟨?_, rfl, h1, h2, Int.le_refl 1, Int.le_refl 1, ?_, ?_, ?_⟩
  · unfold openStore Init
    simp only [h1, h2, if_false, if_true]
    rfl
  · intro e he
    cases he
  · intro e he
    cases he
  · intro e1 he
    cases he

/-- The first operation of the lifetime `storeLifetime_longPath`. -/
theorem storeStep_longPath_first :
    storeStep ({ MakeState with dataDirectory := [100], persistent := true }, [])
      (.register longPath)
      = some ({ MakeState with
          dataDirectory := [100]
          persistent := true
          nextframeID := incInt 1
          frame2image := mapSet [] 1 longPath }, [(longPath, 1)]) := by
  simp only [storeStep, RegisterFile_longPath_first, Option.bind_eq_bind, Option.some_bind,
    Option.pure_def, List.nil_append]

/-- The re-open after the refused write finds no record: the next ID is 1
again. -/
theorem storeStep_longPath_reopen :
    storeStep ({ MakeState with
          dataDirectory := [100]
          persistent := true
          nextframeID := incInt 1
          frame2image := mapSet [] 1 longPath }, [(longPath, 1)]) .reopen
      = some ({ MakeState with dataDirectory := [100], persistent := true },
          [(longPath, 1)]) := by
  have i : Init MakeState [100] [] (.ok [])
      = some ({ MakeState with dataDirectory := [100], persistent := true }, none) := by
    decide
  simp only [storeStep, Option.bind_eq_bind, Option.pure_def]
  exact congrArg (fun (o : Option (State × Option String)) =>
    o.bind (fun r => some (r.1, [(longPath, (1 : Int))]))) i

/-- The path `[1]` gets the ID 1 after the re-open. -/
theorem storeStep_after_longPath :
    storeStep ({ MakeState with dataDirectory := [100], persistent := true },
        [(longPath, 1)]) (.register [1])
      = some ({ MakeState with
          dataDirectory := [100]
          persistent := true
          nextframeID := 2
          db := [(encodeFrameKey [1], encodeFrameValue 1)]
          frame2image := [(1, [1])] }, [(longPath, 1), ([1], 1)]) := by
  have r : RegisterFile { MakeState with dataDirectory := [100], persistent := true } [1]
      = some ({ MakeState with
          dataDirectory := [100]
          persistent := true
          nextframeID := 2
          db := [(encodeFrameKey [1], encodeFrameValue 1)]
          frame2image := [(1, [1])] }, 1, false) := by decide
  simp only [storeStep, r, Option.bind_eq_bind, Option.some_bind, Option.pure_def,
    List.singleton_append]

/-- A lifetime of three operations, step by step. -/
theorem storeLifetime_three (dir : GoString) (a b c : storeOp) :
    storeLifetime dir [a, b, c]
      = (openStore dir).bind (fun r => (storeStep (r.1, []) a).bind
          (fun s1 => (storeStep s1 b).bind (fun s2 => (storeStep s2 c).map Prod.snd))) := by
  unfold storeLifetime
  cases openStore dir with
  | none => rfl
  | some r =>
    cases h1 : storeStep (r.1, []) a with
    | none => simp [List.foldlM_cons, h1]
    | some s1 =>
      cases h2 : storeStep s1 b with
      | none => simp [List.foldlM_cons, h1, h2]
      | some s2 =>
        cases h3 : storeStep s2 c with
        | none => simp [List.foldlM_cons, h1, h2, h3]
        | some s3 => simp [List.foldlM_cons, h1, h2, h3]

/-- A lifetime without a compaction in which an ID is handed out twice: the
frame key of `longPath` is refused by the store, so its ID 1 is handed out but
not stored; the re-open sets the next ID to 1 again, and the path `[1]` gets
it.  The lifetime is not safe: the re-open finds the store without the record
of the largest ID handed out, and a path without a record is registered
afterwards. -/
theorem storeLifetime_longPath :
    storeLifetime [100] [.register longPath, .reopen, .register [1]]
      = some [(longPath, 1), ([1], 1)] ∧
    ¬ noReuse [(longPath, 1), ([1], 1)] := by
  refine ⟨?_, fun h => ?_⟩
  swap
  · have e := h (longPath, 1) (List.mem_cons_self _ _) ([1], 1)
      (List.mem_cons_of_mem _ (List.mem_cons_self _ _)) rfl
    have e2 := congrArg List.length e
    simp only [longPath, List.length_replicate, List.length_singleton] at e2
    exact absurd e2 (by decide)
  have o : openStore [100]
      = some ({ MakeState with dataDirectory := [100], persistent := true }, none) := by decide
  rw [storeLifetime_three, o, Option.some_bind]
  rw [show (({ MakeState with dataDirectory := [100], persistent := true },
      (none : Option String)) : State × Option String).1
      = { MakeState with dataDirectory := [100], persistent := true } from rfl]
  rw [storeStep_longPath_first, Option.some_bind, storeStep_longPath_reopen, Option.some_bind,
    storeStep_after_longPath]
  rfl

/-- The lifetime of `storeLifetime_longPath` is not safe. -/
theorem safeLifetime_longPath :
    safeLifetime false (newStore [100], [])
      [.register longPath, .reopen, .register [1]] = false := by
  show safeLifetime false ({ MakeState with dataDirectory := [100], persistent := true }, [])
    [.register longPath, .reopen, .register [1]] = false
  rw [safeLifetime, storeStep_longPath_first]
  simp only [Bool.not_false, Bool.true_or, Bool.true_and]
  rw [safeLifetime, storeStep_longPath_reopen]
  simp only
  have hl : largestStored { MakeState with
      dataDirectory := [100]
      persistent := true
      nextframeID := incInt 1
      frame2image := mapSet [] 1 longPath } [(longPath, 1)] = false := by
    have hg : getMaxFrameID { MakeState with
        dataDirectory := [100]
        persistent := true
        nextframeID := incInt 1
        frame2image := mapSet [] 1 longPath } = some (0, none) := rfl
    unfold largestStored
    rw [hg]
    rfl
  rw [hl, safeLifetime]
  have hk : knownID { MakeState with dataDirectory := [100], persistent := true } [1] = none := by
    decide
  simp only [hk]
  rfl

/-- The lifetime in which an ID is handed out again after a compaction and a
re-open is not safe: the compaction removes the record of `[2]`, the largest ID
handed out, and `[3]`, which has no record, is registered after the re-open. -/
theorem safeLifetime_reuse_after_compaction :
    safeLifetime false (newStore [100], [])
      [.register [1], .register [2], .compact (envExisting 1), .reopen, .register [3]]
      = false := by
  decide

/-! ## Lemmas: the grouping and the order of the frame list -/

theorem consumeCached_eq_groupStep (st : State) (ign : Bool) (b : List (Int × Int) × Int)
    (p : Int × Int) : consumeCached st ign b p = groupStep (cachedMatch st ign) b p := by
  unfold consumeCached groupStep cachedMatch
  cases hg : GetComparisonScore st p.1 p.2 with
  | none => rfl
  | some r =>
    obtain ⟨score, found⟩ := r
    cases found with
    | false => rfl
    | true =>
      simp only [bucketStep, joinBuckets]
      by_cases h1 : (float32.lt score float32.zero && !ign) = true
      · simp [h1]
      · by_cases h2 : float32.le score SimilarityThreshold = true
        · simp [h1, h2]
        · simp [h1, h2]

theorem cachedMatch_comm (st : State) (ign : Bool) (x y : Int) :
    cachedMatch st ign x y = cachedMatch st ign y x := by
  unfold cachedMatch
  rw [GetComparisonScore_comm]

/-- The buckets after a match: both frames are in one bucket, which is the
bucket of the first frame if it has one, else the bucket of the second if it
has one, else a new bucket; the other frames keep theirs. -/
theorem joinBuckets_spec (B : List (Int × Int)) (n : Int) (x y : Int) :
    ∃ b, (∀ z, mapGet (joinBuckets (B, n) x y).1 z
        = if z = x ∨ z = y then some b else mapGet B z) ∧
      ((mapGet B x = some b ∧ (joinBuckets (B, n) x y).2 = n) ∨
       (mapGet B x = none ∧ mapGet B y = some b ∧ (joinBuckets (B, n) x y).2 = n) ∨
       (mapGet B x = none ∧ mapGet B y = none ∧ b = n ∧
         (joinBuckets (B, n) x y).2 = n + 1)) := by
  have hget : ∀ (b z : Int), mapGet (mapSet (mapSet B x b) y b) z
      = if z = x ∨ z = y then some b else mapGet B z := by
    intro b z
    by_cases hy : z = y
    · rw [hy, mapGet_mapSet_same, if_pos (Or.inr rfl)]
    · rw [mapGet_mapSet_other _ _ _ _ (fun e => hy e.symm)]
      by_cases hx : z = x
      · rw [hx, mapGet_mapSet_same, if_pos (Or.inl rfl)]
      · rw [mapGet_mapSet_other _ _ _ _ (fun e => hx e.symm), if_neg (by tauto)]
  cases hx : mapGet B x with
  | some bx =>
    refine ⟨bx, ?_, Or.inl ⟨rfl, ?_⟩⟩
    · intro z
      simp only [joinBuckets, hx]
      exact hget bx z
    · simp only [joinBuckets, hx]
  | none =>
    cases hy : mapGet B y with
    | some bY =>
      refine ⟨bY, ?_, Or.inr (Or.inl ⟨rfl, rfl, ?_⟩)⟩
      · intro z
        simp only [joinBuckets, hx, hy]
        exact hget bY z
      · simp only [joinBuckets, hx, hy]
    | none =>
      refine ⟨n, ?_, Or.inr (Or.inr ⟨rfl, rfl, rfl, ?_⟩)⟩
      · intro z
        simp only [joinBuckets, hx, hy]
        exact hget n z
      · simp only [joinBuckets, hx, hy]

theorem rowInv_step (M : Int → Int → Bool) (l : List Int) (x : Int) (done : List Int) (y : Int)
    (b : List (Int × Int) × Int)
    (hsym : ∀ a c, M a c = M c a)
    (htrans : ∀ a c d, (a ∈ l ∨ a = x) → (c ∈ l ∨ c = x) → (d ∈ l ∨ d = x) →
      a ≠ c → c ≠ d → a ≠ d → M a c = true → M c d = true → M a d = true)
    (hx : x ∉ l) (hy : y ∈ l)
    (h : rowInv M l x done b) : rowInv M l x (done ++ [y]) (groupStep M b (x, y)) := by
  obtain ⟨B, n⟩ := b
  obtain ⟨r1, r2, r3, r4⟩ := h
  simp only at r1 r2 r3 r4
  have hxy : x ≠ y := fun e => hx (e ▸ hy)
  show rowInv M l x (done ++ [y]) (if M x y = true then joinBuckets (B, n) x y else (B, n))
  by_cases hM : M x y = true
  · rw [if_pos hM]
    obtain ⟨bk, hget, hcase⟩ := joinBuckets_spec B n x y
    have hmemv : ∀ v bv, mapGet B v = some bv → v ∈ l ∨ v = x := by
      intro v bv hv
      rcases (r1 v bv hv).2 with h1 | h1
      · exact Or.inr h1.1
      · exact Or.inl h1.1
    have hMxy : ∀ v, (v ∈ l ∨ v = x) → v ≠ x → v ≠ y → (M x v = true ↔ M y v = true) := by
      intro v hv hvx hvy
      constructor
      · intro hm
        exact htrans y x v (Or.inl hy) (Or.inr rfl) hv (Ne.symm hxy) (Ne.symm hvx)
          (Ne.symm hvy) (by rw [hsym]; exact hM) hm
      · intro hm
        exact htrans x y v (Or.inr rfl) (Or.inl hy) hv hxy (Ne.symm hvy) (Ne.symm hvx) hM hm
    have hlt : bk < (joinBuckets (B, n) x y).2 ∧ n ≤ (joinBuckets (B, n) x y).2 := by
      rcases hcase with ⟨c1, c2⟩ | ⟨_, c1, c2⟩ | ⟨_, _, c1, c2⟩
      · rw [c2]
        exact ⟨(r1 x bk c1).1, Int.le_refl n⟩
      · rw [c2]
        exact ⟨(r1 y bk c1).1, Int.le_refl n⟩
      · rw [c2, c1]
        omega
    have hcore : ∀ v bv, mapGet B v = some bv → v ≠ x → v ≠ y →
        (bk = bv ↔ M x v = true) := by
      intro v bv hv hvx hvy
      rcases hcase with ⟨c1, _⟩ | ⟨_, c1, _⟩ | ⟨_, c0, c1, _⟩
      · rw [r4 x v bk bv c1 hv]
        constructor
        · rintro (e | e)
          · exact absurd e.symm hvx
          · exact e
        · exact fun e => Or.inr e
      · rw [r4 y v bk bv c1 hv, hMxy v (hmemv v bv hv) hvx hvy]
        constructor
        · rintro (e | e)
          · exact absurd e.symm hvy
          · exact e
        · exact fun e => Or.inr e
      · constructor
        · intro e
          have := (r1 v bv hv).1
          omega
        · intro hm
          have hvl : v ∈ l := by
            rcases hmemv v bv hv with h1 | h1
            · exact h1
            · exact absurd h1 hvx
          have hyv := (hMxy v (Or.inl hvl) hvx hvy).mp hm
          exact absurd c0 (r3 y hy (Or.inl ⟨v, hvl, hvy, hyv⟩))
    refine ⟨?_, ?_, ?_, ?_⟩
    · intro z bz hz
      rw [hget] at hz
      by_cases hzx : z = x
      · rw [if_pos (Or.inl hzx)] at hz
        cases hz
        exact ⟨hlt.1, Or.inl ⟨hzx, y, List.mem_append_right _ (List.mem_singleton.mpr rfl), hM⟩⟩
      · by_cases hzy : z = y
        · rw [if_pos (Or.inr hzy)] at hz
          cases hz
          refine ⟨hlt.1, Or.inr ⟨hzy ▸ hy, Or.inr ⟨?_, hzy ▸ hM⟩⟩⟩
          rw [hzy]
          exact List.mem_append_right _ (List.mem_singleton.mpr rfl)
        · rw [if_neg (by tauto)] at hz
          obtain ⟨h1, h2⟩ := r1 z bz hz
          refine ⟨by omega, ?_⟩
          rcases h2 with ⟨e, _⟩ | ⟨hzl, h3⟩
          · exact absurd e hzx
          · refine Or.inr ⟨hzl, ?_⟩
            rcases h3 with h3 | ⟨h3, h4⟩
            · exact Or.inl h3
            · exact Or.inr ⟨List.mem_append_left _ h3, h4⟩
    · intro _
      rw [hget, if_pos (Or.inl rfl)]
      exact fun e => by cases e
    · intro z hzl hz
      rw [hget]
      by_cases hzxy : z = x ∨ z = y
      · rw [if_pos hzxy]
        exact fun e => by cases e
      · rw [if_neg hzxy]
        apply r3 z hzl
        rcases hz with hz | ⟨hz1, hz2⟩
        · exact Or.inl hz
        · refine Or.inr ⟨?_, hz2⟩
          rcases List.mem_append.mp hz1 with hd | hd
          · exact hd
          · exact absurd (List.mem_singleton.mp hd) (fun e => hzxy (Or.inr e))
    · intro u v bu bv hu hv
      rw [hget] at hu hv
      by_cases hu1 : u = x ∨ u = y <;> by_cases hv1 : v = x ∨ v = y
      · rw [if_pos hu1] at hu
        rw [if_pos hv1] at hv
        cases hu
        cases hv
        refine ⟨fun _ => ?_, fun _ => rfl⟩
        rcases hu1 with e1 | e1 <;> rcases hv1 with e2 | e2
        · exact Or.inl (e1.trans e2.symm)
        · exact Or.inr (by rw [e1, e2]; exact hM)
        · exact Or.inr (by rw [e1, e2, hsym]; exact hM)
        · exact Or.inl (e1.trans e2.symm)
      · rw [if_pos hu1] at hu
        rw [if_neg hv1] at hv
        cases hu
        have hvx : v ≠ x := fun e => hv1 (Or.inl e)
        have hvy : v ≠ y := fun e => hv1 (Or.inr e)
        rw [hcore v bv hv hvx hvy]
        rcases hu1 with e1 | e1
        · rw [e1]
          constructor
          · exact fun e => Or.inr e
          · rintro (e | e)
            · exact absurd e.symm hvx
            · exact e
        · rw [e1, hMxy v (hmemv v bv hv) hvx hvy]
          constructor
          · exact fun e => Or.inr e
          · rintro (e | e)
            · exact absurd e.symm hvy
            · exact e
      · rw [if_neg hu1] at hu
        rw [if_pos hv1] at hv
        cases hv
        have hux : u ≠ x := fun e => hu1 (Or.inl e)
        have huy : u ≠ y := fun e => hu1 (Or.inr e)
        rw [eq_comm, hcore u bu hu hux huy]
        rcases hv1 with e1 | e1
        · rw [e1, hsym u x]
          constructor
          · exact fun e => Or.inr e
          · rintro (e | e)
            · exact absurd e hux
            · exact e
        · rw [e1, hsym u y, hMxy u (hmemv u bu hu) hux huy]
          constructor
          · exact fun e => Or.inr e
          · rintro (e | e)
            · exact absurd e huy
            · exact e
      · rw [if_neg hu1] at hu
        rw [if_neg hv1] at hv
        exact r4 u v bu bv hu hv
  · rw [if_neg hM]
    have hdone : ∀ z, z ∈ done ++ [y] → M x z = true → z ∈ done := by
      intro z hz hm
      rcases List.mem_append.mp hz with hd | hd
      · exact hd
      · rw [List.mem_singleton.mp hd] at hm
        exact absurd hm hM
    refine ⟨?_, ?_, ?_, r4⟩
    · intro z bz hz
      obtain ⟨h1, h2⟩ := r1 z bz hz
      refine ⟨h1, ?_⟩
      rcases h2 with ⟨e, w, hw, hm⟩ | ⟨hzl, h3⟩
      · exact Or.inl ⟨e, w, List.mem_append_left _ hw, hm⟩
      · refine Or.inr ⟨hzl, ?_⟩
        rcases h3 with h3 | ⟨h3, h4⟩
        · exact Or.inl h3
        · exact Or.inr ⟨List.mem_append_left _ h3, h4⟩
    · rintro ⟨w, hw, hm⟩
      exact r2 ⟨w, hdone w hw hm, hm⟩
    · intro z hzl hz
      apply r3 z hzl
      rcases hz with hz | ⟨hz1, hz2⟩
      · exact Or.inl hz
      · exact Or.inr ⟨hdone z hz1 hz2, hz2⟩

theorem rowInv_fold (M : Int → Int → Bool) (l : List Int) (x : Int)
    (hsym : ∀ a c, M a c = M c a)
    (htrans : ∀ a c d, (a ∈ l ∨ a = x) → (c ∈ l ∨ c = x) → (d ∈ l ∨ d = x) →
      a ≠ c → c ≠ d → a ≠ d → M a c = true → M c d = true → M a d = true)
    (hx : x ∉ l) (remaining : List Int) :
    ∀ (done : List Int) (b : List (Int × Int) × Int), done ++ remaining = l →
      rowInv M l x done b →
      rowInv M l x l ((remaining.map (fun y => (x, y))).foldl (groupStep M) b) := by
  induction remaining with
  | nil =>
    intro done b hd h
    rw [List.append_nil] at hd
    rw [hd] at h
    exact h
  | cons y rest ih =>
    intro done b hd h
    have hy : y ∈ l := by
      rw [← hd]
      exact List.mem_append_right _ (List.mem_cons_self _ _)
    rw [List.map_cons, List.foldl_cons]
    exact ih (done ++ [y]) _ (by rw [List.append_assoc]; exact hd)
      (rowInv_step M l x done y b hsym htrans hx hy h)

/-- The buckets after the pairs of a frame list without repetition, for a
symmetric relation of matches that is transitive on the frames of the list. -/
theorem grouping_spec (M : Int → Int → Bool) (n0 : Int) (hsym : ∀ a c, M a c = M c a)
    (l : List Int) :
    l.Nodup →
    (∀ a c d, a ∈ l → c ∈ l → d ∈ l → a ≠ c → c ≠ d → a ≠ d →
      M a c = true → M c d = true → M a d = true) →
    groupingInv M l ((enumeratedPairs l).foldl (groupStep M) ([], n0)) := by
  induction l using List.reverseRecOn with
  | nil =>
    intro _ _
    refine ⟨?_, ?_, ?_⟩
    · intro x bx h
      cases h
    · intro x hx
      cases hx
    · intro x y bx bY h
      cases h
  | append_singleton l x ih =>
    intro hnd htr
    have hnd2 := List.nodup_append.mp hnd
    have hx : x ∉ l := fun hm => hnd2.2.2 hm (List.mem_singleton.mpr rfl)
    have hmem : ∀ a, (a ∈ l ∨ a = x) → a ∈ l ++ [x] := by
      intro a ha
      rcases ha with ha | ha
      · exact List.mem_append_left _ ha
      · exact List.mem_append_right _ (List.mem_singleton.mpr ha)
    obtain ⟨g1, g2, g3⟩ := ih hnd2.1 (fun a c d ha hc hd =>
      htr a c d (List.mem_append_left _ ha) (List.mem_append_left _ hc)
        (List.mem_append_left _ hd))
    rw [enumeratedPairs_append_singleton, List.foldl_append]
    have hrow := rowInv_fold M l x hsym
      (fun a c d ha hc hd => htr a c d (hmem a ha) (hmem c hc) (hmem d hd)) hx l []
      ((enumeratedPairs l).foldl (groupStep M) ([], n0)) rfl
      ⟨fun z bz hz => ⟨(g1 z bz hz).2.1, Or.inr ⟨(g1 z bz hz).1, Or.inl (g1 z bz hz).2.2⟩⟩,
        fun ⟨_, hw, _⟩ => absurd hw (List.not_mem_nil _),
        fun z hzl hz => g2 z hzl (by
          rcases hz with hz | ⟨hz, _⟩
          · exact hz
          · exact absurd hz (List.not_mem_nil _)),
        g3⟩
    obtain ⟨r1, r2, r3, r4⟩ := hrow
    refine ⟨?_, ?_, r4⟩
    · intro z bz hz
      obtain ⟨h1, h2⟩ := r1 z bz hz
      rcases h2 with ⟨e, w, hw, hm⟩ | ⟨hzl, h3⟩
      · refine ⟨hmem z (Or.inr e), h1, w, List.mem_append_left _ hw, ?_, by rw [e]; exact hm⟩
        intro e2
        rw [e2, e] at hw
        exact hx hw
      · refine ⟨hmem z (Or.inl hzl), h1, ?_⟩
        rcases h3 with ⟨w, hw, hne, hm⟩ | ⟨_, hm⟩
        · exact ⟨w, List.mem_append_left _ hw, hne, hm⟩
        · refine ⟨x, hmem x (Or.inr rfl), ?_, by rw [hsym]; exact hm⟩
          intro e
          rw [e] at hx
          exact hx hzl
    · intro z hz ⟨w, hw, hne, hm⟩
      rcases List.mem_append.mp hz with hzl | hzx
      · apply r3 z hzl
        rcases List.mem_append.mp hw with hwl | hwx
        · exact Or.inl ⟨w, hwl, hne, hm⟩
        · rw [List.mem_singleton.mp hwx, hsym] at hm
          exact Or.inr ⟨hzl, hm⟩
      · have hzx2 := List.mem_singleton.mp hzx
        rw [hzx2] at hm hne ⊢
        apply r2
        rcases List.mem_append.mp hw with hwl | hwx
        · exact ⟨w, hwl, hm⟩
        · exact absurd (List.mem_singleton.mp hwx) hne

/-- Which frames share a bucket, read off `groupingInv`. -/
theorem sameBucket_of_groupingInv (M : Int → Int → Bool) (l : List Int)
    (b : List (Int × Int) × Int) (hsym : ∀ a c, M a c = M c a)
    (h : groupingInv M l b) (x y : Int) :
    sameBucket b.1 x y = true ↔
      (x ≠ y ∧ x ∈ l ∧ y ∈ l ∧ M x y = true) ∨
      (x = y ∧ x ∈ l ∧ ∃ w ∈ l, w ≠ x ∧ M x w = true) := by
  obtain ⟨g1, g2, g3⟩ := h
  unfold sameBucket
  cases hx : mapGet b.1 x with
  | none =>
    simp only [Bool.false_eq_true, false_iff]
    rintro (⟨hne, hxl, hyl, hm⟩ | ⟨_, hxl, w, hw, hne, hm⟩)
    · exact g2 x hxl ⟨y, hyl, Ne.symm hne, hm⟩ hx
    · exact g2 x hxl ⟨w, hw, hne, hm⟩ hx
  | some bx =>
    cases hy : mapGet b.1 y with
    | none =>
      simp only [Bool.false_eq_true, false_iff]
      rintro (⟨hne, hxl, hyl, hm⟩ | ⟨e, _, _⟩)
      · exact g2 y hyl ⟨x, hxl, hne, by rw [hsym]; exact hm⟩ hy
      · rw [e, hy] at hx
        cases hx
    | some bY =>
      simp only [decide_eq_true_eq]
      rw [g3 x y bx bY hx hy]
      obtain ⟨hxl, _, hpx⟩ := g1 x bx hx
      obtain ⟨hyl, _, _⟩ := g1 y bY hy
      by_cases hxy : x = y
      · simp [hxy, hyl]
        rw [← hxy]
        exact hpx
      · simp [hxy, hxl, hyl]

/-! ## Lemmas: the range of the bucket identifiers -/

/-- The buckets after a matching score: `bucketResults` does what `joinBuckets`
tells, and counts one match. -/
theorem bucketResults_joinBuckets (proc : Processor) (f1 f2 : Int) (s : float32)
    (hs0 : float32.le float32.zero s = true) (hs1 : float32.le s SimilarityThreshold = true) :
    ((bucketResults proc f1 f2 s).frameBuckets, (bucketResults proc f1 f2 s).nextBucket)
      = joinBuckets (proc.frameBuckets, proc.nextBucket) f1 f2 ∧
    (bucketResults proc f1 f2 s).stats.NumMatches = proc.stats.NumMatches + 1 := by
  rw [bucketResults_match proc f1 f2 s hs0 hs1]
  unfold joinBuckets
  cases h1 : mapGet proc.frameBuckets f1 with
  | some b => exact ⟨rfl, rfl⟩
  | none =>
    cases h2 : mapGet proc.frameBuckets f2 with
    | some b => exact ⟨rfl, rfl⟩
    | none => exact ⟨rfl, rfl⟩

/-- The bucket identifiers stay in their range at a match. -/
theorem joinBuckets_range (B : List (Int × Int)) (n : Int) (x y : Int)
    (hn : 1 ≤ n) (hB : ∀ e ∈ B, 1 ≤ e.2 ∧ e.2 < n) :
    1 ≤ (joinBuckets (B, n) x y).2 ∧
    ∀ e ∈ (joinBuckets (B, n) x y).1, 1 ≤ e.2 ∧ e.2 < (joinBuckets (B, n) x y).2 := by
  have hmem : ∀ (b : Int) (e : Int × Int), e ∈ mapSet (mapSet B x b) y b →
      e ∈ B ∨ e.2 = b := by
    intro b e he
    rcases mem_mapSet _ _ _ _ he with h | h
    · rcases mem_mapSet _ _ _ _ h with h | h
      · exact Or.inl h
      · exact Or.inr (by rw [h])
    · exact Or.inr (by rw [h])
  unfold joinBuckets
  cases h1 : mapGet B x with
  | some b =>
    refine ⟨hn, fun e he => ?_⟩
    rcases hmem b e he with h | h
    · exact hB e h
    · rw [h]
      exact hB _ (mem_of_mapGet _ _ _ h1)
  | none =>
    cases h2 : mapGet B y with
    | some b =>
      refine ⟨hn, fun e he => ?_⟩
      rcases hmem b e he with h | h
      · exact hB e h
      · rw [h]
        exact hB _ (mem_of_mapGet _ _ _ h2)
    | none =>
      refine ⟨by show 1 ≤ n + 1; omega, fun e he => ?_⟩
      show 1 ≤ e.2 ∧ e.2 < n + 1
      rcases hmem n e he with h | h
      · have := hB e h
        omega
      · omega

/-! ## Lemmas: the entries of the Score Cache -/

theorem toUint64_injective (x y : Int) (hx0 : -9223372036854775808 ≤ x)
    (hx1 : x < 9223372036854775808) (hy0 : -9223372036854775808 ≤ y)
    (hy1 : y < 9223372036854775808) (h : toUint64 x = toUint64 y) : x = y := by
  rw [← toInt_toUint64 x hx0 hx1, ← toInt_toUint64 y hy0 hy1, h]

/-- Two pairs of frame IDs (Go `int` values) with the same score key are the
same unordered pair. -/
theorem encodeScoreKey_injective (a b c d : Int)
    (ha0 : -9223372036854775808 ≤ a) (ha1 : a < 9223372036854775808)
    (hb0 : -9223372036854775808 ≤ b) (hb1 : b < 9223372036854775808)
    (hc0 : -9223372036854775808 ≤ c) (hc1 : c < 9223372036854775808)
    (hd0 : -9223372036854775808 ≤ d) (hd1 : d < 9223372036854775808)
    (h : encodeScoreKey a b = encodeScoreKey c d) :
    (a = c ∧ b = d) ∨ (a = d ∧ b = c) := by
  have hparts : ∀ (u v u2 v2 : Int),
      scorePrefix ++ PutUint64 (toUint64 u) ++ PutUint64 (toUint64 v)
        = scorePrefix ++ PutUint64 (toUint64 u2) ++ PutUint64 (toUint64 v2) →
      toUint64 u = toUint64 u2 ∧ toUint64 v = toUint64 v2 := by
    intro u v u2 v2 heq
    rw [List.append_assoc, List.append_assoc] at heq
    have h1 := List.append_cancel_left heq
    have h2 := List.append_inj h1 rfl
    exact ⟨PutUint64_injective _ _ (toUint64_lt u) (toUint64_lt u2) h2.1,
      PutUint64_injective _ _ (toUint64_lt v) (toUint64_lt v2) h2.2⟩
  unfold encodeScoreKey at h
  by_cases h1 : a > b <;> by_cases h2 : c > d
  · rw [if_pos h1, if_pos h2] at h
    obtain ⟨e1, e2⟩ := hparts _ _ _ _ h
    exact Or.inl ⟨toUint64_injective _ _ ha0 ha1 hc0 hc1 e2,
      toUint64_injective _ _ hb0 hb1 hd0 hd1 e1⟩
  · rw [if_pos h1, if_neg h2] at h
    obtain ⟨e1, e2⟩ := hparts _ _ _ _ h
    exact Or.inr ⟨toUint64_injective _ _ ha0 ha1 hd0 hd1 e2,
      toUint64_injective _ _ hb0 hb1 hc0 hc1 e1⟩
  · rw [if_neg h1, if_pos h2] at h
    obtain ⟨e1, e2⟩ := hparts _ _ _ _ h
    exact Or.inr ⟨toUint64_injective _ _ ha0 ha1 hd0 hd1 e1,
      toUint64_injective _ _ hb0 hb1 hc0 hc1 e2⟩
  · rw [if_neg h1, if_neg h2] at h
    obtain ⟨e1, e2⟩ := hparts _ _ _ _ h
    exact Or.inl ⟨toUint64_injective _ _ ha0 ha1 hc0 hc1 e1,
      toUint64_injective _ _ hb0 hb1 hd0 hd1 e2⟩

theorem scoreEntry_comm (st : State) (a b : Int) : scoreEntry st a b = scoreEntry st b a := by
  unfold scoreEntry
  rw [encodeScoreKey_comm a b]
  by_cases h1 : a > b
  · have h2 : ¬ b > a := by omega
    simp only [h1, h2, if_true, if_false]
  · by_cases h2 : b > a
    · simp only [h1, h2, if_true, if_false]
    · have h3 : a = b := by omega
      subst h3
      rfl

/-- After `SetComparisonScore` the entry of the pair holds the new score, and
the false-positive flag is off. -/
theorem scoreEntry_SetComparisonScore_same (st : State) (a b : Int) (s : float32) :
    scoreEntry (SetComparisonScore st a b s) a b = some (s, false) := by
  rcases Bool.eq_false_or_eq_true st.persistent with hp | hp
  · have hp2 : (SetComparisonScore st a b s).persistent = true := by
      simp [SetComparisonScore, setComparisonScorePersistent, encodeScoreData, hp]
    have hdb : (SetComparisonScore st a b s).db
        = mapSet st.db (encodeScoreKey a b)
            (PutUint32 (Float32bits s) ++ [boolToByte false]) := by
      simp [SetComparisonScore, setComparisonScorePersistent, encodeScoreData, hp]
    unfold scoreEntry
    rw [if_pos hp2, hdb, mapGet_mapSet_same]
    exact decodeScoreData_encoded s false
  · have hp2 : (SetComparisonScore st a b s).persistent = false := by
      simp [SetComparisonScore, hp]
    have hms : (SetComparisonScore st a b s).matchScores
        = mapSet st.matchScores (if a > b then (b, a) else (a, b))
            { Score := s, FalsePositive := false } := by
      simp [SetComparisonScore, hp]
    simp only [scoreEntry, hp2, Bool.false_eq_true, if_false, hms, mapGet_mapSet_same,
      Option.map_some']

/-- `SetComparisonScore` for another pair leaves the entry of a pair as it
is. -/
theorem scoreEntry_SetComparisonScore_other (st : State) (a b c d : Int) (s : float32)
    (ha0 : -9223372036854775808 ≤ a) (ha1 : a < 9223372036854775808)
    (hb0 : -9223372036854775808 ≤ b) (hb1 : b < 9223372036854775808)
    (hc0 : -9223372036854775808 ≤ c) (hc1 : c < 9223372036854775808)
    (hd0 : -9223372036854775808 ≤ d) (hd1 : d < 9223372036854775808)
    (hne : ¬ ((c = a ∧ d = b) ∨ (c = b ∧ d = a))) :
    scoreEntry (SetComparisonScore st c d s) a b = scoreEntry st a b := by
  rcases Bool.eq_false_or_eq_true st.persistent with hp | hp
  · have hp2 : (SetComparisonScore st c d s).persistent = true := by
      simp [SetComparisonScore, setComparisonScorePersistent, encodeScoreData, hp]
    have hdb : (SetComparisonScore st c d s).db
        = mapSet st.db (encodeScoreKey c d)
            (PutUint32 (Float32bits s) ++ [boolToByte false]) := by
      simp [SetComparisonScore, setComparisonScorePersistent, encodeScoreData, hp]
    unfold scoreEntry
    rw [if_pos hp2, if_pos hp, hdb, mapGet_mapSet_other]
    intro hk
    exact hne (encodeScoreKey_injective c d a b hc0 hc1 hd0 hd1 ha0 ha1 hb0 hb1 hk)
  · have hp2 : (SetComparisonScore st c d s).persistent = false := by
      simp [SetComparisonScore, hp]
    have hms : (SetComparisonScore st c d s).matchScores
        = mapSet st.matchScores (if c > d then (d, c) else (c, d))
            { Score := s, FalsePositive := false } := by
      simp [SetComparisonScore, hp]
    simp only [scoreEntry, hp2, hp, Bool.false_eq_true, if_false, hms]
    rw [mapGet_mapSet_other]
    intro hk
    apply hne
    by_cases h1 : c > d <;> by_cases h2 : a > b
    · rw [if_pos h1, if_pos h2] at hk
      cases hk
      exact Or.inl ⟨rfl, rfl⟩
    · rw [if_pos h1, if_neg h2] at hk
      cases hk
      exact Or.inr ⟨rfl, rfl⟩
    · rw [if_neg h1, if_pos h2] at hk
      cases hk
      exact Or.inr ⟨rfl, rfl⟩
    · rw [if_neg h1, if_neg h2] at hk
      cases hk
      exact Or.inl ⟨rfl, rfl⟩

/-- `RegisterFile` returns when the frame value stored for the path, if any,
has its eight bytes, and it leaves every entry of the Score Cache as it is. -/
theorem scoreEntry_RegisterFile (st : State) (p : GoString) (a b : Int)
    (hwf : st.persistent = true → ∀ v, mapGet st.db (encodeFrameKey p) = some v →
      8 ≤ v.length) :
    ∃ st' id found, RegisterFile st p = some (st', id, found) ∧
      scoreEntry st' a b = scoreEntry st a b := by
  rcases Bool.eq_false_or_eq_true st.persistent with hp | hp
  · cases hv : mapGet st.db (encodeFrameKey p) with
    | some v =>
      obtain ⟨id, hid⟩ := decodeFrameValue_isSome v (hwf hp v hv)
      refine ⟨{ st with frame2image := mapSet st.frame2image id p }, id, true, ?_, rfl⟩
      simp [RegisterFile, AddFrameIDPersistent, hp, hv, hid]
    | none =>
      cases hf : txnSetFails (encodeFrameKey p) with
      | true =>
        refine ⟨{ st with
            nextframeID := incInt st.nextframeID
            frame2image := mapSet st.frame2image st.nextframeID p }, st.nextframeID, false,
          ?_, rfl⟩
        simp [RegisterFile, AddFrameIDPersistent, hp, hv, hf]
      | false =>
        refine ⟨{ st with
            nextframeID := incInt st.nextframeID
            db := mapSet st.db (encodeFrameKey p) (encodeFrameValue st.nextframeID)
            frame2image := mapSet st.frame2image st.nextframeID p }, st.nextframeID, false,
          ?_, ?_⟩
        · simp [RegisterFile, AddFrameIDPersistent, hp, hv, hf]
        · simp only [scoreEntry, hp, if_true]
          rw [mapGet_mapSet_other _ _ _ _ (fun e => encodeScoreKey_ne_encodeFrameKey a b p e.symm)]
  · cases hv : mapGet st.image2frame p with
    | some id =>
      refine ⟨{ st with frame2image := mapSet st.frame2image id p }, id, true, ?_, rfl⟩
      simp [RegisterFile, hp, hv]
    | none =>
      refine ⟨{ st with
          nextframeID := incInt st.nextframeID
          image2frame := mapSet st.image2frame p st.nextframeID
          frame2image := mapSet st.frame2image st.nextframeID p }, st.nextframeID, false,
        ?_, rfl⟩
      simp [RegisterFile, hp, hv]

/-- What `GetComparisonScore` answers for a pair that has an entry. -/
theorem GetComparisonScore_of_scoreEntry (st : State) (a b : Int) (e : float32 × Bool)
    (h : scoreEntry st a b = some e) :
    GetComparisonScore st a b = some (if e.2 then e.1.neg else e.1, true) := by
  rcases Bool.eq_false_or_eq_true st.persistent with hp | hp
  · simp only [scoreEntry, hp, if_true] at h
    simp only [GetComparisonScore, getComparisonScorePersistent, hp, if_true]
    cases hv : mapGet st.db (encodeScoreKey a b) with
    | none => rw [hv] at h; cases h
    | some val =>
      rw [hv] at h
      have hd : decodeScoreData val = some e := h
      obtain ⟨s, fp⟩ := e
      cases fp <;> simp [hd]
  · simp only [scoreEntry, hp, Bool.false_eq_true, if_false] at h
    simp only [GetComparisonScore, hp, Bool.false_eq_true, if_false]
    cases hv : mapGet st.matchScores (if a > b then (b, a) else (a, b)) with
    | none => rw [hv] at h; cases h
    | some info =>
      rw [hv] at h
      cases h
      cases hf : info.FalsePositive <;> simp [hf]

/-- With a persistent store `UnmatchFrames` sets the flag of an entry and
keeps its score; without one it does nothing. -/
theorem scoreEntry_UnmatchFrames (st : State) (a b : Int) (e : float32 × Bool) (fp : Bool)
    (h : scoreEntry st a b = some e) :
    ∃ st', UnmatchFrames st a b fp = some st' ∧
      scoreEntry st' a b = some (e.1, if st.persistent then fp else e.2) := by
  rcases Bool.eq_false_or_eq_true st.persistent with hp | hp
  · simp only [scoreEntry, hp, if_true] at h
    cases hv : mapGet st.db (encodeScoreKey a b) with
    | none => rw [hv] at h; cases h
    | some val =>
      rw [hv] at h
      have hd : decodeScoreData val = some (e.1, e.2) := h
      obtain ⟨h1, h2, _⟩ := decodeScoreData_set_flag val e.1 e.2 fp hd
      refine ⟨{ st with db := mapSet st.db (encodeScoreKey a b) (val.set 4 (boolToByte fp)) },
        ?_, ?_⟩
      · have hl : ¬ val.length ≤ 4 := by omega
        simp [UnmatchFrames, unmatchFramesPersistent, hp, hv, hl]
      · simp only [scoreEntry, hp, if_true, mapGet_mapSet_same]
        exact h2
  · refine ⟨st, by simp [UnmatchFrames, hp], ?_⟩
    rw [h]
    simp [hp]

/-- A run of `generateComparisonJobs` that returns leaves the state as it is,
and sends a request only for a pair of the frame list whose score is not
found. -/
theorem generateComparisonJobs_requests (proc proc1 : Processor) (trace : List cmpEvent)
    (hrun : generateComparisonJobs proc = some (proc1, trace)) :
    proc1.state = proc.state ∧
    ∀ req ∈ requestsOf trace,
      (req.frameID1, req.frameID2) ∈ enumeratedPairs proc.frames ∧
      ∃ v, GetComparisonScore proc.state req.frameID1 req.frameID2 = some (v, false) := by
  have hsome : ∀ p ∈ enumeratedPairs proc.frames,
      (GetComparisonScore proc.state p.1 p.2).isSome = true := by
    have h := hrun
    rw [generateComparisonJobs_eq_fold] at h
    have h2 := congrArg Option.isSome h
    exact fun p hp => compare_fold_isSome _ _ _ h2 p hp
  obtain ⟨q1, hq1, hst1, _, _, _⟩ := generateComparisonJobs_spec proc hsome
  rw [hrun] at hq1
  have htrace : trace = (enumeratedPairs proc.frames).map (eventFor proc.state) := by
    injection hq1 with e
    exact (Prod.mk.inj e).2
  have hproc1 : proc1.state = proc.state := by
    injection hq1 with e
    rw [(Prod.mk.inj e).1]
    exact hst1
  refine ⟨hproc1, fun req hreq => ?_⟩
  rw [mem_requestsOf, htrace] at hreq
  obtain ⟨p, hp, hev⟩ := List.mem_map.mp hreq
  have hs := hsome p hp
  rw [Option.isSome_iff_exists] at hs
  obtain ⟨⟨v, found⟩, hr⟩ := hs
  cases found with
  | true =>
    simp [eventFor, hr] at hev
  | false =>
    simp only [eventFor, hr] at hev
    injection hev with e
    rw [← e]
    exact ⟨hp, v, hr⟩

/-- Responses for other pairs leave the entry of a pair as it is. -/
theorem scoreEntry_processComparisonResults (rs : List fcmpResponse) :
    ∀ (proc : Processor) (a b : Int),
      -9223372036854775808 ≤ a → a < 9223372036854775808 →
      -9223372036854775808 ≤ b → b < 9223372036854775808 →
      (∀ r ∈ rs, -9223372036854775808 ≤ r.frameID1 ∧ r.frameID1 < 9223372036854775808 ∧
        -9223372036854775808 ≤ r.frameID2 ∧ r.frameID2 < 9223372036854775808 ∧
        ¬ ((r.frameID1 = a ∧ r.frameID2 = b) ∨ (r.frameID1 = b ∧ r.frameID2 = a))) →
      scoreEntry (processComparisonResults proc rs).state a b = scoreEntry proc.state a b := by
  induction rs with
  | nil =>
    intro proc a b _ _ _ _ _
    rfl
  | cons r rest ih =>
    intro proc a b ha0 ha1 hb0 hb1 hrs
    rw [processComparisonResults_cons]
    rw [ih _ a b ha0 ha1 hb0 hb1 (fun r2 h2 => hrs r2 (List.mem_cons_of_mem _ h2))]
    obtain ⟨h1, h2, h3, h4, h5⟩ := hrs r (List.mem_cons_self _ _)
    by_cases he : r.err.isNone = true
    · simp only [he, if_true]
      rw [(bucketResults_frame _ _ _ _).1]
      exact scoreEntry_SetComparisonScore_other proc.state a b r.frameID1 r.frameID2 r.score
        ha0 ha1 hb0 hb1 h1 h2 h3 h4 h5
    · simp only [he, if_false]
      rfl

/-! ## Lemmas: the marks set by `Unmatch` -/

/-- A Go `int` lies in the range of `int64`. -/
theorem toInt_bounds (u : Nat) :
    -9223372036854775808 ≤ toInt u ∧ toInt u < 9223372036854775808 := by
  unfold toInt
  have h := Nat.mod_lt u (show 0 < 18446744073709551616 by decide)
  split <;> omega

/-- The frame ID read from a persistent store is a Go `int`. -/
theorem knownID_bounds (st : State) (f : GoString) (id : Int) (hp : st.persistent = true)
    (h : knownID st f = some id) :
    -9223372036854775808 ≤ id ∧ id < 9223372036854775808 := by
  simp only [knownID, hp, if_true] at h
  cases hv : mapGet st.db (encodeFrameKey f) with
  | none =>
    rw [hv] at h
    cases h
  | some v =>
    rw [hv] at h
    simp only [Option.some_bind, decodeFrameValue] at h
    cases hu : Uint64 v with
    | none =>
      rw [hu] at h
      cases h
    | some u =>
      rw [hu] at h
      cases h
      exact toInt_bounds u

/-- The members of `knownPairs`. -/
theorem mem_knownPairs (st : State) (files : List GoString) (p : Int × Int) :
    p ∈ knownPairs st files ↔ ∃ i j, j < i ∧ i < files.length ∧
      knownID st (files.getD i []) = some p.1 ∧ knownID st (files.getD j []) = some p.2 := by
  unfold knownPairs
  simp only [List.mem_flatMap, List.mem_filterMap, List.mem_range]
  constructor
  · rintro ⟨i, hi, j, hj, hm⟩
    refine ⟨i, j, hj, hi, ?_⟩
    cases h1 : knownID st (files.getD i []) with
    | none => rw [h1] at hm; cases hm
    | some a =>
      cases h2 : knownID st (files.getD j []) with
      | none => rw [h1, h2] at hm; cases hm
      | some b =>
        rw [h1, h2] at hm
        cases hm
        exact ⟨rfl, rfl⟩
  · rintro ⟨i, j, hj, hi, h1, h2⟩
    exact ⟨i, hi, j, hj, by rw [h1, h2]⟩

/-- For frame IDs that are Go `int` values, a call was made for the score key
of a pair exactly when it was made for the pair, in either order. -/
theorem sameKeyCalled_eq_markedBy (calls : List (Int × Int)) (a b : Int)
    (ha0 : -9223372036854775808 ≤ a) (ha1 : a < 9223372036854775808)
    (hb0 : -9223372036854775808 ≤ b) (hb1 : b < 9223372036854775808)
    (hc : ∀ c ∈ calls, (-9223372036854775808 ≤ c.1 ∧ c.1 < 9223372036854775808) ∧
      (-9223372036854775808 ≤ c.2 ∧ c.2 < 9223372036854775808)) :
    sameKeyCalled calls a b = markedBy calls a b := by
  induction calls with
  | nil => rfl
  | cons c rest ih =>
    have hr := ih (fun c hc2 => hc c (List.mem_cons_of_mem _ hc2))
    obtain ⟨⟨c1, c2⟩, ⟨c3, c4⟩⟩ := hc c (List.mem_cons_self _ _)
    unfold sameKeyCalled markedBy at hr ⊢
    rw [List.any_cons, List.any_cons, hr]
    congr 1
    apply decide_eq_decide.mpr
    constructor
    · intro h
      exact encodeScoreKey_injective c.1 c.2 a b c1 c2 c3 c4 ha0 ha1 hb0 hb1 h
    · rintro (⟨h1, h2⟩ | ⟨h1, h2⟩)
      · rw [h1, h2]
      · rw [h1, h2]
        exact encodeScoreKey_comm b a

/-! ## The claims -/

/-- C1: score lookup is symmetric and uses one canonical key.  For every state
of the score cache (in memory or persistent) and all frame IDs `a`, `b`,
`GetComparisonScore a b` and `GetComparisonScore b a` give the same result,
`encodeScoreKey a b = encodeScoreKey b a`, and after
`SetComparisonScore a b s` the entry is found, with score `s`, under both
argument orders. -/
theorem C1_score_lookup_symmetric (st : State) (a b : Int) (s : float32) :
    GetComparisonScore st a b = GetComparisonScore st b a ∧
    encodeScoreKey a b = encodeScoreKey b a ∧
    GetComparisonScore (SetComparisonScore st a b s) a b = some (s, true) ∧
    GetComparisonScore (SetComparisonScore st a b s) b a = some (s, true) := by
  refine ⟨GetComparisonScore_comm st a b, encodeScoreKey_comm a b,
    GetComparisonScore_SetComparisonScore st a b s, ?_⟩
  rw [GetComparisonScore_comm]
  exact GetComparisonScore_SetComparisonScore st a b s

/-- C2: for every frame list of N pairwise-distinct frame IDs (and a score
cache whose lookups for these frames do not panic), `generateComparisonJobs`
runs to the end and considers exactly the pairs `(frames[i], frames[j])` for
`i` in `0..N-1` and `j` in `0..i-1`, in that nested ascending order; these are
`N*(N-1)/2` pairs, every unordered pair of distinct frames is considered
exactly once, at most one request is dispatched per unordered pair, and
`NumTotalComparisons` equals the number of pairs considered. -/
theorem C2_every_pair_considered_once (proc : Processor) (hnodup : proc.frames.Nodup)
    (hok : ∀ x ∈ proc.frames, ∀ y ∈ proc.frames,
      (GetComparisonScore proc.state x y).isSome = true) :
    ∃ proc1 trace, generateComparisonJobs proc = some (proc1, trace) ∧
      trace.map cmpEvent.pair = enumeratedPairs proc.frames ∧
      trace.length = proc.frames.length * (proc.frames.length - 1) / 2 ∧
      (∀ x ∈ proc.frames, ∀ y ∈ proc.frames, x ≠ y →
        (trace.map cmpEvent.pair).count (x, y) + (trace.map cmpEvent.pair).count (y, x) = 1) ∧
      (∀ x y, (requestsOf trace).count { frameID1 := x, frameID2 := y }
        + (requestsOf trace).count { frameID1 := y, frameID2 := x } ≤ 1) ∧
      proc1.stats.NumTotalComparisons = (trace.length : Int) := by
  obtain ⟨proc1, h1, _, _, htot, _⟩ := generateComparisonJobs_spec proc (fun p hp => by
    obtain ⟨hx, hy⟩ := mem_enumeratedPairs proc.frames p.1 p.2 hp
    exact hok _ hx _ hy)
  have hmap := map_eventFor_pair proc.state (enumeratedPairs proc.frames)
  have hlen : ((enumeratedPairs proc.frames).map (eventFor proc.state)).length
      = (enumeratedPairs proc.frames).length := List.length_map _ _
  obtain ⟨hdiv, hhalf⟩ := tdiv_pairs proc.frames.length (enumeratedPairs proc.frames).length
    (enumeratedPairs_length proc.frames)
  refine ⟨proc1, _, h1, hmap, by rw [hlen]; exact hhalf, ?_, ?_, by rw [htot, hdiv, hlen]⟩
  · intro x hx y hy hxy
    rw [hmap, count_enumeratedPairs proc.frames hnodup x y]
    simp [hxy, hx, hy]
  · intro x y
    have h2 := count_requestsOf_le ((enumeratedPairs proc.frames).map (eventFor proc.state)) x y
    have h3 := count_requestsOf_le ((enumeratedPairs proc.frames).map (eventFor proc.state)) y x
    rw [hmap] at h2 h3
    have h4 := count_enumeratedPairs proc.frames hnodup x y
    have h5 : (if x ≠ y ∧ x ∈ proc.frames ∧ y ∈ proc.frames then 1 else 0) ≤ 1 := by
      split <;> omega
    omega

/-- C2 at a concrete frame list: the frames 1, 2, 3 and an empty cache. -/
theorem C2_every_pair_considered_once_witness :
    ∃ proc1 trace, generateComparisonJobs procThreeFrames = some (proc1, trace) ∧
      trace.map cmpEvent.pair = enumeratedPairs procThreeFrames.frames ∧
      trace.length = procThreeFrames.frames.length * (procThreeFrames.frames.length - 1) / 2 ∧
      (∀ x ∈ procThreeFrames.frames, ∀ y ∈ procThreeFrames.frames, x ≠ y →
        (trace.map cmpEvent.pair).count (x, y) + (trace.map cmpEvent.pair).count (y, x) = 1) ∧
      (∀ x y, (requestsOf trace).count { frameID1 := x, frameID2 := y }
        + (requestsOf trace).count { frameID1 := y, frameID2 := x } ≤ 1) ∧
      proc1.stats.NumTotalComparisons = (trace.length : Int) :=
  C2_every_pair_considered_once procThreeFrames (by decide) (by decide)

/-- C3: idempotence of the comparison stage.  Let a first run of
`generateComparisonJobs` over pairwise-distinct frames end with the record
`trace1`, and let `processComparisonResults` consume responses among which
every dispatched request has one without error.  Then (general part) in the
first run a request was dispatched for a considered pair exactly when the
cache had no entry for it, and a second run over the same frame set, in any
order of enumeration, with the cache the first run left, runs to the end,
dispatches no request, and counts every one of the `N*(N-1)/2` pairs as a
cache hit. -/
theorem C3_second_run_all_cache_hits (proc proc1 proc2 : Processor) (trace1 : List cmpEvent)
    (responses : List fcmpResponse)
    (hnodup : proc.frames.Nodup)
    (hrun1 : generateComparisonJobs proc = some (proc1, trace1))
    (hresp : ∀ req ∈ requestsOf trace1, ∃ rsp ∈ responses,
      rsp.frameID1 = req.frameID1 ∧ rsp.frameID2 = req.frameID2 ∧ rsp.err = none)
    (hframes : proc2.frames.Perm proc.frames)
    (hstate : proc2.state = (processComparisonResults proc1 responses).state) :
    (∀ p ∈ enumeratedPairs proc.frames,
      (cmpEvent.request { frameID1 := p.1, frameID2 := p.2 } ∈ trace1 ↔
        ∃ v, GetComparisonScore proc.state p.1 p.2 = some (v, false))) ∧
    ∃ proc3 trace2, generateComparisonJobs proc2 = some (proc3, trace2) ∧
      requestsOf trace2 = [] ∧
      cacheHitsOf trace2 = trace2 ∧
      trace2.length = proc2.frames.length * (proc2.frames.length - 1) / 2 ∧
      proc3.stats.NumCacheHits = proc2.stats.NumCacheHits
        + ((proc2.frames.length * (proc2.frames.length - 1) / 2 : Nat) : Int) := by
  -- the first run did not panic, so it is described by `generateComparisonJobs_spec`
  have hsome : ∀ p ∈ enumeratedPairs proc.frames,
      (GetComparisonScore proc.state p.1 p.2).isSome = true := by
    have h := hrun1
    rw [generateComparisonJobs_eq_fold] at h
    have h2 := congrArg Option.isSome h
    exact fun p hp => compare_fold_isSome _ _ _ h2 p hp
  obtain ⟨q1, hq1, hst1, _, _, _⟩ := generateComparisonJobs_spec proc hsome
  rw [hrun1] at hq1
  have htrace : trace1 = (enumeratedPairs proc.frames).map (eventFor proc.state) := by
    injection hq1 with e
    exact (Prod.mk.inj e).2
  have hproc1 : proc1.state = proc.state := by
    injection hq1 with e
    rw [(Prod.mk.inj e).1]
    exact hst1
  -- the general part
  have hgen : ∀ p ∈ enumeratedPairs proc.frames,
      (cmpEvent.request { frameID1 := p.1, frameID2 := p.2 } ∈ trace1 ↔
        ∃ v, GetComparisonScore proc.state p.1 p.2 = some (v, false)) := by
    intro p hp
    rw [htrace, request_mem_map_eventFor proc.state _ p hp]
    have hs := hsome p hp
    rw [Option.isSome_iff_exists] at hs
    obtain ⟨⟨v, found⟩, hr⟩ := hs
    cases found
    · simp [eventFor, hr]
    · simp [eventFor, hr]
  -- after the first run every considered pair has an entry
  have hafter : ∀ p ∈ enumeratedPairs proc.frames,
      ∃ v, GetComparisonScore proc2.state p.1 p.2 = some (v, true) := by
    intro p hp
    rw [hstate]
    have hs := hsome p hp
    rw [Option.isSome_iff_exists] at hs
    obtain ⟨⟨v, found⟩, hr⟩ := hs
    cases found
    · have hreq : cmpEvent.request { frameID1 := p.1, frameID2 := p.2 } ∈ trace1 :=
        (hgen p hp).2 ⟨v, hr⟩
      obtain ⟨rsp, hmem, h1, h2, herr⟩ := hresp _ ((mem_requestsOf _ _).2 hreq)
      have := processComparisonResults_found responses proc1 rsp hmem herr
      rw [h1, h2] at this
      exact this
    · apply processComparisonResults_found_mono
      rw [hproc1]
      exact ⟨v, hr⟩
  -- the pairs of the second run are pairs of the first run, in one of the two orders
  have hnodup2 : proc2.frames.Nodup := hframes.nodup_iff.2 hnodup
  have hafter2 : ∀ p ∈ enumeratedPairs proc2.frames,
      ∃ v, GetComparisonScore proc2.state p.1 p.2 = some (v, true) := by
    intro p hp
    obtain ⟨hx, hy⟩ := mem_enumeratedPairs proc2.frames p.1 p.2 hp
    have hne := ne_of_mem_enumeratedPairs proc2.frames hnodup2 p.1 p.2 hp
    rcases mem_enumeratedPairs_or proc.frames hnodup p.1 p.2 (hframes.mem_iff.1 hx)
      (hframes.mem_iff.1 hy) hne with h | h
    · exact hafter _ h
    · rw [GetComparisonScore_comm]
      exact hafter _ h
  obtain ⟨proc3, h3, _, _, _, hhits⟩ := generateComparisonJobs_spec proc2 (fun p hp => by
    obtain ⟨v, hv⟩ := hafter2 p hp
    simp [hv])
  obtain ⟨hreq0, hall⟩ := all_hits_of_found proc2.state _ hafter2
  have hlen := (tdiv_pairs proc2.frames.length (enumeratedPairs proc2.frames).length
    (enumeratedPairs_length proc2.frames)).2
  refine ⟨hgen, proc3, _, h3, hreq0, hall, by rw [List.length_map]; exact hlen, ?_⟩
  rw [hhits, hall, List.length_map, hlen]

/-- C3 at a concrete run: the frames 1, 2, 3 start with an empty cache, all
three comparisons succeed, and the second run enumerates the frames as
3, 1, 2. -/
theorem C3_second_run_all_cache_hits_witness :
    (∀ p ∈ enumeratedPairs procThreeFrames.frames,
      (cmpEvent.request { frameID1 := p.1, frameID2 := p.2 }
          ∈ [cmpEvent.request ⟨2, 1⟩, cmpEvent.request ⟨3, 1⟩, cmpEvent.request ⟨3, 2⟩] ↔
        ∃ v, GetComparisonScore procThreeFrames.state p.1 p.2 = some (v, false))) ∧
    ∃ proc3 trace2, generateComparisonJobs procThreeFramesAgain = some (proc3, trace2) ∧
      requestsOf trace2 = [] ∧
      cacheHitsOf trace2 = trace2 ∧
      trace2.length
        = procThreeFramesAgain.frames.length * (procThreeFramesAgain.frames.length - 1) / 2 ∧
      proc3.stats.NumCacheHits = procThreeFramesAgain.stats.NumCacheHits
        + ((procThreeFramesAgain.frames.length
            * (procThreeFramesAgain.frames.length - 1) / 2 : Nat) : Int) :=
  C3_second_run_all_cache_hits procThreeFrames
    { procThreeFrames with
      stats := { procThreeFrames.stats with NumTotalComparisons := 3 } }
    procThreeFramesAgain
    [cmpEvent.request ⟨2, 1⟩, cmpEvent.request ⟨3, 1⟩, cmpEvent.request ⟨3, 2⟩]
    responsesThreeFrames (by decide) (by decide) (by decide) (by decide) (by rfl)

/-- C4, as stated, fails for a stored score of `+0.0`: in the persistent store
`storeZeroScore` the pair `(1, 2)` has the stored score zero; after
`UnmatchFrames 1 2 true` the lookup is found but returns `-0.0` (bit pattern
`0x80000000`), and `-0.0 < 0` is false in Go, so the value is not negative. -/
theorem C4_counterexample_zero_score :
    storeZeroScore.persistent = true ∧
    (mapGet storeZeroScore.db (encodeScoreKey 1 2)).bind decodeScoreData
      = some (float32.zero, false) ∧
    (UnmatchFrames storeZeroScore 1 2 true).bind (fun st => GetComparisonScore st 1 2)
      = some (float32.ofBits 2147483648, true) ∧
    float32.lt (float32.ofBits 2147483648) float32.zero = false := by
  decide

/-- C4 (amended): for every persistent store that holds a score entry `val`
for the pair `(a, b)` whose stored score `s` is greater than zero,
`UnmatchFrames` with the flag `true`, in either argument order, succeeds, and
afterwards `GetComparisonScore a b` and `GetComparisonScore b a` return
found = true with the value `-s`, which is less than zero and has the
magnitude of `s`; the stored value keeps its first four bytes (the score
pattern) and its length, and its flag byte is 1. -/
theorem C4_unmatch_negates_positive_score (st : State) (a b : Int) (val : List Byte)
    (s : float32) (flag : Bool)
    (hp : st.persistent = true)
    (hval : mapGet st.db (encodeScoreKey a b) = some val)
    (hs : decodeScoreData val = some (s, flag))
    (hpos : float32.lt float32.zero s = true) :
    ∃ st', UnmatchFrames st a b true = some st' ∧ UnmatchFrames st b a true = some st' ∧
      GetComparisonScore st' a b = some (s.neg, true) ∧
      GetComparisonScore st' b a = some (s.neg, true) ∧
      float32.lt s.neg float32.zero = true ∧ s.neg.magnitude = s.magnitude ∧
      ∃ val', mapGet st'.db (encodeScoreKey a b) = some val' ∧
        val'.take 4 = val.take 4 ∧ val'[4]? = some 1 ∧ val'.length = val.length := by
  obtain ⟨_, hdec, htake, hflag, hlen⟩ := decodeScoreData_set_flag val s flag true hs
  have hu := unmatchFramesPersistent_spec st a b val s flag hval hs
  have hget : GetComparisonScore
      { st with db := mapSet st.db (encodeScoreKey a b) (val.set 4 (boolToByte true)) } a b
      = some (s.neg, true) := by
    simp [GetComparisonScore, hp, getComparisonScorePersistent, mapGet_mapSet_same, hdec]
  refine ⟨_, ?_, ?_, hget, ?_, float32.neg_lt_zero_of_pos s hpos, float32.neg_magnitude s,
    val.set 4 (boolToByte true), ?_, htake, ?_, hlen⟩
  · simp [UnmatchFrames, hp, hu]
  · have hu2 := unmatchFramesPersistent_spec st b a val s flag
      (by rw [encodeScoreKey_comm b a]; exact hval) hs
    rw [encodeScoreKey_comm b a] at hu2
    simp [UnmatchFrames, hp, hu2]
  · rw [GetComparisonScore_comm]
    exact hget
  · exact mapGet_mapSet_same _ _ _
  · simpa [boolToByte] using hflag

/-- C4 (amended) at a concrete store: `storeSimilarScore` holds `ScoreSimilar`
for the pair `(1, 2)`. -/
theorem C4_unmatch_negates_positive_score_witness :
    ∃ st', UnmatchFrames storeSimilarScore 1 2 true = some st' ∧
      UnmatchFrames storeSimilarScore 2 1 true = some st' ∧
      GetComparisonScore st' 1 2 = some (ScoreSimilar.neg, true) ∧
      GetComparisonScore st' 2 1 = some (ScoreSimilar.neg, true) ∧
      float32.lt ScoreSimilar.neg float32.zero = true ∧
      ScoreSimilar.neg.magnitude = ScoreSimilar.magnitude ∧
      ∃ val', mapGet st'.db (encodeScoreKey 1 2) = some val' ∧
        val'.take 4 = [58, 131, 18, 111] ∧ val'[4]? = some 1 ∧ val'.length = 5 :=
  C4_unmatch_negates_positive_score storeSimilarScore 1 2 [58, 131, 18, 111, 0] ScoreSimilar
    false (by decide) (by decide) (by decide) (by decide)

/-- C5, as stated, fails for a large store, where the `float32` quotient of
the gate rounds up to the threshold: the store `storeManyFrames 22400008` has
22400008 frame records of which 8960003 refer to existing files, which is
fewer than 40%, yet the gate does not abort and `CompactDataStore` deletes the
frame record of a missing file (the path that encodes 8960003). -/
theorem C5_counterexample_float32_rounding :
    (storeManyFrames 22400008).persistent = true ∧
    (recordsWithPrefix (storeManyFrames 22400008).db framePrefix).length = 22400008 ∧
    (recordsWithPrefix (storeManyFrames 22400008).db framePrefix).countP
      (fun item => !(envManyFiles 8960003).statNotExist (decodeFrameKey item.1)) = 8960003 ∧
    5 * 8960003 < 2 * 22400008 ∧
    compactionAborts 22400008 8960003 = false ∧
    (encodeFrameKey (PutUint64 8960003), encodeFrameValue 8960004)
      ∈ (storeManyFrames 22400008).db ∧
    ∃ st' removed, CompactDataStore (envManyFiles 8960003) (storeManyFrames 22400008)
        = some (st', removed, none) ∧
      (encodeFrameKey (PutUint64 8960003), encodeFrameValue 8960004) ∉ st'.db := by
  have hc := storeManyFrames_counts 22400008 8960003 (by decide) (by decide)
  rw [countFrameEntries_eq] at hc
  have h := storeManyFrames_compacted 22400008 8960003 (by decide) (by decide) (by decide)
  have e : ((8960003 : Nat) : Int) + 1 = 8960004 := by norm_num
  rw [e] at h
  obtain ⟨hc1, hc2⟩ := Prod.mk.inj hc
  exact ⟨rfl, hc1, hc2, by decide, by decide, h.1, h.2⟩

/-- C5 (amended): compaction safety gate.  For every persistent store with at
least one and fewer than `2^24` frame records in which fewer than 40% of the
referenced files exist, `CompactDataStore` deletes nothing: it returns the
store as it was (frame records and score records unchanged), removes no
thumbnail file, and returns no error. -/
theorem C5_safety_gate_deletes_nothing (env : Env) (state : State)
    (hp : state.persistent = true)
    (hone : 1 ≤ (recordsWithPrefix state.db framePrefix).length)
    (hsmall : (recordsWithPrefix state.db framePrefix).length < 16777216)
    (hfew : 5 * (recordsWithPrefix state.db framePrefix).countP
        (fun item => !env.statNotExist (decodeFrameKey item.1))
      < 2 * (recordsWithPrefix state.db framePrefix).length) :
    CompactDataStore env state = some (state, [], none) := by
  have hgate := compactionAborts_of_lt _ _ hsmall hfew
  have hn : (recordsWithPrefix state.db framePrefix).length ≠ 0 := by omega
  simp [CompactDataStore, hp, countFrameEntries_eq, hn, hgate]

/-- C5 (amended) at a concrete store: ten frame records, three existing files. -/
theorem C5_safety_gate_deletes_nothing_witness :
    CompactDataStore (envExisting 3) storeTenFrames = some (storeTenFrames, [], none) :=
  C5_safety_gate_deletes_nothing (envExisting 3) storeTenFrames (by decide) (by decide)
    (by decide) (by decide)

/-- C6, as stated, fails for a large store, where the `float32` quotient of
the gate rounds down below the threshold: the store
`storeManyFrames 16777227` has 16777227 frame records of which 6710891 refer to
existing files, which is at least 40%, yet the gate aborts: `CompactDataStore`
returns the store as it was, with the frame record of a missing file (the path
that encodes 6710891) still in it. -/
theorem C6_counterexample_gate_aborts :
    (storeManyFrames 16777227).persistent = true ∧
    (recordsWithPrefix (storeManyFrames 16777227).db framePrefix).length = 16777227 ∧
    (recordsWithPrefix (storeManyFrames 16777227).db framePrefix).countP
      (fun item => !(envManyFiles 6710891).statNotExist (decodeFrameKey item.1)) = 6710891 ∧
    2 * 16777227 ≤ 5 * 6710891 ∧
    compactionAborts 16777227 6710891 = true ∧
    (encodeFrameKey (PutUint64 6710891), encodeFrameValue 6710892)
      ∈ (storeManyFrames 16777227).db ∧
    (envManyFiles 6710891).statNotExist (PutUint64 6710891) = true ∧
    CompactDataStore (envManyFiles 6710891) (storeManyFrames 16777227)
      = some (storeManyFrames 16777227, [], none) := by
  have hcount := storeManyFrames_counts 16777227 6710891 (by decide) (by decide)
  have hc := hcount
  rw [countFrameEntries_eq] at hc
  obtain ⟨hc1, hc2⟩ := Prod.mk.inj hc
  have hgate : compactionAborts 16777227 6710891 = true := by decide
  have hmem : (encodeFrameKey (PutUint64 6710891), encodeFrameValue ((6710891 : Nat) + 1 : Int))
      ∈ (storeManyFrames 16777227).db := by
    simp only [storeManyFrames, List.mem_map, List.mem_range]
    exact ⟨6710891, by decide, rfl⟩
  have e : ((6710891 : Nat) : Int) + 1 = 6710892 := by norm_num
  rw [e] at hmem
  have hstat : (envManyFiles 6710891).statNotExist (PutUint64 6710891) = true := by
    have hr := Uint64_PutUint64 6710891 (by decide) []
    rw [List.append_nil] at hr
    simp [envManyFiles, hr]
  refine ⟨rfl, hc1, hc2, by decide, hgate, hmem, hstat, ?_⟩
  have hp : (storeManyFrames 16777227).persistent = true := rfl
  simp [CompactDataStore, hp, hcount, hgate]

/-- C6 (amended): for every persistent store with fewer than `2^24` frame
records in which at least 40% of the referenced files exist, when the store
refuses none of the deletions of step 2, that is, it accepts the deletion of
each frame record of a missing file, in key order, in the transaction that
holds the deletions of those before it (and the frame values and score keys
are long enough to decode), `CompactDataStore` runs to the end without error;
afterwards
a frame record for a path `p` is in the store if and only if it was in the
store before and the file `p` exists; and the surviving-FrameID set
`validFrames` collected in step 2 is exactly the set of frame IDs of the
records that remain. -/
theorem C6_compaction_removes_missing_frames (env : Env) (state : State)
    (hp : state.persistent = true)
    (hsmall : (recordsWithPrefix state.db framePrefix).length < 16777216)
    (hmost : 2 * (recordsWithPrefix state.db framePrefix).length
      ≤ 5 * (recordsWithPrefix state.db framePrefix).countP
        (fun item => !env.statNotExist (decodeFrameKey item.1)))
    (hdel : ∀ pre key post,
      ((recordsWithPrefix state.db framePrefix).filter
        (fun item => env.statNotExist (decodeFrameKey item.1))).map Prod.fst
        = pre ++ key :: post →
      env.txnDeleteFails pre key = false)
    (hwfF : ∀ item ∈ recordsWithPrefix state.db framePrefix,
      env.statNotExist (decodeFrameKey item.1) = false → 8 ≤ item.2.length)
    (hwfS : ∀ item ∈ recordsWithPrefix state.db scorePrefix, 18 ≤ item.1.length) :
    ∃ st' removed db2 validFrames validImages,
      CompactDataStore env state = some (st', removed, none) ∧
      compactFrames env state = some (db2, validFrames, validImages) ∧
      (∀ p v, (encodeFrameKey p, v) ∈ st'.db ↔
        ((encodeFrameKey p, v) ∈ state.db ∧ env.statNotExist p = false)) ∧
      (∀ id, (mapGet validFrames id).getD false = true ↔
        ∃ p v, (encodeFrameKey p, v) ∈ st'.db ∧ decodeFrameValue v = some id) := by
  refine CompactDataStore_frames env state hp (fun hn => ?_) hwfF hwfS hdel
  rw [countFrameEntries_eq] at hn ⊢
  exact compactionAborts_of_ge _ _ (Nat.pos_of_ne_zero hn) hsmall (List.countP_le_length _) hmost

/-- C6 (amended) at a concrete store: ten frame records, five existing files;
the records of the paths `[1]` to `[5]` remain. -/
theorem C6_compaction_removes_missing_frames_witness :
    (recordsWithPrefix storeTenFrames.db framePrefix).length = 10 ∧
    (recordsWithPrefix storeTenFrames.db framePrefix).countP
      (fun item => !(envExisting 5).statNotExist (decodeFrameKey item.1)) = 5 ∧
    (CompactDataStore (envExisting 5) storeTenFrames).map
        (fun r => (recordsWithPrefix r.1.db framePrefix).map (fun e => decodeFrameKey e.1))
      = some [[1], [2], [3], [4], [5]] ∧
    ∃ st' removed db2 validFrames validImages,
      CompactDataStore (envExisting 5) storeTenFrames = some (st', removed, none) ∧
      compactFrames (envExisting 5) storeTenFrames = some (db2, validFrames, validImages) ∧
      (∀ p v, (encodeFrameKey p, v) ∈ st'.db ↔
        ((encodeFrameKey p, v) ∈ storeTenFrames.db ∧ (envExisting 5).statNotExist p = false)) ∧
      (∀ id, (mapGet validFrames id).getD false = true ↔
        ∃ p v, (encodeFrameKey p, v) ∈ st'.db ∧ decodeFrameValue v = some id) :=
  ⟨by decide, by decide, by decide,
    C6_compaction_removes_missing_frames (envExisting 5) storeTenFrames (by decide) (by decide)
      (by decide) (fun _ _ _ _ => rfl) (by decide) (by decide)⟩

/-- C7, the code at a failing input: in `storeTenFrames` with the files 1 to 5
existing the gate passes (5 of 10), the frame record of path `[9]` is deleted,
so frame 9 is not in the surviving set, and yet the score record of the pair
`(1, 9)` is still in the store after `CompactDataStore`, with its value: its
deletion sat in the write batch, which is cancelled without a flush.  The
score record of the pair `(1, 2)`, whose frames both survive, is kept. -/
theorem C7_stale_score_record_survives :
    compactionAborts (countFrameEntries (envExisting 5) storeTenFrames.db).1
      (countFrameEntries (envExisting 5) storeTenFrames.db).2 = false ∧
    (compactFrames (envExisting 5) storeTenFrames).map (fun r => mapGet r.2.1 9) = some none ∧
    (CompactDataStore (envExisting 5) storeTenFrames).map
        (fun r => (mapGet r.1.db (encodeFrameKey [9]), mapGet r.1.db (encodeScoreKey 1 9),
          mapGet r.1.db (encodeScoreKey 1 2)))
      = some (none, some [63, 128, 0, 0, 0], some [58, 131, 18, 111, 0]) := by
  decide

/-- C8: for every bucket state in which neither `frameID1` nor `frameID2` is
assigned and every score `s` with `0 <= s <= 0.5`, `bucketResults` assigns both
frames to the bucket numbered by the previous `nextBucket`, increments
`nextBucket` by one, and that bucket number was assigned to no frame before.
The bucket state is one in which every identifier in use lies below
`nextBucket`, as holds initially and after every call. -/
theorem C8_neither_assigned_new_bucket (proc : Processor) (frameID1 frameID2 : Int)
    (s : float32) (hinv : bucketsBelowNext proc)
    (h1 : mapGet proc.frameBuckets frameID1 = none)
    (h2 : mapGet proc.frameBuckets frameID2 = none)
    (hs0 : float32.le float32.zero s = true)
    (hs1 : float32.le s SimilarityThreshold = true) :
    mapGet (bucketResults proc frameID1 frameID2 s).frameBuckets frameID1
      = some proc.nextBucket ∧
    mapGet (bucketResults proc frameID1 frameID2 s).frameBuckets frameID2
      = some proc.nextBucket ∧
    (bucketResults proc frameID1 frameID2 s).nextBucket = proc.nextBucket + 1 ∧
    (∀ f, mapGet proc.frameBuckets f ≠ some proc.nextBucket) := by
  rw [bucketResults_match proc frameID1 frameID2 s hs0 hs1]
  simp only [h1, h2, newBucket]
  refine ⟨mapGet_mapSet_mapSet_fst _ _ _ _, mapGet_mapSet_same _ _ _, trivial, ?_⟩
  intro f hf
  have := hinv _ (mem_of_mapGet _ _ _ hf)
  simp at this

/-- C8 at a concrete state: frames 2 and 3 are unassigned in `procOneBucket`. -/
theorem C8_neither_assigned_new_bucket_witness :
    mapGet (bucketResults procOneBucket 2 3 ScoreSimilar).frameBuckets 2 = some 2 ∧
    mapGet (bucketResults procOneBucket 2 3 ScoreSimilar).frameBuckets 3 = some 2 ∧
    (bucketResults procOneBucket 2 3 ScoreSimilar).nextBucket = 2 + 1 ∧
    (∀ f, mapGet procOneBucket.frameBuckets f ≠ some 2) :=
  C8_neither_assigned_new_bucket procOneBucket 2 3 ScoreSimilar
    (by unfold bucketsBelowNext; decide) (by decide) (by decide) (by decide) (by decide)

/-- C9: for every bucket state in which exactly one of `frameID1`, `frameID2`
is assigned, to a bucket `B`, and every score `s` with `0 <= s <= 0.5`,
`bucketResults` leaves both frames in `B`, whichever of the two arguments was
the assigned one, creates no bucket (`nextBucket` is unchanged) and changes
the assignment of no other frame. -/
theorem C9_one_assigned_joins_bucket (proc : Processor) (frameID1 frameID2 B : Int)
    (s : float32)
    (h : (mapGet proc.frameBuckets frameID1 = some B ∧
            mapGet proc.frameBuckets frameID2 = none) ∨
         (mapGet proc.frameBuckets frameID1 = none ∧
            mapGet proc.frameBuckets frameID2 = some B))
    (hs0 : float32.le float32.zero s = true)
    (hs1 : float32.le s SimilarityThreshold = true) :
    mapGet (bucketResults proc frameID1 frameID2 s).frameBuckets frameID1 = some B ∧
    mapGet (bucketResults proc frameID1 frameID2 s).frameBuckets frameID2 = some B ∧
    (bucketResults proc frameID1 frameID2 s).nextBucket = proc.nextBucket ∧
    (∀ f, f ≠ frameID1 → f ≠ frameID2 →
      mapGet (bucketResults proc frameID1 frameID2 s).frameBuckets f
        = mapGet proc.frameBuckets f) := by
  rw [bucketResults_match proc frameID1 frameID2 s hs0 hs1]
  rcases h with ⟨h1, h2⟩ | ⟨h1, h2⟩ <;> simp only [h1, h2] <;>
    refine ⟨mapGet_mapSet_mapSet_fst _ _ _ _, mapGet_mapSet_same _ _ _, trivial, ?_⟩ <;>
    intro f hf1 hf2 <;>
    rw [mapGet_mapSet_other _ _ _ _ (Ne.symm hf2), mapGet_mapSet_other _ _ _ _ (Ne.symm hf1)]

/-- C9 at a concrete state: in `procOneBucket` frame 1 is in bucket 1 and frame
2 is unassigned; frame 2 is the first argument here. -/
theorem C9_one_assigned_joins_bucket_witness :
    mapGet (bucketResults procOneBucket 2 1 ScoreSimilar).frameBuckets 2 = some 1 ∧
    mapGet (bucketResults procOneBucket 2 1 ScoreSimilar).frameBuckets 1 = some 1 ∧
    (bucketResults procOneBucket 2 1 ScoreSimilar).nextBucket = procOneBucket.nextBucket ∧
    (∀ f, f ≠ 2 → f ≠ 1 →
      mapGet (bucketResults procOneBucket 2 1 ScoreSimilar).frameBuckets f
        = mapGet procOneBucket.frameBuckets f) :=
  C9_one_assigned_joins_bucket procOneBucket 2 1 1 ScoreSimilar
    (Or.inr ⟨by decide, by decide⟩) (by decide) (by decide)

/-- C10, as stated, fails when the two frames are in different buckets: in
`procTwoBuckets` frame 1 is in bucket 1 and frame 2 in bucket 2; after
`bucketResults 1 2 ScoreSimilar` frame 2 is in bucket 1, so the map has
changed and an assigned frame has changed its bucket. -/
theorem C10_counterexample_reassignment :
    mapGet procTwoBuckets.frameBuckets 1 = some 1 ∧
    mapGet procTwoBuckets.frameBuckets 2 = some 2 ∧
    float32.le float32.zero ScoreSimilar = true ∧
    float32.le ScoreSimilar SimilarityThreshold = true ∧
    mapGet (bucketResults procTwoBuckets 1 2 ScoreSimilar).frameBuckets 2 = some 1 ∧
    (bucketResults procTwoBuckets 1 2 ScoreSimilar).frameBuckets
      ≠ procTwoBuckets.frameBuckets := by
  decide

/-- C10 (amended): for every bucket state in which `frameID1` is assigned to a
bucket `B1` and `frameID2` to a bucket `B2`, and every score `s` with
`0 <= s <= 0.5`, `bucketResults` creates no bucket, leaves `frameID1` in `B1`
and every frame other than `frameID2` where it was, and assigns `frameID2` to
`B1`; no other member of `B2` is moved (no merge), and when `B1 = B2` the
frame-to-bucket map after the call equals the map before the call. -/
theorem C10_both_assigned_no_merge (proc : Processor) (frameID1 frameID2 B1 B2 : Int)
    (s : float32)
    (h1 : mapGet proc.frameBuckets frameID1 = some B1)
    (h2 : mapGet proc.frameBuckets frameID2 = some B2)
    (hs0 : float32.le float32.zero s = true)
    (hs1 : float32.le s SimilarityThreshold = true) :
    (bucketResults proc frameID1 frameID2 s).nextBucket = proc.nextBucket ∧
    mapGet (bucketResults proc frameID1 frameID2 s).frameBuckets frameID1 = some B1 ∧
    mapGet (bucketResults proc frameID1 frameID2 s).frameBuckets frameID2 = some B1 ∧
    (∀ f, f ≠ frameID2 →
      mapGet (bucketResults proc frameID1 frameID2 s).frameBuckets f
        = mapGet proc.frameBuckets f) ∧
    (B1 = B2 → (bucketResults proc frameID1 frameID2 s).frameBuckets = proc.frameBuckets) := by
  rw [bucketResults_match proc frameID1 frameID2 s hs0 hs1]
  simp only [h1]
  have e1 : mapSet proc.frameBuckets frameID1 B1 = proc.frameBuckets :=
    mapSet_of_mapGet _ _ _ h1
  rw [e1]
  refine ⟨trivial, ?_, mapGet_mapSet_same _ _ _, ?_, ?_⟩
  · by_cases hf : frameID2 = frameID1
    · subst hf
      exact mapGet_mapSet_same _ _ _
    · rw [mapGet_mapSet_other _ _ _ _ hf]
      exact h1
  · intro f hf
    exact mapGet_mapSet_other _ _ _ _ (Ne.symm hf)
  · intro hB
    subst hB
    exact mapSet_of_mapGet _ _ _ h2

/-- C10 (amended) at a concrete state: `procTwoBuckets`, frames 1 and 2. -/
theorem C10_both_assigned_no_merge_witness :
    (bucketResults procTwoBuckets 1 2 ScoreSimilar).nextBucket = procTwoBuckets.nextBucket ∧
    mapGet (bucketResults procTwoBuckets 1 2 ScoreSimilar).frameBuckets 1 = some 1 ∧
    mapGet (bucketResults procTwoBuckets 1 2 ScoreSimilar).frameBuckets 2 = some 1 ∧
    (∀ f, f ≠ 2 →
      mapGet (bucketResults procTwoBuckets 1 2 ScoreSimilar).frameBuckets f
        = mapGet procTwoBuckets.frameBuckets f) ∧
    ((1 : Int) = 2 →
      (bucketResults procTwoBuckets 1 2 ScoreSimilar).frameBuckets
        = procTwoBuckets.frameBuckets) :=
  C10_both_assigned_no_merge procTwoBuckets 1 2 1 2 ScoreSimilar (by decide) (by decide)
    (by decide) (by decide)

/-- C11: greedy bucketing end to end on three frames.  From an empty bucket
state with the frame list `[X, Y, Z]` of distinct frames and the cached scores
`score(X,Y) = ScoreSimilar`, `score(X,Z) = ScoreDifferent`,
`score(Y,Z) = ScoreSimilar`, `generateComparisonJobs` considers the pairs
`{X,Y}`, `{X,Z}`, `{Y,Z}` in this order and consumes all three as cache hits;
afterwards `X`, `Y` and `Z` are in one and the same bucket, the one numbered
by the initial `nextBucket`, and it is the only bucket created.  The same holds
when `bucketResults` consumes the three signals directly in this order. -/
theorem C11_three_frames_one_bucket (proc : Processor) (X Y Z : Int)
    (hXY : X ≠ Y) (hXZ : X ≠ Z) (hYZ : Y ≠ Z)
    (hframes : proc.frames = [X, Y, Z]) (hempty : proc.frameBuckets = [])
    (sXY : GetComparisonScore proc.state X Y = some (ScoreSimilar, true))
    (sXZ : GetComparisonScore proc.state X Z = some (ScoreDifferent, true))
    (sYZ : GetComparisonScore proc.state Y Z = some (ScoreSimilar, true)) :
    (∃ proc1 trace, generateComparisonJobs proc = some (proc1, trace) ∧
      trace.map cmpEvent.pair = [(Y, X), (Z, X), (Z, Y)] ∧
      requestsOf trace = [] ∧
      mapGet proc1.frameBuckets X = some proc.nextBucket ∧
      mapGet proc1.frameBuckets Y = some proc.nextBucket ∧
      mapGet proc1.frameBuckets Z = some proc.nextBucket ∧
      proc1.nextBucket = proc.nextBucket + 1) ∧
    (mapGet (bucketResults (bucketResults (bucketResults proc X Y ScoreSimilar)
        X Z ScoreDifferent) Y Z ScoreSimilar).frameBuckets X = some proc.nextBucket ∧
      mapGet (bucketResults (bucketResults (bucketResults proc X Y ScoreSimilar)
        X Z ScoreDifferent) Y Z ScoreSimilar).frameBuckets Y = some proc.nextBucket ∧
      mapGet (bucketResults (bucketResults (bucketResults proc X Y ScoreSimilar)
        X Z ScoreDifferent) Y Z ScoreSimilar).frameBuckets Z = some proc.nextBucket ∧
      (bucketResults (bucketResults (bucketResults proc X Y ScoreSimilar)
        X Z ScoreDifferent) Y Z ScoreSimilar).nextBucket = proc.nextBucket + 1) := by
  have hpairs : enumeratedPairs proc.frames = [(Y, X), (Z, X), (Z, Y)] := by
    rw [hframes]
    rfl
  have sYX := sXY
  have sZX := sXZ
  have sZY := sYZ
  rw [GetComparisonScore_comm] at sYX sZX sZY
  constructor
  · obtain ⟨proc1, h1, _, _, _, _⟩ := generateComparisonJobs_spec proc (by
      rw [hpairs]
      intro p hp
      simp only [List.mem_cons, List.mem_singleton, List.not_mem_nil, or_false] at hp
      rcases hp with rfl | rfl | rfl
      · simp [sYX]
      · simp [sZX]
      · simp [sZY])
    have hb := generateComparisonJobs_buckets proc proc1 _ h1
    rw [hpairs] at hb h1
    simp only [List.foldl_cons, List.foldl_nil, consumeCached, sYX, sZX, sZY, hempty] at hb
    obtain ⟨fb, hfb, hX, hY, hZ⟩ := three_frames_one_bucket proc.IgnoreFalsePositives
      proc.nextBucket Y X Z X Z Y X Y Z hXY hXZ hYZ (Or.inr ⟨rfl, rfl⟩) (Or.inr ⟨rfl, rfl⟩)
      (Or.inr ⟨rfl, rfl⟩)
    rw [hfb] at hb
    obtain ⟨hb1, hb2⟩ := Prod.mk.inj hb
    refine ⟨proc1, _, h1, ?_, ?_, ?_, ?_, ?_, hb2⟩
    · simp [eventFor, sYX, sZX, sZY, cmpEvent.pair]
    · simp [eventFor, sYX, sZX, sZY, requestsOf]
    · rw [hb1]; exact hX
    · rw [hb1]; exact hY
    · rw [hb1]; exact hZ
  · obtain ⟨fb, hfb, hX, hY, hZ⟩ := three_frames_one_bucket proc.IgnoreFalsePositives
      proc.nextBucket X Y X Z Y Z X Y Z hXY hXZ hYZ (Or.inl ⟨rfl, rfl⟩) (Or.inl ⟨rfl, rfl⟩)
      (Or.inl ⟨rfl, rfl⟩)
    have e := bucketResults_bucketStep
      (bucketResults (bucketResults proc X Y ScoreSimilar) X Z ScoreDifferent) Y Z ScoreSimilar
    rw [(bucketResults_frame _ _ _ _).2.2.1,
      bucketResults_bucketStep (bucketResults proc X Y ScoreSimilar) X Z ScoreDifferent,
      (bucketResults_frame _ _ _ _).2.2.1,
      bucketResults_bucketStep proc X Y ScoreSimilar, hempty, hfb] at e
    obtain ⟨e1, e2⟩ := Prod.mk.inj e
    rw [e1, e2]
    exact ⟨hX, hY, hZ, rfl⟩

/-- C11 at the frames 10, 20, 30 of `procChain`. -/
theorem C11_three_frames_one_bucket_witness :
    (∃ proc1 trace, generateComparisonJobs procChain = some (proc1, trace) ∧
      trace.map cmpEvent.pair = [(20, 10), (30, 10), (30, 20)] ∧
      requestsOf trace = [] ∧
      mapGet proc1.frameBuckets 10 = some procChain.nextBucket ∧
      mapGet proc1.frameBuckets 20 = some procChain.nextBucket ∧
      mapGet proc1.frameBuckets 30 = some procChain.nextBucket ∧
      proc1.nextBucket = procChain.nextBucket + 1) ∧
    (mapGet (bucketResults (bucketResults (bucketResults procChain 10 20 ScoreSimilar)
        10 30 ScoreDifferent) 20 30 ScoreSimilar).frameBuckets 10 = some procChain.nextBucket ∧
      mapGet (bucketResults (bucketResults (bucketResults procChain 10 20 ScoreSimilar)
        10 30 ScoreDifferent) 20 30 ScoreSimilar).frameBuckets 20 = some procChain.nextBucket ∧
      mapGet (bucketResults (bucketResults (bucketResults procChain 10 20 ScoreSimilar)
        10 30 ScoreDifferent) 20 30 ScoreSimilar).frameBuckets 30 = some procChain.nextBucket ∧
      (bucketResults (bucketResults (bucketResults procChain 10 20 ScoreSimilar)
        10 30 ScoreDifferent) 20 30 ScoreSimilar).nextBucket = procChain.nextBucket + 1) :=
  C11_three_frames_one_bucket procChain 10 20 30 (by decide) (by decide) (by decide)
    (by decide) (by decide) (by decide) (by decide) (by decide)

/-- C12: FrameID value round trip.  For every integer `n` with
`1 <= n <= 2^63 - 1`, `encodeFrameValue n` has eight bytes, denotes `n` as a
big-endian unsigned integer, and `decodeFrameValue` gives `n` back. -/
theorem C12_frame_value_round_trip (n : Int) (h1 : 1 ≤ n) (h2 : n ≤ 9223372036854775807) :
    (encodeFrameValue n).length = 8 ∧
    (bigEndianValue (encodeFrameValue n) : Int) = n ∧
    decodeFrameValue (encodeFrameValue n) = some n := by
  refine ⟨by simp [encodeFrameValue, PutUint64], ?_,
    decodeFrameValue_encodeFrameValue n (by omega) (by omega)⟩
  unfold encodeFrameValue
  rw [bigEndianValue_PutUint64 _ (toUint64_lt n), toUint64_of_nonneg n (by omega) (by omega)]
  omega

/-- C12 at the largest frame ID, `2^63 - 1`. -/
theorem C12_frame_value_round_trip_witness :
    (encodeFrameValue 9223372036854775807).length = 8 ∧
    (bigEndianValue (encodeFrameValue 9223372036854775807) : Int) = 9223372036854775807 ∧
    decodeFrameValue (encodeFrameValue 9223372036854775807) = some 9223372036854775807 :=
  C12_frame_value_round_trip 9223372036854775807 (by decide) (by decide)

/-- C13: score value round trip.  For every `float32` bit pattern (NaN
patterns, infinities and negative zero included) and every boolean `fp`,
`encodeScoreData` returns no error and exactly five bytes: the four bytes that
denote the bit pattern as a big-endian unsigned integer, then one byte that is
1 if `fp` and 0 otherwise; `decodeScoreData` of these bytes returns the score
with the same bit pattern and the flag `fp`. -/
theorem C13_score_value_round_trip (score : float32) (fp : Bool) :
    ∃ bytes, encodeScoreData score fp = Except.ok bytes ∧
      bytes.length = 5 ∧
      bytes.take 4 = PutUint32 score.bits ∧
      bigEndianValue (bytes.take 4) = score.bits.val ∧
      bytes.drop 4 = [if fp then 1 else 0] ∧
      decodeScoreData bytes = some (score, fp) := by
  refine ⟨_, rfl, by simp [PutUint32], ?_, ?_, ?_, decodeScoreData_encoded score fp⟩
  · simp [PutUint32, Float32bits]
  · have : (PutUint32 (Float32bits score) ++ [boolToByte fp]).take 4 = PutUint32 score.bits := by
      simp [PutUint32, Float32bits]
    rw [this, bigEndianValue_PutUint32]
  · cases fp <;> simp [PutUint32, boolToByte]

/-- C14: score key layout.  For all frame IDs `a`, `b` in `[0, 2^63 - 1]`,
`encodeScoreKey a b` is the 18-byte string made of the two bytes `"s:"`, the
8-byte big-endian encoding of `min a b` and the 8-byte big-endian encoding of
`max a b`; `decodeScoreKey` of it is `(min a b, max a b)`; and two pairs with
the same key are the same unordered pair. -/
theorem C14_score_key_layout (a b : Int) (ha0 : 0 ≤ a) (ha : a ≤ 9223372036854775807)
    (hb0 : 0 ≤ b) (hb : b ≤ 9223372036854775807) :
    encodeScoreKey a b
      = [115, 58] ++ PutUint64 (min a b).toNat ++ PutUint64 (max a b).toNat ∧
    (encodeScoreKey a b).length = 18 ∧
    bigEndianValue (PutUint64 (min a b).toNat) = (min a b).toNat ∧
    bigEndianValue (PutUint64 (max a b).toNat) = (max a b).toNat ∧
    decodeScoreKey (encodeScoreKey a b) = some (min a b, max a b) ∧
    (∀ c d : Int, 0 ≤ c → c ≤ 9223372036854775807 → 0 ≤ d → d ≤ 9223372036854775807 →
      encodeScoreKey a b = encodeScoreKey c d → (a = c ∧ b = d) ∨ (a = d ∧ b = c)) := by
  have key : ∀ x y : Int, 0 ≤ x → x ≤ 9223372036854775807 → 0 ≤ y → y ≤ 9223372036854775807 →
      encodeScoreKey x y
        = scorePrefix ++ PutUint64 (min x y).toNat ++ PutUint64 (max x y).toNat := by
    intro x y hx0 hx hy0 hy
    unfold encodeScoreKey
    rw [toUint64_of_nonneg x hx0 (by omega), toUint64_of_nonneg y hy0 (by omega)]
    by_cases h : x > y
    · rw [if_pos h, min_eq_right (by omega), max_eq_left (by omega)]
    · rw [if_neg h, min_eq_left (by omega), max_eq_right (by omega)]
  have hmin : (min a b).toNat < 18446744073709551616 := by
    rcases min_choice a b with h | h <;> rw [h] <;> omega
  have hmax : (max a b).toNat < 18446744073709551616 := by
    rcases max_choice a b with h | h <;> rw [h] <;> omega
  have hmin0 : 0 ≤ min a b := le_min ha0 hb0
  have hmax0 : 0 ≤ max a b := le_trans ha0 (le_max_left a b)
  refine ⟨key a b ha0 ha hb0 hb, ?_, bigEndianValue_PutUint64 _ hmin,
    bigEndianValue_PutUint64 _ hmax, ?_, ?_⟩
  · rw [key a b ha0 ha hb0 hb]
    simp [scorePrefix, PutUint64]
  · rw [key a b ha0 ha hb0 hb, decodeScoreKey_encoded _ _ hmin hmax]
    have e1 : toInt (min a b).toNat = min a b := by
      unfold toInt
      have : (min a b).toNat < 9223372036854775808 := by
        rcases min_choice a b with h | h <;> rw [h] <;> omega
      have h2 : (min a b).toNat % 18446744073709551616 = (min a b).toNat := Nat.mod_eq_of_lt hmin
      rw [h2, if_pos this]
      omega
    have e2 : toInt (max a b).toNat = max a b := by
      unfold toInt
      have : (max a b).toNat < 9223372036854775808 := by
        rcases max_choice a b with h | h <;> rw [h] <;> omega
      have h2 : (max a b).toNat % 18446744073709551616 = (max a b).toNat := Nat.mod_eq_of_lt hmax
      rw [h2, if_pos this]
      omega
    rw [e1, e2]
  · intro c d hc0 hc hd0 hd heq
    rw [key a b ha0 ha hb0 hb, key c d hc0 hc hd0 hd] at heq
    have hcmin : (min c d).toNat < 18446744073709551616 := by
      rcases min_choice c d with h | h <;> rw [h] <;> omega
    have hcmax : (max c d).toNat < 18446744073709551616 := by
      rcases max_choice c d with h | h <;> rw [h] <;> omega
    have hlen : (PutUint64 (min a b).toNat).length = (PutUint64 (min c d).toNat).length := by
      simp [PutUint64]
    rw [List.append_assoc, List.append_assoc] at heq
    have h1 := List.append_cancel_left heq
    have h2 := List.append_inj h1 hlen
    have e1 := PutUint64_injective _ _ hmin hcmin h2.1
    have e2 := PutUint64_injective _ _ hmax hcmax h2.2
    have hcmin0 : 0 ≤ min c d := le_min hc0 hd0
    have hcmax0 : 0 ≤ max c d := le_trans hc0 (le_max_left c d)
    have e3 : min a b = min c d := by omega
    have e4 : max a b = max c d := by omega
    rcases le_total a b with hab | hab <;> rcases le_total c d with hcd | hcd
    · rw [min_eq_left hab, min_eq_left hcd] at e3
      rw [max_eq_right hab, max_eq_right hcd] at e4
      exact Or.inl ⟨e3, e4⟩
    · rw [min_eq_left hab, min_eq_right hcd] at e3
      rw [max_eq_right hab, max_eq_left hcd] at e4
      exact Or.inr ⟨e3, e4⟩
    · rw [min_eq_right hab, min_eq_left hcd] at e3
      rw [max_eq_left hab, max_eq_right hcd] at e4
      exact Or.inr ⟨e4, e3⟩
    · rw [min_eq_right hab, min_eq_right hcd] at e3
      rw [max_eq_left hab, max_eq_left hcd] at e4
      exact Or.inl ⟨e4, e3⟩

/-- C14 at the pair `(7, 3)`: the smaller ID comes first in the key. -/
theorem C14_score_key_layout_witness :
    encodeScoreKey 7 3
      = [115, 58] ++ PutUint64 (min (7 : Int) 3).toNat ++ PutUint64 (max (7 : Int) 3).toNat ∧
    (encodeScoreKey 7 3).length = 18 ∧
    bigEndianValue (PutUint64 (min (7 : Int) 3).toNat) = (min (7 : Int) 3).toNat ∧
    bigEndianValue (PutUint64 (max (7 : Int) 3).toNat) = (max (7 : Int) 3).toNat ∧
    decodeScoreKey (encodeScoreKey 7 3) = some (min 7 3, max 7 3) ∧
    (∀ c d : Int, 0 ≤ c → c ≤ 9223372036854775807 → 0 ≤ d → d ≤ 9223372036854775807 →
      encodeScoreKey 7 3 = encodeScoreKey c d → ((7 : Int) = c ∧ (3 : Int) = d) ∨
        ((7 : Int) = d ∧ (3 : Int) = c)) :=
  C14_score_key_layout 7 3 (by decide) (by decide) (by decide) (by decide)

/-- C15, counterexample: in a new store the paths `[1]` and `[2]` are
registered (IDs 1 and 2); a compaction finds the file `[2]` missing and removes
its record; the store is closed and opened again, and `Init` sets the next ID to
the largest stored ID plus one, which is 2; the path `[3]` is registered and
gets the ID 2, which `[2]` had. -/
theorem C15_counterexample_reuse_after_compaction :
    storeLifetime [100]
        [.register [1], .register [2], .compact (envExisting 1), .reopen, .register [3]]
      = some [([1], 1), ([2], 2), ([3], 2)] ∧
    ¬ noReuse [([1], 1), ([2], 2), ([3], 2)] := by
  refine ⟨by decide, fun h => ?_⟩
  have h2 := h ([2], 2) (by simp) ([3], 2) (by simp) rfl
  exact absurd h2 (by decide)

/-- C15, amended: over the lifetime of a persistent store (in a directory
that `Init` accepts), for every sequence of fewer than `2^63 - 2` operations
`RegisterFile`, `CompactDataStore` and close/re-open such that, once a re-open
has found the store without a frame record whose ID is at least every ID handed
out so far (the record of the largest ID handed out was removed by a
compaction, or refused by the store when it was written), every later
`RegisterFile` call is for a path that has a record in the store: every
operation returns, every `RegisterFile` call is recorded with the ID it
returned, and no ID is returned for two different paths. -/
theorem C15_no_reuse_in_safe_lifetime (dir : GoString) (ops : List storeOp)
    (h1 : dir ≠ []) (h2 : dir ≠ [46])
    (hsafe : safeLifetime false (newStore dir, []) ops = true)
    (hlen : ops.length < 9223372036854775806) :
    ∃ assigned, storeLifetime dir ops = some assigned ∧ noReuse assigned ∧
      assigned.map Prod.fst = registeredPaths ops := by
  obtain ⟨o1, o2⟩ := openStore_spec dir h1 h2
  obtain ⟨res, r1, r2, r3⟩ := storeRun_spec ops (newStore dir) [] o2 hsafe (by
    simp only [List.length_nil, Nat.zero_add]
    omega)
  refine ⟨res.2, ?_, r2, by simpa using r3⟩
  simp only [storeLifetime, o1, r1, Option.bind_eq_bind, Option.some_bind, Option.pure_def]

/-- C15, amended, at a lifetime with two compactions, each followed by a
re-open.  The first finds the file `[1]` missing and removes its record: the
record of `[2]`, the largest ID handed out, is in the store at the re-open, and
`[3]` gets the ID 3.  The second removes the record of `[3]`, the largest ID
handed out: after the re-open only `[2]`, which has a record, is registered,
and it gets its ID 2 again. -/
theorem C15_no_reuse_in_safe_lifetime_witness :
    ([100] : GoString) ≠ [] ∧ ([100] : GoString) ≠ [46] ∧
    safeLifetime false (newStore [100], [])
      [.register [1], .register [2], .compact envMissingFirst, .reopen, .register [3],
        .compact (envExisting 2), .reopen, .register [2]] = true ∧
    storeLifetime [100]
        [.register [1], .register [2], .compact envMissingFirst, .reopen, .register [3],
        .compact (envExisting 2), .reopen, .register [2]]
      = some [([1], 1), ([2], 2), ([3], 3), ([2], 2)] ∧
    ∃ assigned, storeLifetime [100]
        [.register [1], .register [2], .compact envMissingFirst, .reopen, .register [3],
        .compact (envExisting 2), .reopen, .register [2]]
        = some assigned ∧ noReuse assigned ∧
      assigned.map Prod.fst = registeredPaths
        [.register [1], .register [2], .compact envMissingFirst, .reopen, .register [3],
        .compact (envExisting 2), .reopen, .register [2]] :=
  ⟨by decide, by decide, by decide, by decide,
    C15_no_reuse_in_safe_lifetime [100]
      [.register [1], .register [2], .compact envMissingFirst, .reopen, .register [3],
        .compact (envExisting 2), .reopen, .register [2]]
      (by decide) (by decide) (by decide) (by decide)⟩

/-- C16, counterexample: over a new persistent store, as `Init` leaves it,
the path `longPath` of 64999 bytes is registered twice.  Its frame key is longer
than the store accepts, so the first call hands out the ID 1 and stores nothing,
and the second call does not find the path and hands out the ID 2: the same
path has two IDs, and `found` is false for a path registered before. -/
theorem C16_counterexample_rejected_write :
    openStore [100] = some ({ MakeState with dataDirectory := [100], persistent := true }, none) ∧
    (encodeFrameKey longPath).length = 65001 ∧
    txnSetFails (encodeFrameKey longPath) = true ∧
    (registerAll { MakeState with dataDirectory := [100], persistent := true }
        [longPath, longPath]).map Prod.snd
      = some [(1, false), (2, false)] := by
  refine ⟨by decide, encodeFrameKey_longPath, txnSetFails_longPath, ?_⟩
  rw [registerAll_two, RegisterFile_longPath_first, Option.some_bind]
  rw [show ((({ MakeState with
        dataDirectory := [100]
        persistent := true
        nextframeID := incInt 1
        frame2image := mapSet [] 1 longPath }, (1 : Int), false) : State × Int × Bool).1)
      = { MakeState with
        dataDirectory := [100]
        persistent := true
        nextframeID := incInt 1
        frame2image := mapSet [] 1 longPath } from rfl, RegisterFile_longPath_second]
  rfl

/-- C16, amended: starting from `MakeState` in the in-memory mode, or from a
new persistent store whose every registered path has a frame key of at most
`maxKeySize` bytes, and registering fewer than `2^63 - 1` paths one after the
other, every call returns, and of the results `(frameID, found)`: every ID is
positive; two calls have the same path exactly when they return the same ID;
`found` is true exactly for a path registered before; the IDs handed out with
`found = false` are strictly increasing in the order of the calls; and in the
state reached, for every call, `GetImageFile` of the ID gives the path, and
registering the path again returns the same ID with `found = true` and leaves
the state as it is. -/
theorem C16_register_bijection (persistent : Bool) (dir : GoString) (paths : List GoString)
    (hlen : paths.length < 9223372036854775807)
    (hfit : persistent = true → ∀ p ∈ paths, txnSetFails (encodeFrameKey p) = false) :
    ∃ st rs, registerAll { MakeState with dataDirectory := dir, persistent := persistent } paths
        = some (st, rs) ∧
      rs.length = paths.length ∧
      (∀ r ∈ rs, 1 ≤ r.1) ∧
      (∀ e1 ∈ paths.zip rs, ∀ e2 ∈ paths.zip rs, (e1.1 = e2.1 ↔ e1.2.1 = e2.2.1)) ∧
      (∀ i, i < paths.length →
        ((rs.getD i (0, false)).2 = true ↔ paths.getD i [] ∈ paths.take i)) ∧
      List.Pairwise (fun a b => a < b) ((rs.filter (fun r => !r.2)).map Prod.fst) ∧
      (∀ e ∈ paths.zip rs, GetImageFile st e.2.1 = (e.1, true) ∧
        RegisterFile st e.1 = some (st, e.2.1, true)) := by
  obtain ⟨st, rs, h0, _, h1, h2, _, h4, _, h6, h7, h8⟩ :=
    registerAll_spec persistent dir paths hlen hfit
  refine ⟨st, rs, h0, h1, fun r hr => (h7 r hr).1, ?_, h6, h8, ?_⟩
  · intro e1 he1 e2 he2
    have k1 := h4 e1 he1
    have k2 := h4 e2 he2
    constructor
    · intro e
      rw [e, k2] at k1
      exact (Option.some.inj k1).symm
    · intro e
      have f1 := (h2.2.2.1 _ _).mp k1
      have f2 := (h2.2.2.1 _ _).mp k2
      rw [e, f2] at f1
      exact (Option.some.inj f1).symm
  · intro e he
    have k := h4 e he
    refine ⟨?_, RegisterFile_known st e.1 e.2.1 h2 k⟩
    have f := (h2.2.2.1 _ _).mp k
    simp only [GetImageFile, f]

/-- C16, amended, at the calls for the paths `[1]`, `[2]`, `[1]`, `[3]` over a
new persistent store in the directory `[100]`: the IDs returned are 1, 2, 1, 3,
and `found` is true for the third call only. -/
theorem C16_register_bijection_witness :
    [[(1 : Byte)], [2], [1], [3]].length < 9223372036854775807 ∧
    (true = true → ∀ p ∈ [[(1 : Byte)], [2], [1], [3]],
      txnSetFails (encodeFrameKey p) = false) ∧
    (registerAll { MakeState with dataDirectory := [100], persistent := true }
        [[1], [2], [1], [3]]).map Prod.snd
      = some [(1, false), (2, false), (1, true), (3, false)] ∧
    ∃ st rs, registerAll { MakeState with dataDirectory := [100], persistent := true }
        [[1], [2], [1], [3]] = some (st, rs) ∧
      rs.length = [[(1 : Byte)], [2], [1], [3]].length ∧
      (∀ r ∈ rs, 1 ≤ r.1) ∧
      (∀ e1 ∈ [[(1 : Byte)], [2], [1], [3]].zip rs, ∀ e2 ∈ [[(1 : Byte)], [2], [1], [3]].zip rs,
        (e1.1 = e2.1 ↔ e1.2.1 = e2.2.1)) ∧
      (∀ i, i < [[(1 : Byte)], [2], [1], [3]].length →
        ((rs.getD i (0, false)).2 = true ↔
          [[(1 : Byte)], [2], [1], [3]].getD i [] ∈ [[(1 : Byte)], [2], [1], [3]].take i)) ∧
      List.Pairwise (fun a b => a < b) ((rs.filter (fun r => !r.2)).map Prod.fst) ∧
      (∀ e ∈ [[(1 : Byte)], [2], [1], [3]].zip rs, GetImageFile st e.2.1 = (e.1, true) ∧
        RegisterFile st e.1 = some (st, e.2.1, true)) :=
  ⟨by decide, fun _ => by decide, by decide,
    C16_register_bijection true [100] [[1], [2], [1], [3]] (by decide) (fun _ => by decide)⟩

/-- C17: for a list of at least two files, over a store whose records have
their full length, `Processor.Unmatch` returns; it returns an error exactly
when some listed file is unknown to the Frame Store; the calls
`UnmatchFrames(frameID1, frameID2, true)` it makes are, in order, one for each
pair of indices `j < i` whose files are both known (`knownPairs`), whatever
unknown files stand in the list; and the processor it leaves differs in the
state only, knows the same files under the same IDs, and, with a persistent
store, holds for every pair of frame IDs the entry it held, with the same score
and with the false-positive flag set if it was set or a call was made for the
pair (a pair without an entry gets none); in the in-memory mode, where
`UnmatchFrames` only logs an error, the state is as it was. -/
theorem C17_unmatch_marks_known_pairs (proc : Processor) (files : List GoString)
    (hlen : 2 ≤ files.length)
    (hS : proc.state.persistent = true → ∀ a b v,
      mapGet proc.state.db (encodeScoreKey a b) = some v → 5 ≤ v.length)
    (hwf : proc.state.persistent = true → ∀ f ∈ files, ∀ v,
      mapGet proc.state.db (encodeFrameKey f) = some v → 8 ≤ v.length) :
    ∃ proc' calls err, Unmatch proc files = some (proc', calls, err) ∧
      (err.isSome = true ↔ ∃ f ∈ files, knownID proc.state f = none) ∧
      calls = knownPairs proc.state files ∧
      (∀ p, p ∈ calls ↔ ∃ i j, j < i ∧ i < files.length ∧
        knownID proc.state (files.getD i []) = some p.1 ∧
        knownID proc.state (files.getD j []) = some p.2) ∧
      proc' = { proc with state := proc'.state } ∧
      (∀ f, knownID proc'.state f = knownID proc.state f) ∧
      (proc.state.persistent = false → proc'.state = proc.state) ∧
      (proc.state.persistent = true → ∀ a b,
        -9223372036854775808 ≤ a → a < 9223372036854775808 →
        -9223372036854775808 ≤ b → b < 9223372036854775808 →
        scoreEntry proc'.state a b
          = (scoreEntry proc.state a b).map (fun e => (e.1, e.2 || markedBy calls a b))) := by
  obtain ⟨res, r1, r2, rm, r3, r4⟩ := unmatch_outer_spec proc.state files hS hwf
  refine ⟨{ proc with state := res.1 }, res.2.2,
    if res.2.1 then some "Failed to unmatch files" else none, ?_, ?_, r4,
    fun p => by rw [r4]; exact mem_knownPairs proc.state files p, rfl,
    fun f => knownID_of_unmatchInv proc.state res.1 r2 f, rm.1, ?_⟩
  · have hl : ¬ files.length < 2 := by omega
    unfold Unmatch
    rw [if_neg hl]
    exact (congrArg (fun (o : Option (State × Bool × List (Int × Int))) => o.bind
      (fun final => some ({ proc with state := final.1 }, final.2.2,
        if final.2.1 then some "Failed to unmatch files" else none))) r1)
  · have hiff : res.2.1 = true ↔ ∃ f ∈ files, knownID proc.state f = none := by
      rw [r3, List.any_eq_true]
      constructor
      · rintro ⟨j, hj, hn⟩
        have hj2 : j < files.length := List.mem_range.mp hj
        refine ⟨files.getD j [], ?_, Option.isNone_iff_eq_none.mp hn⟩
        rw [List.getD_eq_getElem?_getD, List.getElem?_eq_getElem hj2]
        exact List.getElem_mem _
      · rintro ⟨f, hf, hn⟩
        obtain ⟨j, hj, rfl⟩ := List.getElem_of_mem hf
        refine ⟨j, List.mem_range.mpr hj, ?_⟩
        rw [List.getD_eq_getElem?_getD, List.getElem?_eq_getElem hj]
        exact Option.isNone_iff_eq_none.mpr hn
    rw [← hiff]
    cases res.2.1 <;> simp
  · intro hp a b ha0 ha1 hb0 hb1
    show scoreEntry res.1 a b = _
    rw [rm.2 hp a b, sameKeyCalled_eq_markedBy res.2.2 a b ha0 ha1 hb0 hb1 (by
      intro c hc
      rw [r4] at hc
      obtain ⟨i, j, _, _, h1, h2⟩ := (mem_knownPairs proc.state files c).mp hc
      exact ⟨knownID_bounds _ _ _ hp h1, knownID_bounds _ _ _ hp h2⟩)]

/-- C17 at the store `procKnownFiles` and the list `[1]`, `[9]`, `[3]`, `[2]`,
whose second file is unknown: an error is returned, the calls are for the three
pairs of known files, and afterwards the entries of the pairs `(1, 2)` and
`(1, 3)`, which held the score `ScoreSimilar` unmarked, are marked, and the
pair `(2, 3)`, which had no entry, has none. -/
theorem C17_unmatch_marks_known_pairs_witness :
    2 ≤ [[(1 : Byte)], [9], [3], [2]].length ∧
    knownPairs procKnownFiles.state [[1], [9], [3], [2]] = [(3, 1), (2, 1), (2, 3)] ∧
    scoreEntry procKnownFiles.state 1 2 = some (ScoreSimilar, false) ∧
    scoreEntry procKnownFiles.state 1 3 = some (ScoreSimilar, false) ∧
    scoreEntry procKnownFiles.state 2 3 = none ∧
    (Unmatch procKnownFiles [[1], [9], [3], [2]]).map (fun r => scoreEntry r.1.state 1 2)
      = some (some (ScoreSimilar, true)) ∧
    (Unmatch procKnownFiles [[1], [9], [3], [2]]).map (fun r => scoreEntry r.1.state 1 3)
      = some (some (ScoreSimilar, true)) ∧
    (Unmatch procKnownFiles [[1], [9], [3], [2]]).map (fun r => scoreEntry r.1.state 2 3)
      = some none ∧
    (Unmatch procKnownFiles [[1], [9], [3], [2]]).map (fun r => r.2)
      = some ([(3, 1), (2, 1), (2, 3)], some "Failed to unmatch files") ∧
    ∃ proc' calls err, Unmatch procKnownFiles [[1], [9], [3], [2]] = some (proc', calls, err) ∧
      (err.isSome = true ↔ ∃ f ∈ [[(1 : Byte)], [9], [3], [2]],
        knownID procKnownFiles.state f = none) ∧
      calls = knownPairs procKnownFiles.state [[1], [9], [3], [2]] ∧
      (∀ p, p ∈ calls ↔ ∃ i j, j < i ∧ i < [[(1 : Byte)], [9], [3], [2]].length ∧
        knownID procKnownFiles.state ([[(1 : Byte)], [9], [3], [2]].getD i []) = some p.1 ∧
        knownID procKnownFiles.state ([[(1 : Byte)], [9], [3], [2]].getD j []) = some p.2) ∧
      proc' = { procKnownFiles with state := proc'.state } ∧
      (∀ f, knownID proc'.state f = knownID procKnownFiles.state f) ∧
      (procKnownFiles.state.persistent = false → proc'.state = procKnownFiles.state) ∧
      (procKnownFiles.state.persistent = true → ∀ a b,
        -9223372036854775808 ≤ a → a < 9223372036854775808 →
        -9223372036854775808 ≤ b → b < 9223372036854775808 →
        scoreEntry proc'.state a b
          = (scoreEntry procKnownFiles.state a b).map
              (fun e => (e.1, e.2 || markedBy calls a b))) :=
  ⟨by decide, by decide, by decide, by decide, by decide, by decide, by decide, by decide,
    by decide,
    C17_unmatch_marks_known_pairs procKnownFiles [[1], [9], [3], [2]] (by decide)
      (by
        intro _ a b v hv
        have hdb : ∀ e ∈ procKnownFiles.state.db, 5 ≤ e.2.length := by decide
        exact hdb _ (mem_of_mapGet _ _ _ hv))
      (by
        intro _ f _ v hv
        have hdb : ∀ e ∈ procKnownFiles.state.db,
            e.1.take 2 = [102, 58] → 8 ≤ e.2.length := by decide
        exact hdb _ (mem_of_mapGet _ _ _ hv) rfl)⟩

/-- C18, counterexample: over the cache `storeFourChain`, in which 1 and 2,
2 and 3, 3 and 4 are similar and the other pairs different, the frame list
`[1, 2, 3, 4]` puts all four frames into one bucket, and the frame list
`[1, 3, 4, 2]` of the same frames puts 1, 2, 3 into one bucket and leaves 4
alone in another: the frames 3 and 4 share a bucket in the first run only. -/
theorem C18_counterexample_order_changes_grouping :
    (generateComparisonJobs { MakeProcessor storeFourChain with frames := [1, 2, 3, 4] }).map
        (fun r => (r.1.frameBuckets, requestsOf r.2))
      = some ([(2, 1), (1, 1), (3, 1), (4, 1)], []) ∧
    (generateComparisonJobs { MakeProcessor storeFourChain with frames := [1, 3, 4, 2] }).map
        (fun r => (r.1.frameBuckets, requestsOf r.2))
      = some ([(4, 1), (3, 2), (2, 2), (1, 2)], []) ∧
    sameBucket [(2, 1), (1, 1), (3, 1), (4, 1)] 3 4 = true ∧
    sameBucket [(4, 1), (3, 2), (2, 2), (1, 2)] 3 4 = false ∧
    List.Perm [1, 3, 4, 2] [1, 2, 3, 4] := by
  refine ⟨by decide, by decide, by decide, by decide, by decide⟩

/-- C18, amended: two runs of the comparison stage over the same cache, with
no frame assigned at the start, whose frame lists enumerate the same frames
without repetition in any two orders; the cache holds a score for every pair of
the frames, and matching (a cached score that is not a false positive and at
most `SimilarityThreshold`) is transitive on the frames.  Then both runs
return and send no request, the same frames share a bucket in both, and two
different frames share a bucket exactly when they match. -/
theorem C18_grouping_order_independent (proc1 proc2 : Processor)
    (hstate : proc2.state = proc1.state)
    (hign : proc2.IgnoreFalsePositives = proc1.IgnoreFalsePositives)
    (hb1 : proc1.frameBuckets = []) (hb2 : proc2.frameBuckets = [])
    (hnodup : proc1.frames.Nodup) (hperm : proc2.frames.Perm proc1.frames)
    (hfull : ∀ x ∈ proc1.frames, ∀ y ∈ proc1.frames, x ≠ y →
      (GetComparisonScore proc1.state x y).map Prod.snd = some true)
    (htrans : ∀ x ∈ proc1.frames, ∀ y ∈ proc1.frames, ∀ z ∈ proc1.frames,
      x ≠ y → y ≠ z → x ≠ z →
      cachedMatch proc1.state proc1.IgnoreFalsePositives x y = true →
      cachedMatch proc1.state proc1.IgnoreFalsePositives y z = true →
      cachedMatch proc1.state proc1.IgnoreFalsePositives x z = true) :
    ∃ r1 t1 r2 t2, generateComparisonJobs proc1 = some (r1, t1) ∧
      generateComparisonJobs proc2 = some (r2, t2) ∧
      requestsOf t1 = [] ∧ requestsOf t2 = [] ∧
      (∀ x y, sameBucket r1.frameBuckets x y = sameBucket r2.frameBuckets x y) ∧
      (∀ x y, sameBucket r1.frameBuckets x y = true ↔
        (x ≠ y ∧ x ∈ proc1.frames ∧ y ∈ proc1.frames ∧
          cachedMatch proc1.state proc1.IgnoreFalsePositives x y = true) ∨
        (x = y ∧ x ∈ proc1.frames ∧ ∃ w ∈ proc1.frames, w ≠ x ∧
          cachedMatch proc1.state proc1.IgnoreFalsePositives x w = true)) := by
  have hrun : ∀ (proc : Processor), proc.state = proc1.state →
      proc.IgnoreFalsePositives = proc1.IgnoreFalsePositives → proc.frameBuckets = [] →
      proc.frames.Perm proc1.frames →
      ∃ r t, generateComparisonJobs proc = some (r, t) ∧ requestsOf t = [] ∧
        ∀ x y, sameBucket r.frameBuckets x y = true ↔
          (x ≠ y ∧ x ∈ proc1.frames ∧ y ∈ proc1.frames ∧
            cachedMatch proc1.state proc1.IgnoreFalsePositives x y = true) ∨
          (x = y ∧ x ∈ proc1.frames ∧ ∃ w ∈ proc1.frames, w ≠ x ∧
            cachedMatch proc1.state proc1.IgnoreFalsePositives x w = true) := by
    intro proc hs hi hb hp
    have hnd : proc.frames.Nodup := hp.nodup_iff.mpr hnodup
    have hfound : ∀ p ∈ enumeratedPairs proc.frames,
        ∃ v, GetComparisonScore proc.state p.1 p.2 = some (v, true) := by
      intro p hpm
      have hm := mem_enumeratedPairs proc.frames p.1 p.2 hpm
      have hne := ne_of_mem_enumeratedPairs proc.frames hnd p.1 p.2 hpm
      have hf := hfull p.1 (hp.mem_iff.mp hm.1) p.2 (hp.mem_iff.mp hm.2) hne
      rw [hs]
      cases hg : GetComparisonScore proc1.state p.1 p.2 with
      | none => simp [hg] at hf
      | some r =>
        obtain ⟨v, f⟩ := r
        simp only [hg, Option.map_some', Option.some.injEq] at hf
        exact ⟨v, by rw [← hf]⟩
    obtain ⟨r, g1, _⟩ := generateComparisonJobs_spec proc (fun p hpm => by
      obtain ⟨v, hv⟩ := hfound p hpm
      rw [hv]
      rfl)
    have hbk := generateComparisonJobs_buckets proc r _ g1
    have hfun : consumeCached proc.state proc.IgnoreFalsePositives
        = groupStep (cachedMatch proc1.state proc1.IgnoreFalsePositives) := by
      funext b p
      rw [consumeCached_eq_groupStep, hs, hi]
    rw [hfun, hb] at hbk
    have hinv := grouping_spec (cachedMatch proc1.state proc1.IgnoreFalsePositives)
      proc.nextBucket (cachedMatch_comm _ _) proc.frames hnd
      (fun a c d ha hc hd => htrans a (hp.mem_iff.mp ha) c (hp.mem_iff.mp hc) d
        (hp.mem_iff.mp hd))
    rw [← hbk] at hinv
    refine ⟨r, _, g1, (all_hits_of_found proc.state _ hfound).1, ?_⟩
    intro x y
    have := sameBucket_of_groupingInv _ _ _ (cachedMatch_comm _ _) hinv x y
    simp only [hp.mem_iff] at this
    exact this
  obtain ⟨r1, t1, a1, a2, a3⟩ := hrun proc1 rfl rfl hb1 (List.Perm.refl _)
  obtain ⟨r2, t2, b1, b2, b3⟩ := hrun proc2 hstate hign hb2 hperm
  refine ⟨r1, t1, r2, t2, a1, b1, a2, b2, ?_, a3⟩
  intro x y
  rw [Bool.eq_iff_iff, a3, b3]

/-- C18, amended, at the cache `storeFourPaired` and the frame lists
`[1, 2, 3, 4]` and `[1, 3, 4, 2]`: in both runs 1 and 2 share a bucket, 3 and
4 share a bucket, and 2 and 3 do not. -/
theorem C18_grouping_order_independent_witness :
    (procFourPaired [1, 2, 3, 4]).frames.Nodup ∧
    (procFourPaired [1, 3, 4, 2]).frames.Perm (procFourPaired [1, 2, 3, 4]).frames ∧
    (generateComparisonJobs (procFourPaired [1, 2, 3, 4])).map (fun r => r.1.frameBuckets)
      = some [(2, 1), (1, 1), (4, 2), (3, 2)] ∧
    (generateComparisonJobs (procFourPaired [1, 3, 4, 2])).map (fun r => r.1.frameBuckets)
      = some [(4, 1), (3, 1), (2, 2), (1, 2)] ∧
    ∃ r1 t1 r2 t2, generateComparisonJobs (procFourPaired [1, 2, 3, 4]) = some (r1, t1) ∧
      generateComparisonJobs (procFourPaired [1, 3, 4, 2]) = some (r2, t2) ∧
      requestsOf t1 = [] ∧ requestsOf t2 = [] ∧
      (∀ x y, sameBucket r1.frameBuckets x y = sameBucket r2.frameBuckets x y) ∧
      (∀ x y, sameBucket r1.frameBuckets x y = true ↔
        (x ≠ y ∧ x ∈ (procFourPaired [1, 2, 3, 4]).frames ∧
          y ∈ (procFourPaired [1, 2, 3, 4]).frames ∧
          cachedMatch (procFourPaired [1, 2, 3, 4]).state
            (procFourPaired [1, 2, 3, 4]).IgnoreFalsePositives x y = true) ∨
        (x = y ∧ x ∈ (procFourPaired [1, 2, 3, 4]).frames ∧
          ∃ w ∈ (procFourPaired [1, 2, 3, 4]).frames, w ≠ x ∧
          cachedMatch (procFourPaired [1, 2, 3, 4]).state
            (procFourPaired [1, 2, 3, 4]).IgnoreFalsePositives x w = true)) :=
  ⟨by decide, by decide, by decide, by decide,
    C18_grouping_order_independent (procFourPaired [1, 2, 3, 4]) (procFourPaired [1, 3, 4, 2])
      rfl rfl rfl rfl (by decide) (by decide) (by decide) (by decide)⟩

/-- C19: non-match signals never touch buckets.  For every bucket state and
every score `s` that is flagged false-positive (`s < 0` with
`IgnoreFalsePositives` off) or exceeds the threshold (`s > 0.5`),
`bucketResults` leaves the frame-to-bucket map, `nextBucket` and the match
counter as they are; for a false-positive score the false-positive counter
goes up by exactly one, and for a score above the threshold nothing changes
at all. -/
theorem C19_non_match_leaves_buckets (proc : Processor) (frameID1 frameID2 : Int)
    (s : float32)
    (h : (float32.lt s float32.zero = true ∧ proc.IgnoreFalsePositives = false) ∨
      float32.lt SimilarityThreshold s = true) :
    (bucketResults proc frameID1 frameID2 s).frameBuckets = proc.frameBuckets ∧
    (bucketResults proc frameID1 frameID2 s).nextBucket = proc.nextBucket ∧
    (bucketResults proc frameID1 frameID2 s).stats.NumMatches = proc.stats.NumMatches ∧
    ((float32.lt s float32.zero = true ∧ proc.IgnoreFalsePositives = false) →
      (bucketResults proc frameID1 frameID2 s).stats.NumFalsePositives
        = proc.stats.NumFalsePositives + 1) ∧
    (float32.lt SimilarityThreshold s = true → bucketResults proc frameID1 frameID2 s = proc) := by
  have habove : float32.lt SimilarityThreshold s = true →
      float32.lt s float32.zero = false ∧ float32.le s SimilarityThreshold = false := by
    intro hgt
    simp only [float32.lt, float32.le, Bool.and_eq_true, Bool.not_eq_true',
      decide_eq_true_eq] at hgt ⊢
    obtain ⟨⟨h1, h2⟩, h3⟩ := hgt
    have hk : SimilarityThreshold.key = 1056964608 := by decide
    have hz : float32.zero.key = 0 := by decide
    rw [hk] at h3
    constructor
    · rw [hz]
      have : ¬ s.key < 0 := by omega
      simp [this]
    · rw [hk]
      have : ¬ s.key ≤ 1056964608 := by omega
      simp [this]
  have hfp : (float32.lt s float32.zero = true ∧ proc.IgnoreFalsePositives = false) →
      bucketResults proc frameID1 frameID2 s =
        { proc with
          stats := { proc.stats with
            NumFalsePositives := proc.stats.NumFalsePositives + 1 } } := by
    rintro ⟨h1, h2⟩
    simp [bucketResults, isFalsePositive, h1, h2]
  have hno : float32.lt SimilarityThreshold s = true →
      bucketResults proc frameID1 frameID2 s = proc := by
    intro hgt
    obtain ⟨h1, h2⟩ := habove hgt
    simp [bucketResults, isFalsePositive, h1, h2]
  rcases h with h | h
  · rw [hfp h]
    refine ⟨rfl, rfl, rfl, fun _ => rfl, fun hgt => ?_⟩
    have := (habove hgt).1
    rw [h.1] at this
    exact absurd this (by simp)
  · rw [hno h]
    refine ⟨rfl, rfl, rfl, fun hf => ?_, fun _ => rfl⟩
    have := (habove h).1
    rw [hf.1] at this
    exact absurd this (by simp)

/-- C19 at a false-positive score, `-ScoreSimilar`, in `procTwoBuckets`. -/
theorem C19_non_match_leaves_buckets_witness :
    (bucketResults procTwoBuckets 1 2 ScoreSimilar.neg).frameBuckets
      = procTwoBuckets.frameBuckets ∧
    (bucketResults procTwoBuckets 1 2 ScoreSimilar.neg).nextBucket
      = procTwoBuckets.nextBucket ∧
    (bucketResults procTwoBuckets 1 2 ScoreSimilar.neg).stats.NumMatches
      = procTwoBuckets.stats.NumMatches ∧
    ((float32.lt ScoreSimilar.neg float32.zero = true ∧
        procTwoBuckets.IgnoreFalsePositives = false) →
      (bucketResults procTwoBuckets 1 2 ScoreSimilar.neg).stats.NumFalsePositives
        = procTwoBuckets.stats.NumFalsePositives + 1) ∧
    (float32.lt SimilarityThreshold ScoreSimilar.neg = true →
      bucketResults procTwoBuckets 1 2 ScoreSimilar.neg = procTwoBuckets) :=
  C19_non_match_leaves_buckets procTwoBuckets 1 2 ScoreSimilar.neg
    (Or.inl ⟨by decide, by decide⟩)

/-- C20: an oracle failure is contained.  A response carrying an error makes
`processComparisonResults` write nothing to the score cache (every later
`GetComparisonScore` answers as before, so a pair that was not found is still
not found) and leaves the frame-to-bucket map and `nextBucket` unchanged; so
does any number of such responses, and so does the response `fcmpWorker`
builds when the oracle fails.  A response without error is stored with
`SetComparisonScore`, that is with the false-positive flag off, so that the
pair is then found with the score of the response, and after that it is
bucketed by `bucketResults`. -/
theorem C20_oracle_failure_contained (proc : Processor) (rsp : fcmpResponse) :
    (rsp.err.isSome = true →
      (processComparisonResults proc [rsp]).state = proc.state ∧
      (processComparisonResults proc [rsp]).frameBuckets = proc.frameBuckets ∧
      (processComparisonResults proc [rsp]).nextBucket = proc.nextBucket ∧
      (∀ a b, GetComparisonScore (processComparisonResults proc [rsp]).state a b
        = GetComparisonScore proc.state a b)) ∧
    (∀ rs : List fcmpResponse, (∀ r ∈ rs, r.err.isSome = true) →
      (processComparisonResults proc rs).state = proc.state ∧
      (processComparisonResults proc rs).frameBuckets = proc.frameBuckets ∧
      (processComparisonResults proc rs).nextBucket = proc.nextBucket) ∧
    (∀ (compareImageFiles : GoString → GoString → float32 × Option String) (env : Env)
        (req : fcmpRequest),
      (compareImageFiles (GetFrameFileName env proc.state req.frameID1)
        (GetFrameFileName env proc.state req.frameID2)).2.isSome = true →
      (processComparisonResults proc [fcmpWorker compareImageFiles env proc.state req]).state
        = proc.state) ∧
    (rsp.err = none →
      (processComparisonResults proc [rsp]).state
        = SetComparisonScore proc.state rsp.frameID1 rsp.frameID2 rsp.score ∧
      GetComparisonScore (processComparisonResults proc [rsp]).state rsp.frameID1 rsp.frameID2
        = some (rsp.score, true) ∧
      ((processComparisonResults proc [rsp]).frameBuckets,
          (processComparisonResults proc [rsp]).nextBucket)
        = bucketStep proc.IgnoreFalsePositives (proc.frameBuckets, proc.nextBucket)
            rsp.frameID1 rsp.frameID2 rsp.score ∧
      (processComparisonResults proc [rsp]).frameBuckets
        = (bucketResults
            { proc with
              state := SetComparisonScore proc.state rsp.frameID1 rsp.frameID2 rsp.score }
            rsp.frameID1 rsp.frameID2 rsp.score).frameBuckets) := by
  refine ⟨fun h => ?_, fun rs h => processComparisonResults_errors rs proc h, ?_, fun h => ?_⟩
  · obtain ⟨h1, h2, h3⟩ := processComparisonResults_errors [rsp] proc (by simpa using h)
    exact ⟨h1, h2, h3, fun a b => by rw [h1]⟩
  · intro cmp env req h
    exact (processComparisonResults_errors [fcmpWorker cmp env proc.state req] proc
      (by simpa [fcmpWorker] using h)).1
  · have hst : (processComparisonResults proc [rsp]).state
        = SetComparisonScore proc.state rsp.frameID1 rsp.frameID2 rsp.score := by
      rw [processComparisonResults_cons]
      simp only [h, Option.isNone_none, if_true, processComparisonResults, List.foldl_nil]
      exact (bucketResults_frame _ _ _ _).1
    have hb := bucketResults_bucketStep
      { proc with state := SetComparisonScore proc.state rsp.frameID1 rsp.frameID2 rsp.score }
      rsp.frameID1 rsp.frameID2 rsp.score
    have hfb : (processComparisonResults proc [rsp]).frameBuckets
        = (bucketResults
            { proc with
              state := SetComparisonScore proc.state rsp.frameID1 rsp.frameID2 rsp.score }
            rsp.frameID1 rsp.frameID2 rsp.score).frameBuckets := by
      rw [processComparisonResults_cons]
      simp only [h, Option.isNone_none, if_true, processComparisonResults, List.foldl_nil]
    have hnb : (processComparisonResults proc [rsp]).nextBucket
        = (bucketResults
            { proc with
              state := SetComparisonScore proc.state rsp.frameID1 rsp.frameID2 rsp.score }
            rsp.frameID1 rsp.frameID2 rsp.score).nextBucket := by
      rw [processComparisonResults_cons]
      simp only [h, Option.isNone_none, if_true, processComparisonResults, List.foldl_nil]
    refine ⟨hst, ?_, ?_, hfb⟩
    · rw [hst]
      exact GetComparisonScore_SetComparisonScore _ _ _ _
    · rw [hfb, hnb, hb]

/-- C21, counterexample: in the persistent store `storeSimilarScore` the pair
`(1, 2)` is marked as a false positive by `UnmatchFrames`; then
`SetComparisonScore(2, 1, ScoreDifferent)` overwrites the entry: the stored
score is the new one and the false-positive flag is off again, and
`GetComparisonScore(1, 2)` no longer answers with a negative score. -/
theorem C21_counterexample_set_overwrites_entry :
    (UnmatchFrames storeSimilarScore 1 2 true).map (fun st => scoreEntry st 1 2)
      = some (some (ScoreSimilar, true)) ∧
    (UnmatchFrames storeSimilarScore 1 2 true).map
        (fun st => scoreEntry (SetComparisonScore st 2 1 ScoreDifferent) 1 2)
      = some (some (ScoreDifferent, false)) ∧
    (UnmatchFrames storeSimilarScore 1 2 true).bind (fun st => GetComparisonScore st 1 2)
      = some (ScoreSimilar.neg, true) ∧
    (UnmatchFrames storeSimilarScore 1 2 true).bind
        (fun st => GetComparisonScore (SetComparisonScore st 2 1 ScoreDifferent) 1 2)
      = some (ScoreDifferent, true) := by
  refine ⟨by decide, by decide, by decide, by decide⟩

/-- C21, amended: let the Score Cache hold the entry `e` for the pair
`(a, b)` of frame IDs (Go `int` values).  `SetComparisonScore` for any other
pair leaves the entry as it is, while for `(a, b)` or `(b, a)` it replaces the
score and turns the flag off; `GetComparisonScore`, which only reads, answers
with the score of the entry, negated when the flag is set; `RegisterFile`
leaves the entry as it is; `UnmatchFrames` keeps the score and, with a
persistent store, sets the flag.  In a run of the comparison stage the entry is
left as it is: `SetComparisonScore` is only called for the responses to the
requests sent, and a request is sent only for a pair without an entry. -/
theorem C21_entry_kept_by_other_operations (st : State) (a b : Int) (e : float32 × Bool)
    (ha0 : -9223372036854775808 ≤ a) (ha1 : a < 9223372036854775808)
    (hb0 : -9223372036854775808 ≤ b) (hb1 : b < 9223372036854775808)
    (he : scoreEntry st a b = some e) :
    (∀ c d s, -9223372036854775808 ≤ c → c < 9223372036854775808 →
      -9223372036854775808 ≤ d → d < 9223372036854775808 →
      ¬ ((c = a ∧ d = b) ∨ (c = b ∧ d = a)) →
      scoreEntry (SetComparisonScore st c d s) a b = some e) ∧
    (∀ s, scoreEntry (SetComparisonScore st a b s) a b = some (s, false) ∧
      scoreEntry (SetComparisonScore st b a s) a b = some (s, false)) ∧
    GetComparisonScore st a b = some (if e.2 then e.1.neg else e.1, true) ∧
    (∀ p, (st.persistent = true → ∀ v, mapGet st.db (encodeFrameKey p) = some v →
        8 ≤ v.length) →
      ∃ st' id found, RegisterFile st p = some (st', id, found) ∧
        scoreEntry st' a b = some e) ∧
    (∀ fp, ∃ st', UnmatchFrames st a b fp = some st' ∧
      scoreEntry st' a b = some (e.1, if st.persistent then fp else e.2)) ∧
    (∀ (proc proc1 : Processor) (trace : List cmpEvent) (responses : List fcmpResponse),
      proc.state = st →
      (∀ f ∈ proc.frames, -9223372036854775808 ≤ f ∧ f < 9223372036854775808) →
      generateComparisonJobs proc = some (proc1, trace) →
      (∀ rsp ∈ responses,
        ({ frameID1 := rsp.frameID1, frameID2 := rsp.frameID2 } : fcmpRequest)
          ∈ requestsOf trace) →
      scoreEntry (processComparisonResults proc1 responses).state a b = some e) := by
  have hget := GetComparisonScore_of_scoreEntry st a b e he
  refine ⟨?_, ?_, hget, ?_, ?_, ?_⟩
  · intro c d s hc0 hc1 hd0 hd1 hne
    rw [scoreEntry_SetComparisonScore_other st a b c d s ha0 ha1 hb0 hb1 hc0 hc1 hd0 hd1 hne]
    exact he
  · intro s
    refine ⟨scoreEntry_SetComparisonScore_same st a b s, ?_⟩
    rw [scoreEntry_comm]
    exact scoreEntry_SetComparisonScore_same st b a s
  · intro p hwf
    obtain ⟨st', id, found, h1, h2⟩ := scoreEntry_RegisterFile st p a b hwf
    exact ⟨st', id, found, h1, h2.trans he⟩
  · intro fp
    exact scoreEntry_UnmatchFrames st a b e fp he
  · intro proc proc1 trace responses hst hfr hrun hrsp
    obtain ⟨h1, h2⟩ := generateComparisonJobs_requests proc proc1 trace hrun
    rw [scoreEntry_processComparisonResults responses proc1 a b ha0 ha1 hb0 hb1, h1, hst]
    · exact he
    · intro r hr
      obtain ⟨hp, v, hv⟩ := h2 _ (hrsp r hr)
      simp only at hp hv
      obtain ⟨m1, m2⟩ := mem_enumeratedPairs proc.frames _ _ hp
      refine ⟨(hfr _ m1).1, (hfr _ m1).2, (hfr _ m2).1, (hfr _ m2).2, ?_⟩
      rw [hst] at hv
      rintro (⟨e1, e2⟩ | ⟨e1, e2⟩)
      · rw [e1, e2, hget] at hv
        cases hv
      · rw [e1, e2, GetComparisonScore_comm, hget] at hv
        cases hv

/-- C21, amended, at the store `storeMarkedPair`, whose pair `(1, 2)` is
marked as a false positive: the entry is `(ScoreSimilar, true)`. -/
theorem C21_entry_kept_by_other_operations_witness :
    scoreEntry storeMarkedPair 1 2 = some (ScoreSimilar, true) ∧
    (∀ c d s, -9223372036854775808 ≤ c → c < 9223372036854775808 →
      -9223372036854775808 ≤ d → d < 9223372036854775808 →
      ¬ ((c = 1 ∧ d = 2) ∨ (c = 2 ∧ d = 1)) →
      scoreEntry (SetComparisonScore storeMarkedPair c d s) 1 2 = some (ScoreSimilar, true)) ∧
    (∀ s, scoreEntry (SetComparisonScore storeMarkedPair 1 2 s) 1 2 = some (s, false) ∧
      scoreEntry (SetComparisonScore storeMarkedPair 2 1 s) 1 2 = some (s, false)) ∧
    GetComparisonScore storeMarkedPair 1 2 = some (ScoreSimilar.neg, true) ∧
    (∀ p, (storeMarkedPair.persistent = true →
        ∀ v, mapGet storeMarkedPair.db (encodeFrameKey p) = some v → 8 ≤ v.length) →
      ∃ st' id found, RegisterFile storeMarkedPair p = some (st', id, found) ∧
        scoreEntry st' 1 2 = some (ScoreSimilar, true)) ∧
    (∀ fp, ∃ st', UnmatchFrames storeMarkedPair 1 2 fp = some st' ∧
      scoreEntry st' 1 2 = some (ScoreSimilar, fp)) ∧
    (∀ (proc proc1 : Processor) (trace : List cmpEvent) (responses : List fcmpResponse),
      proc.state = storeMarkedPair →
      (∀ f ∈ proc.frames, -9223372036854775808 ≤ f ∧ f < 9223372036854775808) →
      generateComparisonJobs proc = some (proc1, trace) →
      (∀ rsp ∈ responses,
        ({ frameID1 := rsp.frameID1, frameID2 := rsp.frameID2 } : fcmpRequest)
          ∈ requestsOf trace) →
      scoreEntry (processComparisonResults proc1 responses).state 1 2
        = some (ScoreSimilar, true)) :=
  ⟨by decide,
    C21_entry_kept_by_other_operations storeMarkedPair 1 2 (ScoreSimilar, true)
      (by decide) (by decide) (by decide) (by decide) (by decide)⟩

/-- C22: extraction retry.  For every tool and every world, `generateFrame`
runs the tool for the offset `00:10`; if that attempt fails, for `00:03`; if
that fails too, for `00:01`; each in the world the attempt before left.  It
stops at the first attempt without error, makes at most three attempts, and
returns an error exactly when all three fail (the error of the last).  An
attempt is one run of `ffmpeg` with the offset after `-ss`; it is without
error exactly when the run reports no error and `os.Stat` then finds the frame
file. -/
theorem C22_extraction_retry {ω : Type} (env : ToolEnv ω) (w : ω) (path frameFile : String) :
    (∀ w1 offset,
      (generateFrameAtOffset env w1 path frameFile offset).1
        = (env.run w1 "ffmpeg" (ffmpegArgs path frameFile offset)).1 ∧
      ((generateFrameAtOffset env w1 path frameFile offset).2 = none ↔
        (env.run w1 "ffmpeg" (ffmpegArgs path frameFile offset)).2 = runResult.ok ∧
        env.statOk (env.run w1 "ffmpeg" (ffmpegArgs path frameFile offset)).1 frameFile
          = true) ∧
      (ffmpegArgs path frameFile offset).getD 3 "" = "-ss" ∧
      (ffmpegArgs path frameFile offset).getD 4 "" = offset) ∧
    ((generateFrameAtOffset env w path frameFile "00:10").2 = none →
      generateFrame env w path frameFile
        = ((generateFrameAtOffset env w path frameFile "00:10").1, ["00:10"], none)) ∧
    ((generateFrameAtOffset env w path frameFile "00:10").2 ≠ none →
      (generateFrameAtOffset env (generateFrameAtOffset env w path frameFile "00:10").1
        path frameFile "00:03").2 = none →
      generateFrame env w path frameFile
        = ((generateFrameAtOffset env (generateFrameAtOffset env w path frameFile "00:10").1
            path frameFile "00:03").1, ["00:10", "00:03"], none)) ∧
    ((generateFrameAtOffset env w path frameFile "00:10").2 ≠ none →
      (generateFrameAtOffset env (generateFrameAtOffset env w path frameFile "00:10").1
        path frameFile "00:03").2 ≠ none →
      generateFrame env w path frameFile
        = ((generateFrameAtOffset env
            (generateFrameAtOffset env (generateFrameAtOffset env w path frameFile "00:10").1
              path frameFile "00:03").1 path frameFile "00:01").1,
          ["00:10", "00:03", "00:01"],
          (generateFrameAtOffset env
            (generateFrameAtOffset env (generateFrameAtOffset env w path frameFile "00:10").1
              path frameFile "00:03").1 path frameFile "00:01").2)) ∧
    ((generateFrame env w path frameFile).2.2.isSome = true ↔
      (generateFrameAtOffset env w path frameFile "00:10").2 ≠ none ∧
      (generateFrameAtOffset env (generateFrameAtOffset env w path frameFile "00:10").1
        path frameFile "00:03").2 ≠ none ∧
      (generateFrameAtOffset env
        (generateFrameAtOffset env (generateFrameAtOffset env w path frameFile "00:10").1
          path frameFile "00:03").1 path frameFile "00:01").2 ≠ none) ∧
    (generateFrame env w path frameFile).2.1.length ≤ 3 ∧
    (generateFrame env w path frameFile).2.1
      = ["00:10", "00:03", "00:01"].take (generateFrame env w path frameFile).2.1.length := by
  have hat : ∀ w1 offset,
      (generateFrameAtOffset env w1 path frameFile offset).1
        = (env.run w1 "ffmpeg" (ffmpegArgs path frameFile offset)).1 ∧
      ((generateFrameAtOffset env w1 path frameFile offset).2 = none ↔
        (env.run w1 "ffmpeg" (ffmpegArgs path frameFile offset)).2 = runResult.ok ∧
        env.statOk (env.run w1 "ffmpeg" (ffmpegArgs path frameFile offset)).1 frameFile
          = true) := by
    intro w1 offset
    unfold generateFrameAtOffset
    cases hr : (env.run w1 "ffmpeg" (ffmpegArgs path frameFile offset)).2 with
    | ok =>
      by_cases hs : env.statOk (env.run w1 "ffmpeg" (ffmpegArgs path frameFile offset)).1
          frameFile = true
      · simp [hr, hs]
      · simp [hr, hs]
    | exitError code => simp [hr]
    | otherError => simp [hr]
  refine ⟨fun w1 offset => ⟨(hat w1 offset).1, (hat w1 offset).2, rfl, rfl⟩, ?_⟩
  generalize h1 : generateFrameAtOffset env w path frameFile "00:10" = a1
  generalize h2 : generateFrameAtOffset env a1.1 path frameFile "00:03" = a2
  generalize h3 : generateFrameAtOffset env a2.1 path frameFile "00:01" = a3
  have hgen : generateFrame env w path frameFile =
      match a1.2 with
      | none => (a1.1, ["00:10"], none)
      | some _ =>
        match a2.2 with
        | none => (a2.1, ["00:10", "00:03"], none)
        | some _ => (a3.1, ["00:10", "00:03", "00:01"], a3.2) := by
    simp only [generateFrame, generateFrameLoop, h1, List.nil_append]
    cases e1 : a1.2 with
    | none => rfl
    | some err1 =>
      simp only [h2, List.singleton_append]
      cases e2 : a2.2 with
      | none => rfl
      | some err2 =>
        simp only [h3, List.cons_append, List.nil_append]
        cases e3 : a3.2 <;> rfl
  rw [hgen]
  cases e1 : a1.2 with
  | none => simp
  | some err1 =>
    cases e2 : a2.2 with
    | none => simp
    | some err2 =>
      cases e3 : a3.2 <;> simp

/-- C22 at a video for which only the attempts at `00:03` and `00:01` can
succeed (`toolShortVideo`): the offsets attempted are `00:10` and `00:03`, and
no error is returned. -/
theorem C22_extraction_retry_witness :
    generateFrame toolShortVideo [] "a.mp4" "frame000001.jpg"
      = (["frame000001.jpg"], ["00:10", "00:03"], none) :=
  ((C22_extraction_retry toolShortVideo [] "a.mp4" "frame000001.jpg").2.2.1
    (by decide) (by decide)).trans (by decide)

/-- C23: for every bucket state, whatever the assignment of the two frames
before, and every score `s` with `0 <= s <= SimilarityThreshold`, after
`bucketResults(frameID1, frameID2, s)` both frames are assigned to one and the
same bucket, the match counter is one higher, and every other frame has the
assignment it had; and if before the call the next bucket is at least 1 and
every bucket in use is in `[1, nextBucket)`, as `MakeProcessor` leaves it, the
same holds after the call. -/
theorem C23_match_puts_both_in_one_bucket (proc : Processor) (frameID1 frameID2 : Int)
    (s : float32)
    (hs0 : float32.le float32.zero s = true)
    (hs1 : float32.le s SimilarityThreshold = true) :
    (∃ bucket,
      mapGet (bucketResults proc frameID1 frameID2 s).frameBuckets frameID1 = some bucket ∧
      mapGet (bucketResults proc frameID1 frameID2 s).frameBuckets frameID2 = some bucket) ∧
    (bucketResults proc frameID1 frameID2 s).stats.NumMatches = proc.stats.NumMatches + 1 ∧
    (∀ f, f ≠ frameID1 → f ≠ frameID2 →
      mapGet (bucketResults proc frameID1 frameID2 s).frameBuckets f
        = mapGet proc.frameBuckets f) ∧
    (bucketRange proc → bucketRange (bucketResults proc frameID1 frameID2 s)) ∧
    (∀ st, bucketRange (MakeProcessor st)) := by
  obtain ⟨hj, hm⟩ := bucketResults_joinBuckets proc frameID1 frameID2 s hs0 hs1
  obtain ⟨b, hget, _⟩ := joinBuckets_spec proc.frameBuckets proc.nextBucket frameID1 frameID2
  have hfb : (bucketResults proc frameID1 frameID2 s).frameBuckets
      = (joinBuckets (proc.frameBuckets, proc.nextBucket) frameID1 frameID2).1 :=
    congrArg Prod.fst hj
  have hnb : (bucketResults proc frameID1 frameID2 s).nextBucket
      = (joinBuckets (proc.frameBuckets, proc.nextBucket) frameID1 frameID2).2 :=
    congrArg Prod.snd hj
  refine ⟨⟨b, ?_, ?_⟩, hm, ?_, ?_, ?_⟩
  · rw [hfb, hget, if_pos (Or.inl rfl)]
  · rw [hfb, hget, if_pos (Or.inr rfl)]
  · intro f h1 h2
    rw [hfb, hget, if_neg (by tauto)]
  · intro hr
    have := joinBuckets_range proc.frameBuckets proc.nextBucket frameID1 frameID2 hr.1 hr.2
    unfold bucketRange
    rw [hfb, hnb]
    exact this
  · intro st
    exact ⟨Int.le_refl 1, fun e he => absurd he (List.not_mem_nil _)⟩

/-- C23 at `procTwoBuckets`, where frame 1 is in bucket 1 and frame 2 in
bucket 2: after the call both are in bucket 1. -/
theorem C23_match_puts_both_in_one_bucket_witness :
    float32.le float32.zero ScoreSimilar = true ∧
    float32.le ScoreSimilar SimilarityThreshold = true ∧
    bucketRange procTwoBuckets ∧
    (bucketResults procTwoBuckets 1 2 ScoreSimilar).frameBuckets = [(1, 1), (2, 1)] ∧
    (∃ bucket,
      mapGet (bucketResults procTwoBuckets 1 2 ScoreSimilar).frameBuckets 1 = some bucket ∧
      mapGet (bucketResults procTwoBuckets 1 2 ScoreSimilar).frameBuckets 2 = some bucket) ∧
    (bucketResults procTwoBuckets 1 2 ScoreSimilar).stats.NumMatches
      = procTwoBuckets.stats.NumMatches + 1 ∧
    (∀ f, f ≠ 1 → f ≠ 2 →
      mapGet (bucketResults procTwoBuckets 1 2 ScoreSimilar).frameBuckets f
        = mapGet procTwoBuckets.frameBuckets f) ∧
    (bucketRange procTwoBuckets → bucketRange (bucketResults procTwoBuckets 1 2 ScoreSimilar)) ∧
    (∀ st, bucketRange (MakeProcessor st)) :=
  ⟨by decide, by decide, by unfold bucketRange; decide, by decide,
    C23_match_puts_both_in_one_bucket procTwoBuckets 1 2 ScoreSimilar (by decide) (by decide)⟩

end Vidsim
